import Mathlib

/-!
Verification of the type-inference core of the escalier/cricket repository.

The main embedding (namespace `Escalier`) follows the arena-based checker in
crates/escalier_hm: the type model and the functions `unify`, `bind`,
`unify_call` and `simplify_intersection` from src/unify.rs, and
`instantiate_scheme` / the `Fresh` visitor from src/context.rs.  The repository
does not ship crates/escalier_hm/src/util.rs (only its callers are present), so
the helpers it provides (`prune`, `occurs_in_type`, `occurs_in`, the `new_*`
arena constructors, `expand_alias`, `instantiate_func`) are modelled from the
spec; each such definition carries a doc comment saying so.

Rust's `&mut Arena<Type>` is modelled by explicit state passing: every function
returns the (possibly mutated) arena next to its result, and mutations made
before a failure persist, exactly as with a `&mut` borrow.  General recursion
on arena indices (which may be cyclic) is made total with an explicit `fuel`
parameter; running out of fuel yields the distinguished error `Err.outOfFuel`,
which corresponds to non-termination of the Rust code and is produced by no
other path.  Machine integers only index the arena, so they are modelled as
`Nat`.  Diagnostic strings built with `as_string` are modelled structurally:
each `Errors::InferenceError(format!(..))` in the source becomes one
constructor of `Err` carrying the data interpolated into the format string.

A second, small embedding (`OldInfer`) covers src/src/infer.rs, the older
constraint-solver checker, whose `generalize` is the subject of one claim, and
`ThrowsModel` models the try/catch inference rule of the checker, whose
expression-inference module is not among the provided sources.
-/

namespace Escalier

/-- Literal types, from escalier_ast's `Literal` as used by unify.rs
(`Lit::Boolean`, `Lit::Number`, `Lit::String`); numbers keep their source
text, so `1.0` and `1` are distinct. -/
inductive Lit where
  | boolean (value : Bool)
  | number (value : String)
  | str (value : String)
deriving DecidableEq, Repr

/-- Function parameter (types.rs `FuncParam`): the binding pattern is only ever
built as `TPat::Ident` and only its name is consulted, so the pattern is
modelled by the identifier name. -/
structure FuncParam where
  name : String
  t : Nat
  optional : Bool
deriving DecidableEq, Repr

/-- Type parameter of a generic function or scheme (types.rs `TypeParam`). -/
structure TypeParam where
  name : String
  constraint : Option Nat
  default : Option Nat
deriving DecidableEq, Repr

/-- Property key (types.rs `TPropKey`). -/
inductive TPropKey where
  | stringKey (k : String)
  | numberKey (k : String)
deriving DecidableEq, Repr

/-- Key text of a property key, as produced by the `match` on `TPropKey` in
unify.rs and simplify_intersection. -/
def TPropKey.text : TPropKey → String
  | .stringKey k => k
  | .numberKey k => k

/-- Object property (types.rs `TProp`). -/
structure TProp where
  name : TPropKey
  optional : Bool
  mutable : Bool
  t : Nat
deriving DecidableEq, Repr

/-- Object method (types.rs `TMethod`); only its name, params and return type
are consulted by the code under verification. -/
structure TMethod where
  name : TPropKey
  params : List FuncParam
  ret : Nat
deriving DecidableEq, Repr

/-- Index signature (types.rs `TIndex`); only reached by `todo!()` paths in the
code under verification. -/
structure TIndex where
  t : Nat
  mutable : Bool
deriving DecidableEq, Repr

/-- Object element (types.rs `TObjElem`). -/
inductive TObjElem where
  | prop (p : TProp)
  | method (m : TMethod)
  | index (i : TIndex)
deriving DecidableEq, Repr

/-- Arena type node.  Rust wraps this as `Type { kind: TypeKind }`; the
wrapper struct is flattened away.  `Variable` carries its debug id, the
optional resolved `instance` (named `inst` because `instance` is a Lean
keyword) and the optional `constraint` upper bound.  Utility types are not
modelled: their evaluator lives in the missing type-operator module and no
claim mentions them. -/
inductive Ty where
  | variable (id : Nat) (inst : Option Nat) (constraint : Option Nat)
  | constructor (name : String) (types : List Nat)
  | literal (lit : Lit)
  | function (params : List FuncParam) (ret : Nat) (typeParams : Option (List TypeParam))
  | object (props : List TObjElem)
  | rest (arg : Nat)
deriving DecidableEq, Repr

/-- Arena of type nodes, indexed by position (generational_arena indices are
used purely as stable ids here, so positions suffice). -/
abbrev Arena := List Ty

/-- Read an arena slot.  Rust's `arena[i]` panics when `i` is out of range;
the junk default below is unreachable under the claims' in-range hypotheses. -/
def getT (ar : Arena) (i : Nat) : Ty :=
  ar.getD i (.constructor "<out-of-range>" [])

/-- Scheme: a type index plus optional named type parameters (types.rs
`Scheme`). -/
structure Scheme where
  type_params : Option (List TypeParam)
  t : Nat
deriving DecidableEq, Repr

/-- Context (context.rs `Context`): value bindings, type-alias schemes, the
non-generic variable set and the async flag.  The persistent maps are modelled
by association lists / lists. -/
structure Context where
  values : List (String × Nat)
  schemes : List (String × Scheme)
  non_generic : List Nat
  is_async : Bool
deriving Repr

/-- Look up a scheme by name (im::HashMap::get). -/
def Context.getScheme (ctx : Context) (name : String) : Option Scheme :=
  (ctx.schemes.find? (fun p => p.1 == name)).map Prod.snd

/-- Modelled from the spec (§4.1; util.rs is not among the provided sources):
`prune` walks a variable's `instance` chain to its terminal index.  The
spec's path-compression writeback is omitted: it changes only the cost of
later prunes, never the returned index.  `fuel` bounds the chain walk; the
Rust code diverges on the cyclic chains that exhaust it. -/
def prune (fuel : Nat) (ar : Arena) (t : Nat) : Nat :=
  match fuel with
  | 0 => t
  | fuel + 1 =>
    match getT ar t with
    | .variable _ (some inst) _ => prune fuel ar inst
    | _ => t

/-- Child indices of a node, used by the occurs check: all indices the node
transitively contains (the glossary's "a type that transitively contains
it").  A variable's children are empty because the occurs check reaches its
instance through `prune`. -/
def tyChildren : Ty → List Nat
  | .variable _ _ _ => []
  | .constructor _ types => types
  | .literal _ => []
  | .function params ret _ => params.map FuncParam.t ++ [ret]
  | .object props =>
    props.flatMap fun e =>
      match e with
      | .prop p => [p.t]
      | .method m => m.params.map FuncParam.t ++ [m.ret]
      | .index i => [i.t]
  | .rest arg => [arg]

/-- Modelled from the spec (glossary "Occurs-check"; util.rs is not among the
provided sources): `occurs_in_type v t` holds when the variable `v` appears
transitively inside `t`, following instance chains via `prune`. -/
def occurs_in_type (fuel : Nat) (ar : Arena) (v t : Nat) : Bool :=
  match fuel with
  | 0 => false
  | fuel + 1 =>
    let p := prune (fuel + 1) ar t
    if p = v then true
    else (tyChildren (getT ar p)).any fun c => occurs_in_type fuel ar v c

/-- Modelled from the doc comment of context.rs `is_generic` (util.rs is not
among the provided sources): a variable occurs in a set of types when it
occurs in one of them. -/
def occurs_in (fuel : Nat) (ar : Arena) (v : Nat) (types : List Nat) : Bool :=
  types.any fun t => occurs_in_type fuel ar v t

/-- Whether a (pre-pruned) variable is generic with respect to the context's
non-generic set (context.rs `is_generic`). -/
def is_generic (fuel : Nat) (ar : Arena) (t : Nat) (ctx : Context) : Bool :=
  !occurs_in fuel ar t ctx.non_generic

/-- Structured error value.  The source has a single
`Errors::InferenceError(String)`; each constructor below corresponds to one
`format!` template in the code under verification, carrying the data that the
template interpolates (type indices stand in for their `as_string` prints).
`unimplementedPanic` models the source's `todo!()` / `unimplemented!()`
panics, and `outOfFuel` models divergence of the Rust code. -/
inductive Err where
  | unboundTypeName (name : String)
  | typeMismatch (a b : Nat)
  | typeMismatchNeq (a b : Nat)
  | expectedTupleLength (expected got : Nat)
  | cantUnifyTwoRests
  | moreParams (a b : Nat)
  | missingProp (name : String) (a : Nat)
  | undecidable
  | notCallable (what : String)
  | noValidOverload
  | literalNotCallable (lit : Lit)
  | tooFewArgs (expected got : Nat)
  | recursiveUnification
  | arityMismatch (name : String)
  | unimplementedPanic
  | outOfFuel
deriving DecidableEq, Repr

/-- Result of a unit-returning stateful operation: the mutated arena plus
`none` on success or the error.  Mutations before a failure persist, as with
Rust's `&mut Arena`. -/
abbrev URes := Arena × Option Err

/-- Result of an index-returning stateful operation. -/
abbrev IRes := Arena × Except Err Nat

/-- Modelled from the spec (§4.2 "every call produces a fresh index"; util.rs
is not among the provided sources): allocate a fresh unbound variable with the
given constraint; its debug id is the new index, as in context.rs
`instantiate_scheme`. -/
def new_var_type (ar : Arena) (constraint : Option Nat) : Nat × Arena :=
  (ar.length, ar ++ [.variable ar.length none constraint])

/-- Modelled from the spec (§4.2; util.rs is not among the provided sources):
allocate a constructor node. -/
def new_constructor (ar : Arena) (name : String) (types : List Nat) : Nat × Arena :=
  (ar.length, ar ++ [.constructor name types])

/-- Tuple types are the reserved constructor `@@tuple` (spec §3). -/
def new_tuple_type (ar : Arena) (types : List Nat) : Nat × Arena :=
  new_constructor ar "@@tuple" types

/-- Union types are the reserved constructor `@@union` (spec §3). -/
def new_union_type (ar : Arena) (types : List Nat) : Nat × Arena :=
  new_constructor ar "@@union" types

/-- Intersection types are the reserved constructor `@@intersection`
(spec §3). -/
def new_intersection_type (ar : Arena) (types : List Nat) : Nat × Arena :=
  new_constructor ar "@@intersection" types

/-- Modelled from the spec (§4.2): allocate an object node. -/
def new_object_type (ar : Arena) (props : List TObjElem) : Nat × Arena :=
  (ar.length, ar ++ [.object props])

/-- Modelled from the spec (§4.2): allocate a function node. -/
def new_func_type (ar : Arena) (params : List FuncParam) (ret : Nat)
    (typeParams : Option (List TypeParam)) : Nat × Arena :=
  (ar.length, ar ++ [.function params ret typeParams])

/-- Modelled from the spec (§4.2): allocate a rest node. -/
def new_rest_type (ar : Arena) (arg : Nat) : Nat × Arena :=
  (ar.length, ar ++ [.rest arg])

/-- Modelled from the spec (§4.2): allocate a literal node. -/
def new_lit_type (ar : Arena) (lit : Lit) : Nat × Arena :=
  (ar.length, ar ++ [.literal lit])

/-- Mutation performed by `Type::set_instance`: overwrite a variable's
`instance` field.  The source `unimplemented!()`s on a non-variable; `bind`
checks the kind before calling it, so the fall-through is unreachable. -/
def set_inst (ar : Arena) (a b : Nat) : Arena :=
  match getT ar a with
  | .variable id _ constraint => ar.set a (.variable id (some b) constraint)
  | _ => ar

/-- First occurrences of a list, in order (itertools `unique`). -/
def dedupKeepFirst (l : List Nat) : List Nat :=
  l.foldl (fun acc x => if x ∈ acc then acc else acc ++ [x]) []

mutual

/-- Substitution of named type parameters through a scheme body, from
context.rs `instantiate_scheme` / `instantiate_scheme_rec`: rebuild the type
bottom-up with fresh indices, replacing any constructor whose name is in the
mapping by the mapped index.  `fuel` bounds the descent through instance
chains. -/
def instantiate_scheme (fuel : Nat) (ar : Arena) (t : Nat)
    (mapping : List (String × Nat)) : Nat × Arena :=
  match fuel with
  | 0 => (t, ar)
  | fuel + 1 =>
    let p := prune (fuel + 1) ar t
    match getT ar p with
    | .variable _ inst constraint =>
      let (inst', ar₁) :=
        match inst with
        | none => (none, ar)
        | some i =>
          let (i', ar') := instantiate_scheme fuel ar i mapping
          (some i', ar')
      let (constraint', ar₂) :=
        match constraint with
        | none => (none, ar₁)
        | some c =>
          let (c', ar') := instantiate_scheme fuel ar₁ c mapping
          (some c', ar')
      (ar₂.length, ar₂ ++ [.variable ar₂.length inst' constraint'])
    | .literal lit => new_lit_type ar lit
    | .object props =>
      let (props', ar₁) := instantiate_scheme_props fuel ar props mapping
      new_object_type ar₁ props'
    | .rest arg =>
      let (arg', ar₁) := instantiate_scheme fuel ar arg mapping
      new_rest_type ar₁ arg'
    | .function params ret typeParams =>
      let (params', ar₁) := instantiate_scheme_params fuel ar params mapping
      let (ret', ar₂) := instantiate_scheme fuel ar₁ ret mapping
      new_func_type ar₂ params' ret' typeParams
    | .constructor name types =>
      let (types', ar₁) := instantiate_scheme_many fuel ar types mapping
      match (mapping.find? (fun q => q.1 == name)).map Prod.snd with
      | some idx => (idx, ar₁)
      | none => new_constructor ar₁ name types'
termination_by (fuel, 0, 0)

/-- Sequential substitution over a list of indices (context.rs
`instantiate_scheme_rec_many`). -/
def instantiate_scheme_many (fuel : Nat) (ar : Arena) (ts : List Nat)
    (mapping : List (String × Nat)) : List Nat × Arena :=
  match ts with
  | [] => ([], ar)
  | t :: rest =>
    let (t', ar₁) := instantiate_scheme fuel ar t mapping
    let (rest', ar₂) := instantiate_scheme_many fuel ar₁ rest mapping
    (t' :: rest', ar₂)
termination_by (fuel, 1, ts.length)

/-- Substitution through function parameters, keeping everything but the
type index. -/
def instantiate_scheme_params (fuel : Nat) (ar : Arena) (ps : List FuncParam)
    (mapping : List (String × Nat)) : List FuncParam × Arena :=
  match ps with
  | [] => ([], ar)
  | p :: rest =>
    let (t', ar₁) := instantiate_scheme fuel ar p.t mapping
    let (rest', ar₂) := instantiate_scheme_params fuel ar₁ rest mapping
    ({ p with t := t' } :: rest', ar₂)
termination_by (fuel, 1, ps.length)

/-- Substitution through one object element, mirroring the `match` in
context.rs `instantiate_scheme`. -/
def instantiate_scheme_elem (fuel : Nat) (ar : Arena) (e : TObjElem)
    (mapping : List (String × Nat)) : TObjElem × Arena :=
  match e with
  | .method m =>
    let (params', a₁) := instantiate_scheme_params fuel ar m.params mapping
    let (ret', a₂) := instantiate_scheme fuel a₁ m.ret mapping
    (TObjElem.method { m with params := params', ret := ret' }, a₂)
  | .index i =>
    let (t', a₁) := instantiate_scheme fuel ar i.t mapping
    (TObjElem.index { i with t := t' }, a₁)
  | .prop p =>
    let (t', a₁) := instantiate_scheme fuel ar p.t mapping
    (TObjElem.prop { p with t := t' }, a₁)
termination_by (fuel, 2, 0)

/-- Substitution through object elements, left to right. -/
def instantiate_scheme_props (fuel : Nat) (ar : Arena) (props : List TObjElem)
    (mapping : List (String × Nat)) : List TObjElem × Arena :=
  match props with
  | [] => ([], ar)
  | e :: rest =>
    let (e', ar₁) := instantiate_scheme_elem fuel ar e mapping
    let (rest', ar₂) := instantiate_scheme_props fuel ar₁ rest mapping
    (e' :: rest', ar₂)
termination_by (fuel, 3, props.length)

end

/-- Modelled from the spec (§4.5 step 1, §4.3 and invariant 5; util.rs is not
among the provided sources): resolve a named alias by substituting the type
arguments for the scheme's named parameters in its body; missing trailing
arguments are supplied by parameter `default`s, and any other count mismatch
is an arity error. -/
def expand_alias (fuel : Nat) (ar : Arena) (name : String) (scheme : Scheme)
    (typeArgs : List Nat) : IRes :=
  match scheme.type_params with
  | none =>
    if typeArgs.isEmpty then (ar, .ok scheme.t)
    else (ar, .error (.arityMismatch name))
  | some tps =>
    if typeArgs.length > tps.length then (ar, .error (.arityMismatch name))
    else
      let args := (List.range tps.length).map fun i =>
        match typeArgs.get? i with
        | some a => some a
        | none => (tps.get? i).bind TypeParam.default
      if args.all Option.isSome then
        let mapping := List.zip (tps.map TypeParam.name) (args.filterMap id)
        let (idx, ar') := instantiate_scheme fuel ar scheme.t mapping
        (ar', .ok idx)
      else (ar, .error (.arityMismatch name))

/-- Modelled from the spec (§4.3 `instantiate`): allocate one fresh variable
per declared type parameter, left to right, each carrying that parameter's
constraint. -/
def freshVarsForParams (ar : Arena) : List TypeParam → List Nat × Arena
  | [] => ([], ar)
  | tp :: rest =>
    let (idx, ar₁) := new_var_type ar tp.constraint
    let (more, ar₂) := freshVarsForParams ar₁ rest
    (idx :: more, ar₂)

/-- Modelled from the spec (§4.3 `instantiate`, §4.5; util.rs is not among the
provided sources): instantiating a function replaces each declared type
parameter, either by the corresponding explicit type argument or by a fresh
variable carrying the parameter's constraint, substituting through parameters
and return type.  A function without type parameters is returned unchanged. -/
def instantiate_func (fuel : Nat) (ar : Arena) (params : List FuncParam)
    (ret : Nat) (typeParams : Option (List TypeParam))
    (typeArgs : Option (List Nat)) : Arena × Except Err (List FuncParam × Nat) :=
  match typeParams with
  | none => (ar, .ok (params, ret))
  | some tps =>
    match typeArgs with
    | some args =>
      if args.length = tps.length then
        let mapping := List.zip (tps.map TypeParam.name) args
        let (params', ar₂) := instantiate_scheme_params fuel ar params mapping
        let (ret', ar₃) := instantiate_scheme fuel ar₂ ret mapping
        (ar₃, .ok (params', ret'))
      else (ar, .error (.arityMismatch "<type args>"))
    | none =>
      let (freshVars, ar₁) := freshVarsForParams ar tps
      let mapping := List.zip (tps.map TypeParam.name) freshVars
      let (params', ar₂) := instantiate_scheme_params fuel ar₁ params mapping
      let (ret', ar₃) := instantiate_scheme fuel ar₂ ret mapping
      (ar₃, .ok (params', ret'))

/-- Test for the `name.starts_with("@@")` of unify.rs, expressed on the
character list. -/
def startsWithAtAt (s : String) : Bool :=
  match s.data with
  | '@' :: '@' :: _ => true
  | _ => false

/-- Names that the alias-expansion prologue of `unify` leaves alone: reserved
`@@`-constructors and the built-in list from unify.rs. -/
def needsExpansion (name : String) : Bool :=
  !startsWithAtAt name &&
  !(["string", "boolean", "number", "undefined", "unknown", "Promise",
     "Array"].contains name)

/-- Alias-expansion prologue of `unify` for one (pruned) side: a named
constructor that is not reserved is resolved via the context's schemes and
expanded; anything else is returned untouched (unify.rs lines 33-87; the
utility-type step is not modelled, see `Ty`). -/
def expandSide (fuel : Nat) (ctx : Context) (ar : Arena) (idx : Nat) : IRes :=
  match getT ar idx with
  | .constructor name typeArgs =>
    if needsExpansion name then
      match ctx.getScheme name with
      | some scheme => expand_alias fuel ar name scheme typeArgs
      | none => (ar, .error (.unboundTypeName name))
    else (ar, .ok idx)
  | _ => (ar, .ok idx)

/-- First property of an object element list with the given name, as found by
the inner loop of the object-vs-object case of `unify` (only `Prop` elements
participate in the match). -/
def findPropByName (props : List TObjElem) (name : TPropKey) : Option TProp :=
  props.findSome? fun e =>
    match e with
    | .prop p => if p.name = name then some p else none
    | _ => none

/-- Whether an arena slot holds an object (the `matches!` filters of the
intersection cases of unify.rs). -/
def isObjectAt (ar : Arena) (t : Nat) : Bool :=
  match getT ar t with
  | .object _ => true
  | _ => false

/-- Whether an arena slot holds a variable. -/
def isVariableAt (ar : Arena) (t : Nat) : Bool :=
  match getT ar t with
  | .variable _ _ _ => true
  | _ => false

/-- Whether an arena slot holds a rest element. -/
def isRestAt (ar : Arena) (t : Nat) : Bool :=
  match getT ar t with
  | .rest _ => true
  | _ => false

/-- View: is the node a variable (the `TypeKind::Variable(_)` patterns). -/
def Ty.isVar : Ty → Bool
  | .variable _ _ _ => true
  | _ => false

/-- View: is the node a constructor with the given name. -/
def Ty.isConNamed (t : Ty) (nm : String) : Bool :=
  match t with
  | .constructor n _ => n == nm
  | _ => false

/-- View: the argument list of a constructor with the given name. -/
def conArgs? (t : Ty) (nm : String) : Option (List Nat) :=
  match t with
  | .constructor n ts => if n = nm then some ts else none
  | _ => none

/-- View: name and arguments of any constructor node. -/
def conParts? : Ty → Option (String × List Nat)
  | .constructor n ts => some (n, ts)
  | _ => none

/-- View: the pieces of a function node. -/
def funcParts? : Ty → Option (List FuncParam × Nat × Option (List TypeParam))
  | .function ps r tp => some (ps, r, tp)
  | _ => none

/-- View: the literal of a literal node. -/
def litOf? : Ty → Option Lit
  | .literal l => some l
  | _ => none

/-- View: the elements of an object node. -/
def objProps? : Ty → Option (List TObjElem)
  | .object props => some props
  | _ => none

/-- View: the argument of a rest node. -/
def restArg? : Ty → Option Nat
  | .rest r => some r
  | _ => none

/-- Property pairs (key text, type index) of the object members of an input
list, in traversal order — the pairs fed into `props_map` by
simplify_intersection.  A `Method` or `Index` element hits a `todo!()` in the
source, modelled by the error. -/
def objPropPairs (ar : Arena) (inTypes : List Nat) : Except Err (List (String × Nat)) :=
  inTypes.foldl
    (fun acc t =>
      match acc with
      | .error e => .error e
      | .ok pairs =>
        match getT ar t with
        | .object props =>
          props.foldl
            (fun acc2 e =>
              match acc2 with
              | .error e2 => .error e2
              | .ok ps =>
                match e with
                | .prop p => .ok (ps ++ [(p.name.text, p.t)])
                | .method _ => .error .unimplementedPanic
                | .index _ => .error .unimplementedPanic)
            (.ok pairs)
        | _ => .ok pairs)
    (.ok [])

/-- Ordered no-duplicate insertion, the behaviour of the per-name
`BTreeSet<Index>` buckets of simplify_intersection. -/
def insertSorted (x : Nat) : List Nat → List Nat
  | [] => [x]
  | y :: ys =>
    if x < y then x :: y :: ys
    else if x = y then y :: ys
    else y :: insertSorted x ys

/-- One step of the bucketing loop: insert the pair's type into its name's
bucket, creating the bucket when the name is new. -/
def bucketStep (acc : List (String × List Nat)) (kt : String × Nat) :
    List (String × List Nat) :=
  if acc.any (fun b => b.1 == kt.1) then
    acc.map fun b => if b.1 == kt.1 then (b.1, insertSorted kt.2 b.2) else b
  else acc ++ [(kt.1, [kt.2])]

/-- Bucket the (name, type) pairs by name.  Keys are kept in first-encounter
order (the iteration order of the Rust `HashMap` is unspecified; it is
irrelevant because the properties are sorted by name afterwards), and each
bucket is an ordered duplicate-free `BTreeSet` of indices. -/
def bucketize (pairs : List (String × Nat)) : List (String × List Nat) :=
  pairs.foldl bucketStep []

/-- Build one property per bucket: the sole member for a singleton bucket,
otherwise a freshly allocated intersection of the bucket; the produced
property is non-optional and non-mutable (the `TODO` in the source
notwithstanding). -/
def elemsOfBuckets (ar : Arena) (buckets : List (String × List Nat)) :
    List TProp × Arena :=
  match buckets with
  | [] => ([], ar)
  | (name, ts) :: rest =>
    let (t, ar₁) :=
      match ts with
      | [t] => (t, ar)
      | [] => new_intersection_type ar []
      | t :: t' :: more => new_intersection_type ar (t :: t' :: more)
    let (props, ar₂) := elemsOfBuckets ar₁ rest
    ({ name := .stringKey name, optional := false, mutable := false, t := t } :: props, ar₂)

/-- Insertion sort of properties by ascending key text (the
`elems.sort_by_key(|elem| prop.name)` of the source; every produced key is a
`StringKey`, so the order is the string order of the names). -/
def insertProp (p : TProp) : List TProp → List TProp
  | [] => [p]
  | q :: qs =>
    if p.name.text ≤ q.name.text then p :: q :: qs
    else q :: insertProp p qs

/-- Sort properties by ascending key text. -/
def sortPropsByName (ps : List TProp) : List TProp :=
  ps.foldr insertProp []

/-- Intersection merging, from unify.rs `simplify_intersection`: bucket every
property of the object inputs by name, produce one non-optional non-mutable
property per name (an intersection of the deduplicated bucket when it has
more than one member), sort the properties by name, keep non-object inputs
verbatim in front, and unwrap a lone resulting component. -/
def simplify_intersection (ar : Arena) (inTypes : List Nat) : IRes :=
  match objPropPairs ar inTypes with
  | .error e => (ar, .error e)
  | .ok pairs =>
    let buckets := bucketize pairs
    let (props, ar₁) := elemsOfBuckets ar buckets
    let elems := (sortPropsByName props).map TObjElem.prop
    let notObj := inTypes.filter (fun t => !isObjectAt ar t)
    let (outTypes, ar₂) :=
      if elems.isEmpty then (notObj, ar₁)
      else
        let (objIdx, ar') := new_object_type ar₁ elems
        (notObj ++ [objIdx], ar')
    match outTypes with
    | [t] => (ar₂, .ok t)
    | [] =>
      let (i, ar₃) := new_intersection_type ar₂ []
      (ar₃, .ok i)
    | t :: t' :: more =>
      let (i, ar₃) := new_intersection_type ar₂ (t :: t' :: more)
      (ar₃, .ok i)

set_option maxHeartbeats 1600000 in
mutual

/-- Unification, from unify.rs `unify`: makes `t1` a subtype of `t2`.  Both
sides are pruned, the alias-expansion prologue is applied to each, and the
pair of kinds is dispatched by `unifyKinds`. -/
def unify (fuel : Nat) (ctx : Context) (ar : Arena) (t1 t2 : Nat) : URes :=
  match fuel with
  | 0 => (ar, some .outOfFuel)
  | fuel + 1 =>
    let a0 := prune (fuel + 1) ar t1
    let b0 := prune (fuel + 1) ar t2
    match expandSide (fuel + 1) ctx ar a0 with
    | (ar₁, .error e) => (ar₁, some e)
    | (ar₁, .ok a) =>
      match expandSide (fuel + 1) ctx ar₁ b0 with
      | (ar₂, .error e) => (ar₂, some e)
      | (ar₂, .ok b) => unifyKinds (fuel + 1) ctx ar₂ t1 t2 a b
termination_by (fuel, 5, 0)

/-- Dispatch on the pruned, expanded kinds — the big `match` of unify.rs
`unify`, rendered as an ordered cascade of view matches (one per source arm,
in source order; a failed guard of the two rest-vs-constructor arms falls
through to the final catch-all exactly as in the source).  `t1`/`t2` are the
original indices (the intersection cases recurse on `t1`), `a`/`b` the pruned
and expanded ones. -/
def unifyKinds (fuel : Nat) (ctx : Context) (ar : Arena) (t1 t2 a b : Nat) : URes :=
  match fuel with
  | 0 => (ar, some .outOfFuel)
  | fuel + 1 =>
    let aT := getT ar a
    let bT := getT ar b
    if aT.isVar then bind (fuel + 1) ctx ar a b
    else if bT.isVar then bind (fuel + 1) ctx ar b a
    else if bT.isConNamed "unknown" then
      -- All types are assignable to unknown
      (ar, none)
    else
      match conArgs? aT "@@union" with
      | some types =>
        -- All types in the union must be subtypes of t2
        unify_many_pairs (fuel + 1) ctx ar (types.map fun t => (t, b))
      | none =>
      match conArgs? bT "@@union" with
      | some types =>
        -- t1 is a subtype of the union if it unifies with any member,
        -- tried in declared order
        match unify_union_any (fuel + 1) ctx ar a types with
        | (ar₁, true) => (ar₁, none)
        | (ar₁, false) => (ar₁, some (.typeMismatch a b))
      | none =>
      match conArgs? aT "@@tuple", conArgs? bT "@@tuple" with
      | some types1, some types2 =>
        if types1.length < types2.length &&
            !(match types1.getLast? with
              | some last => isRestAt ar last
              | none => false) then
          (ar, some (.expectedTupleLength types2.length types1.length))
        else
          unify_tuple_elems (fuel + 1) ctx ar types1 types2
      | _, _ =>
      match conArgs? aT "@@tuple", conArgs? bT "Array" with
      | some types, some arrayArgs =>
        match arrayArgs with
        | q :: _ => unify_tuple_array (fuel + 1) ctx ar types q b
        | [] => (ar, some .unimplementedPanic)
      | _, _ =>
      match conArgs? aT "Array", conArgs? bT "@@tuple" with
      | some arrayArgs, some types =>
        match arrayArgs with
        | p :: _ => unify_array_tuple (fuel + 1) ctx ar p types a
        | [] => (ar, some .unimplementedPanic)
      | _, _ =>
      match restArg? aT, conParts? bT with
      | some r, some (nm, _) =>
        if nm = "Array" ∨ nm = "@@tuple" then unify fuel ctx ar r b
        else (ar, some (.typeMismatch a b))
      | _, _ =>
      match conParts? aT, restArg? bT with
      | some (nm, _), some r =>
        if nm = "Array" ∨ nm = "@@tuple" then unify fuel ctx ar a r
        else (ar, some (.typeMismatch a b))
      | _, _ =>
      match conParts? aT, conParts? bT with
      | some (nameA, typesA), some (nameB, typesB) =>
        if nameA ≠ nameB ∨ typesA.length ≠ typesB.length then
          (ar, some (.typeMismatchNeq a b))
        else
          unify_many_pairs (fuel + 1) ctx ar (List.zip typesA typesB)
      | _, _ =>
      match funcParts? aT, funcParts? bT with
      | some (paramsA, retA, typeParamsA), some (paramsB, retB, typeParamsB) =>
        match instantiate_func (fuel + 1) ar paramsA retA typeParamsA none with
        | (ar₁, .error e) => (ar₁, some e)
        | (ar₁, .ok (paramsA', retA')) =>
          match instantiate_func (fuel + 1) ar₁ paramsB retB typeParamsB none with
          | (ar₂, .error e) => (ar₂, some e)
          | (ar₂, .ok (paramsB', retB')) =>
            if paramsA'.length > paramsB'.length then
              (ar₂, some (.moreParams a b))
            else
              -- params are unified contravariantly (q.t against p.t), then
              -- the return types covariantly
              unify_many_pairs (fuel + 1) ctx ar₂
                (List.zip (paramsB'.map FuncParam.t) (paramsA'.map FuncParam.t)
                  ++ [(retA', retB')])
      | _, _ =>
      match litOf? aT, litOf? bT with
      | some lit1, some lit2 =>
        let equal : Bool :=
          match lit1, lit2 with
          | .boolean v1, .boolean v2 => v1 == v2
          | .number v1, .number v2 => v1 == v2
          | .str v1, .str v2 => v1 == v2
          | _, _ => false
        if equal then (ar, none) else (ar, some (.typeMismatchNeq a b))
      | _, _ =>
      match litOf? aT, conParts? bT with
      | some lit, some (nm, _) =>
        -- literal against the matching primitive constructor
        let litPrim : Bool :=
          match lit with
          | .number _ => nm == "number"
          | .str _ => nm == "string"
          | .boolean _ => nm == "boolean"
        if litPrim then (ar, none) else (ar, some (.typeMismatch a b))
      | _, _ =>
      match objProps? aT, objProps? bT with
      | some props1, some props2 =>
        unify_obj_props (fuel + 1) ctx ar props1 props2 a
      | _, _ =>
      match objProps? aT, conArgs? bT "@@intersection" with
      | some props1, some types =>
        let objTypes := types.filter fun t => isObjectAt ar t
        let restTypes := types.filter fun t => isVariableAt ar t
        match simplify_intersection ar objTypes with
        | (ar₁, .error e) => (ar₁, some e)
        | (ar₁, .ok objType) =>
          match restTypes with
          | [] => unify fuel ctx ar₁ t1 objType
          | [restVar] =>
            let allObjElems :=
              match getT ar₁ objType with
              | .object props => props
              | _ => []
            let part := props1.partition fun e =>
              allObjElems.any fun oe =>
                match oe, e with
                | .prop op, .prop p => decide (op.name = p.name)
                | _, _ => false
            let (newObjType, ar₂) := new_object_type ar₁ part.1
            match unify fuel ctx ar₂ newObjType objType with
            | (ar₃, some e) => (ar₃, some e)
            | (ar₃, none) =>
              let (newRestType, ar₄) := new_object_type ar₃ part.2
              unify fuel ctx ar₄ newRestType restVar
          | _ => (ar₁, some .undecidable)
      | _, _ =>
      match conArgs? aT "@@intersection", objProps? bT with
      | some types, some props2 =>
        let objTypes := types.filter fun t => isObjectAt ar t
        let restTypes := types.filter fun t => isVariableAt ar t
        match simplify_intersection ar objTypes with
        | (ar₁, .error e) => (ar₁, some e)
        | (ar₁, .ok objType) =>
          match restTypes with
          | [] => unify fuel ctx ar₁ t1 objType
          | [restVar] =>
            let allObjElems :=
              match getT ar₁ objType with
              | .object props => props
              | _ => []
            let part := props2.partition fun e =>
              allObjElems.any fun oe =>
                match oe, e with
                | .prop op, .prop p => decide (op.name = p.name)
                | _, _ => false
            let (newObjType, ar₂) := new_object_type ar₁ part.1
            match unify fuel ctx ar₂ objType newObjType with
            | (ar₃, some e) => (ar₃, some e)
            | (ar₃, none) =>
              let (newRestType, ar₄) := new_object_type ar₃ part.2
              unify fuel ctx ar₄ restVar newRestType
          | _ => (ar₁, some .undecidable)
      | _, _ => (ar, some (.typeMismatch a b))
termination_by (fuel, 4, 0)

/-- Sequential unification of a list of pairs, aborting at the first failure
(the `?`-operator in the source loops). -/
def unify_many_pairs (fuel : Nat) (ctx : Context) (ar : Arena)
    (pairs : List (Nat × Nat)) : URes :=
  match fuel with
  | 0 => (ar, some .outOfFuel)
  | fuel + 1 =>
    match pairs with
    | [] => (ar, none)
    | (p, q) :: rest =>
      match unify fuel ctx ar p q with
      | (ar₁, none) => unify_many_pairs (fuel + 1) ctx ar₁ rest
      | (ar₁, some e) => (ar₁, some e)
termination_by (fuel, 3, pairs.length)

/-- Try the members of a union on the right, in declared order, returning at
the first success; mutations made by failed attempts persist, as in the
source. -/
def unify_union_any (fuel : Nat) (ctx : Context) (ar : Arena) (a : Nat)
    (types : List Nat) : Arena × Bool :=
  match fuel with
  | 0 => (ar, false)
  | fuel + 1 =>
    match types with
    | [] => (ar, false)
    | t2 :: rest =>
      match unify fuel ctx ar a t2 with
      | (ar₁, none) => (ar₁, true)
      | (ar₁, some _) => unify_union_any (fuel + 1) ctx ar₁ a rest
termination_by (fuel, 3, types.length)

/-- The element loop of the tuple-vs-tuple case: pairs are unified in order;
a rest element on either side absorbs the remaining elements of the other
side as a fresh tuple, and two rest elements are an error. -/
def unify_tuple_elems (fuel : Nat) (ctx : Context) (ar : Arena)
    (ps qs : List Nat) : URes :=
  match fuel with
  | 0 => (ar, some .outOfFuel)
  | fuel + 1 =>
    match ps, qs with
    | p :: ps', q :: qs' =>
      let step : URes :=
        match isRestAt ar p, isRestAt ar q with
        | true, true => (ar, some .cantUnifyTwoRests)
        | true, false =>
          let (restQ, ar₁) := new_tuple_type ar (q :: qs')
          unify fuel ctx ar₁ p restQ
        | false, true =>
          let (restP, ar₁) := new_tuple_type ar (p :: ps')
          unify fuel ctx ar₁ restP q
        | false, false => unify fuel ctx ar p q
      match step with
      | (ar₁, none) => unify_tuple_elems (fuel + 1) ctx ar₁ ps' qs'
      | (ar₁, some e) => (ar₁, some e)
    | [], _ => (ar, none)
    | _ :: _, [] => (ar, none)
termination_by (fuel, 3, ps.length)

/-- The element loop of the tuple-vs-Array case. -/
def unify_tuple_array (fuel : Nat) (ctx : Context) (ar : Arena)
    (ps : List Nat) (q b : Nat) : URes :=
  match fuel with
  | 0 => (ar, some .outOfFuel)
  | fuel + 1 =>
    match ps with
    | [] => (ar, none)
    | p :: rest =>
      let step : URes :=
        match getT ar p with
        | .constructor nm innerArgs =>
          if nm = "Array" then
            match innerArgs with
            | t0 :: _ => unify fuel ctx ar t0 q
            | [] => (ar, some .unimplementedPanic)
          else unify fuel ctx ar p q
        | .rest _ => unify fuel ctx ar p b
        | _ => unify fuel ctx ar p q
      match step with
      | (ar₁, none) => unify_tuple_array (fuel + 1) ctx ar₁ rest q b
      | (ar₁, some e) => (ar₁, some e)
termination_by (fuel, 3, ps.length)

/-- The element loop of the Array-vs-tuple case: every iteration allocates
`undefined` and the union with the array element, and a rest element unifies
with the whole array. -/
def unify_array_tuple (fuel : Nat) (ctx : Context) (ar : Arena)
    (p : Nat) (qs : List Nat) (a : Nat) : URes :=
  match fuel with
  | 0 => (ar, some .outOfFuel)
  | fuel + 1 =>
    match qs with
    | [] => (ar, none)
    | q :: rest =>
      let (undef, ar₁) := new_constructor ar "undefined" []
      let (pOrUndef, ar₂) := new_union_type ar₁ [p, undef]
      let step : URes :=
        match getT ar₂ q with
        | .rest _ => unify fuel ctx ar₂ a q
        | _ => unify fuel ctx ar₂ pOrUndef q
      match step with
      | (ar₃, none) => unify_array_tuple (fuel + 1) ctx ar₃ p rest a
      | (ar₃, some e) => (ar₃, some e)
termination_by (fuel, 3, qs.length)

/-- The element loop of the object-vs-object case: every right-side property
needs a matching left-side property (optionality modelled as a union with
`undefined` on the respective side); a missing match is the missing-property
error, and a right-side index signature hits a `todo!()`. -/
def unify_obj_props (fuel : Nat) (ctx : Context) (ar : Arena)
    (props1 props2 : List TObjElem) (aIdx : Nat) : URes :=
  match fuel with
  | 0 => (ar, some .outOfFuel)
  | fuel + 1 =>
    match props2 with
    | [] => (ar, none)
    | e2 :: rest2 =>
      match e2 with
      | .prop p2 =>
        match findPropByName props1 p2.name with
        | some p1 =>
          let (p1t, ar₁) :=
            if p1.optional then
              let (undef, a') := new_constructor ar "undefined" []
              new_union_type a' [p1.t, undef]
            else (p1.t, ar)
          let (p2t, ar₂) :=
            if p2.optional then
              let (undef, a') := new_constructor ar₁ "undefined" []
              new_union_type a' [p2.t, undef]
            else (p2.t, ar₁)
          match unify fuel ctx ar₂ p1t p2t with
          | (ar₃, none) => unify_obj_props (fuel + 1) ctx ar₃ props1 rest2 aIdx
          | (ar₃, some e) => (ar₃, some e)
        | none => (ar, some (.missingProp p2.name.text aIdx))
      | .method m => (ar, some (.missingProp m.name.text aIdx))
      | .index _ => (ar, some .unimplementedPanic)
termination_by (fuel, 3, props2.length)

/-- Variable binding, from unify.rs `bind`: a no-op when the sides coincide;
otherwise the occurs check may fail with the recursive-unification error, the
variable's constraint (when present) is unified against the target first, and
only then is the instance set.  A non-variable first argument hits an
`unimplemented!()` panic. -/
def bind (fuel : Nat) (ctx : Context) (ar : Arena) (a b : Nat) : URes :=
  match fuel with
  | 0 => (ar, some .outOfFuel)
  | fuel + 1 =>
    if a = b then (ar, none)
    else if occurs_in_type (fuel + 1) ar a b then
      (ar, some .recursiveUnification)
    else
      match getT ar a with
      | .variable _ _ constraint =>
        match constraint with
        | some c =>
          match unify fuel ctx ar b c with
          | (ar₁, none) => (set_inst ar₁ a b, none)
          | (ar₁, some e) => (ar₁, some e)
        | none => (set_inst ar a b, none)
      | _ => (ar, some .unimplementedPanic)
termination_by (fuel, 2, 0)

/-- Call unification, from unify.rs `unify_call`: allocates a fresh return
variable, prunes the callee and dispatches on its kind. -/
def unify_call (fuel : Nat) (ctx : Context) (ar : Arena) (argTypes : List Nat)
    (typeArgs : Option (List Nat)) (t2 : Nat) : IRes :=
  match fuel with
  | 0 => (ar, .error .outOfFuel)
  | fuel + 1 =>
    let (retType, ar₀) := new_var_type ar none
    let b := prune (fuel + 1) ar₀ t2
    let bT := getT ar₀ b
    if bT.isVar then
      let params := argTypes.enum.map fun it =>
        FuncParam.mk ("arg" ++ toString it.1) it.2 false
      let (callType, ar₁) := new_func_type ar₀ params retType none
      match bind (fuel + 1) ctx ar₁ b callType with
      | (ar₂, some e) => (ar₂, .error e)
      | (ar₂, none) => (ar₂, .ok (prune (fuel + 1) ar₂ retType))
    else
      match conParts? bT with
      | some (nm, types) =>
        if nm = "@@tuple" then (ar₀, .error (.notCallable "tuple"))
        else if nm = "@@union" then
          match unify_call_union (fuel + 1) ctx ar₀ argTypes typeArgs types with
          | (ar₁, .error e) => (ar₁, .error e)
          | (ar₁, .ok retTypes) =>
            let (u, ar₂) := new_union_type ar₁ (dedupKeepFirst retTypes)
            (ar₂, .ok u)
        else if nm = "@@intersection" then
          unify_call_intersection (fuel + 1) ctx ar₀ argTypes typeArgs types
        else
          -- todo!("check if {name} has any callable signatures")
          (ar₀, .error .unimplementedPanic)
      | none =>
      match litOf? bT with
      | some lit => (ar₀, .error (.literalNotCallable lit))
      | none =>
      match objProps? bT with
      | some _ => (ar₀, .error (.notCallable "object"))
      | none =>
      match restArg? bT with
      | some _ => (ar₀, .error (.notCallable "rest"))
      | none =>
      match funcParts? bT with
      | some (fparams, fret, ftypeParams) =>
        let instRes : Arena × Except Err (List FuncParam × Nat) :=
          match ftypeParams with
          | some tps => instantiate_func (fuel + 1) ar₀ fparams fret (some tps) typeArgs
          | none => (ar₀, .ok (fparams, fret))
        match instRes with
        | (ar₁, .error e) => (ar₁, .error e)
        | (ar₁, .ok (params', ret')) =>
          if argTypes.length < params'.length then
            (ar₁, .error (.tooFewArgs params'.length argTypes.length))
          else
            match unify_many_pairs (fuel + 1) ctx ar₁
                (List.zip argTypes (params'.map FuncParam.t) ++ [(retType, ret')]) with
            | (ar₂, some e) => (ar₂, .error e)
            | (ar₂, none) => (ar₂, .ok (prune (fuel + 1) ar₂ retType))
      | none =>
        -- unreachable: every kind is handled above
        (ar₀, .error .unimplementedPanic)
termination_by (fuel, 6, 0)

/-- A call against every member of a union callee, collecting the return
types in order. -/
def unify_call_union (fuel : Nat) (ctx : Context) (ar : Arena)
    (argTypes : List Nat) (typeArgs : Option (List Nat)) (types : List Nat) :
    Arena × Except Err (List Nat) :=
  match fuel with
  | 0 => (ar, .error .outOfFuel)
  | fuel + 1 =>
    match types with
    | [] => (ar, .ok [])
    | t :: rest =>
      match unify_call fuel ctx ar argTypes typeArgs t with
      | (ar₁, .error e) => (ar₁, .error e)
      | (ar₁, .ok r) =>
        match unify_call_union (fuel + 1) ctx ar₁ argTypes typeArgs rest with
        | (ar₂, .error e) => (ar₂, .error e)
        | (ar₂, .ok rs) => (ar₂, .ok (r :: rs))
termination_by (fuel, 3, types.length)

/-- A call against an intersection callee (overload set): members are tried
left to right, the first success wins (mutations by failed attempts persist),
and exhausting the members is the no-valid-overload error. -/
def unify_call_intersection (fuel : Nat) (ctx : Context) (ar : Arena)
    (argTypes : List Nat) (typeArgs : Option (List Nat)) (types : List Nat) :
    IRes :=
  match fuel with
  | 0 => (ar, .error .outOfFuel)
  | fuel + 1 =>
    match types with
    | [] => (ar, .error .noValidOverload)
    | t :: rest =>
      match unify_call fuel ctx ar argTypes typeArgs t with
      | (ar₁, .ok r) => (ar₁, .ok r)
      | (ar₁, .error _) =>
        unify_call_intersection (fuel + 1) ctx ar₁ argTypes typeArgs rest
termination_by (fuel, 3, types.length)

end

/-- State of the `Fresh` visitor (context.rs): the arena plus the
per-instantiation mapping of generic variables to their fresh copies. -/
structure FreshState where
  ar : Arena
  mappings : List (Nat × Nat)
deriving Repr

/-- Lookup in the visitor's mappings (im::HashMap::entry probe). -/
def freshLookup (m : List (Nat × Nat)) (k : Nat) : Option Nat :=
  (m.find? (fun p => p.1 == k)).map Prod.snd

mutual

/-- Freshening, from context.rs `fresh` / `Fresh::visit_type_var`.  The
traversal driver lives in the missing visitor.rs and is modelled from the
spec (§4.4: "a structural fold over the arena with overridable hooks per
variant", rebuilding each node like context.rs `instantiate_scheme` does);
the hook at a variable is translated from `Fresh::visit_type_var`: a generic
variable is replaced by a fresh variable on first encounter, recorded in
`mappings`, and by its recorded copy thereafter, while a non-generic variable
is returned unchanged.  Nodes are pruned on access (the `KeyValueStore`
`get_type` of context.rs). -/
def freshRec (fuel : Nat) (ctx : Context) (st : FreshState) (t : Nat) :
    Nat × FreshState :=
  match fuel with
  | 0 => (t, st)
  | fuel + 1 =>
    let p := prune (fuel + 1) st.ar t
    match getT st.ar p with
    | .variable _ _ _ =>
      if is_generic (fuel + 1) st.ar p ctx then
        match freshLookup st.mappings p with
        | some w => (w, st)
        | none =>
          let (nv, ar') := new_var_type st.ar none
          (nv, { ar := ar', mappings := st.mappings ++ [(p, nv)] })
      else (p, st)
    | .constructor name types =>
      let (types', st₁) := freshRecMany fuel ctx st types
      let (idx, ar') := new_constructor st₁.ar name types'
      (idx, { st₁ with ar := ar' })
    | .literal lit =>
      let (idx, ar') := new_lit_type st.ar lit
      (idx, { st with ar := ar' })
    | .function params ret typeParams =>
      let (params', st₁) := freshRecParams fuel ctx st params
      let (ret', st₂) := freshRec fuel ctx st₁ ret
      let (idx, ar') := new_func_type st₂.ar params' ret' typeParams
      (idx, { st₂ with ar := ar' })
    | .object props =>
      let (props', st₁) := freshRecProps fuel ctx st props
      let (idx, ar') := new_object_type st₁.ar props'
      (idx, { st₁ with ar := ar' })
    | .rest arg =>
      let (arg', st₁) := freshRec fuel ctx st arg
      let (idx, ar') := new_rest_type st₁.ar arg'
      (idx, { st₁ with ar := ar' })
termination_by (fuel, 0, 0)

/-- Freshening of a list of indices, left to right. -/
def freshRecMany (fuel : Nat) (ctx : Context) (st : FreshState)
    (ts : List Nat) : List Nat × FreshState :=
  match ts with
  | [] => ([], st)
  | t :: rest =>
    let (t', st₁) := freshRec fuel ctx st t
    let (rest', st₂) := freshRecMany fuel ctx st₁ rest
    (t' :: rest', st₂)
termination_by (fuel, 1, ts.length)

/-- Freshening through function parameters. -/
def freshRecParams (fuel : Nat) (ctx : Context) (st : FreshState)
    (ps : List FuncParam) : List FuncParam × FreshState :=
  match ps with
  | [] => ([], st)
  | p :: rest =>
    let (t', st₁) := freshRec fuel ctx st p.t
    let (rest', st₂) := freshRecParams fuel ctx st₁ rest
    ({ p with t := t' } :: rest', st₂)
termination_by (fuel, 1, ps.length)

/-- Freshening of one object element. -/
def freshRecElem (fuel : Nat) (ctx : Context) (st : FreshState)
    (e : TObjElem) : TObjElem × FreshState :=
  match e with
  | .prop p =>
    let (t', s') := freshRec fuel ctx st p.t
    (TObjElem.prop { p with t := t' }, s')
  | .method m =>
    let (params', s₁) := freshRecParams fuel ctx st m.params
    let (ret', s₂) := freshRec fuel ctx s₁ m.ret
    (TObjElem.method { m with params := params', ret := ret' }, s₂)
  | .index i =>
    let (t', s') := freshRec fuel ctx st i.t
    (TObjElem.index { i with t := t' }, s')
termination_by (fuel, 2, 0)

/-- Freshening through object elements. -/
def freshRecProps (fuel : Nat) (ctx : Context) (st : FreshState)
    (props : List TObjElem) : List TObjElem × FreshState :=
  match props with
  | [] => ([], st)
  | e :: rest =>
    let (e', st₁) := freshRecElem fuel ctx st e
    let (rest', st₂) := freshRecProps fuel ctx st₁ rest
    (e' :: rest', st₂)
termination_by (fuel, 3, props.length)

end

/-- Copy of a type with generic variables duplicated and non-generic
variables shared (context.rs `fresh`): one fresh empty mapping per call. -/
def fresh (fuel : Nat) (ar : Arena) (t : Nat) (ctx : Context) : Nat × Arena :=
  let (idx, st) := freshRec fuel ctx { ar := ar, mappings := [] } t
  (idx, st.ar)

/-- Lookup of an identifier's type, from context.rs `get_type`: the bound
index is freshened; a missing name is the undefined-symbol error. -/
def get_type (fuel : Nat) (ar : Arena) (name : String) (ctx : Context) : IRes :=
  match (ctx.values.find? (fun p => p.1 == name)).map Prod.snd with
  | some value =>
    let (idx, ar') := fresh fuel ar value ctx
    (ar', .ok idx)
  | none => (ar, .error (.unboundTypeName name))

/-- Shape compatibility of one arena entry across an evolution step: the
entry is unchanged, or it is a variable that kept its id and constraint (only
the `instance` field of variables is ever mutated, by `set_inst`). -/
def shapeOk (t t' : Ty) : Prop :=
  t' = t ∨ ∃ id i i' c, t = .variable id i c ∧ t' = .variable id i' c

/-- Arena evolution: the unifier only appends new entries and sets variable
instances, so existing indices keep their shape. -/
def Evolves (ar ar' : Arena) : Prop :=
  ar.length ≤ ar'.length ∧ ∀ i, i < ar.length → shapeOk (getT ar i) (getT ar' i)

/-- Evolution of the freshening visitor state: the arena only grows and the
mapping only gains entries, each recorded fresh variable lying in the arena
segment added by this traversal (the entry's value is the index of a variable
allocated between the start and the end state). -/
def FreshEvolves (st st' : FreshState) : Prop :=
  st.ar.length ≤ st'.ar.length ∧
  ∃ extra, st'.mappings = st.mappings ++ extra ∧
    ∀ pr ∈ extra, st.ar.length ≤ pr.2 ∧ pr.2 < st'.ar.length

/-- A node whose kind the alias-expansion prologue leaves alone: any
non-constructor, or a constructor with a reserved or built-in name. -/
def skipsExpansionAt (ar : Arena) (i : Nat) : Prop :=
  ∀ name types, getT ar i = Ty.constructor name types → needsExpansion name = false

/-- Arena state after sequentially unifying the first `k` pairs of a pair
list (see `unify_many_pairs`). -/
def pairsArena (fuel : Nat) (ctx : Context) (ar : Arena)
    (pairs : List (Nat × Nat)) (k : Nat) : Arena :=
  (unify_many_pairs fuel ctx ar (pairs.take k)).1

/-- Arena state after the first `k` attempts against union members
(meaningful when those attempts all failed; see `unify_union_any`). -/
def anyArena (fuel : Nat) (ctx : Context) (ar : Arena) (a : Nat)
    (ts : List Nat) (k : Nat) : Arena :=
  (unify_union_any fuel ctx ar a (ts.take k)).1

/-- Arena state after the first `k` overload attempts (meaningful when those
attempts all failed; see `unify_call_intersection`). -/
def interArena (fuel : Nat) (ctx : Context) (ar : Arena) (args : List Nat)
    (targs : Option (List Nat)) (ts : List Nat) (k : Nat) : Arena :=
  (unify_call_intersection fuel ctx ar args targs (ts.take k)).1

/-- The arena after `unify_call`'s initial allocation of the fresh return
variable (whose index is the old length). -/
def callArena0 (ar : Arena) : Arena :=
  ar ++ [Ty.variable ar.length none none]

/-- Witness arena for the bind claim: an unbound variable and `number`. -/
def c1Arena : Arena := [.variable 0 none none, .constructor "number" []]

/-- Arena refuting the claim's closing invariant: variable `0` carries the
constraint `2` — the tuple `[0]`, which mentions variable `0` itself — and
variable `1` is unbound. -/
def c1CexArena : Arena :=
  [.variable 0 none (some 2), .variable 1 none none,
   .constructor "@@tuple" [0]]

/-- `c1CexArena` after the constraint unification inside `bind 0 1`: the
constraint step bound variable `1` to the tuple. -/
def c1CexArenaMid : Arena :=
  [.variable 0 none (some 2), .variable 1 (some 2) none,
   .constructor "@@tuple" [0]]

/-- `c1CexArena` after the successful `bind 0 1`: variable `0`'s instance is
variable `1`, whose instance is the tuple `[0]` — a cycle through `0`'s own
instance. -/
def c1CexArenaEnd : Arena :=
  [.variable 0 (some 1) (some 2), .variable 1 (some 2) none,
   .constructor "@@tuple" [0]]

/-- Empty context used by the concrete witnesses. -/
def ctx0 : Context := ⟨[], [], [], false⟩

/-- Witness arena for the union claims: `number`, the literal `1`, and their
union. -/
def c2Arena : Arena :=
  [.constructor "number" [], .literal (.number "1"),
   .constructor "@@union" [1, 0]]

/-- Witness arena for the function-subtyping claim: `(number) => number` and
`(number, string) => number`. -/
def c3Arena : Arena :=
  [.constructor "number" [], .constructor "string" [],
   .function [⟨"x", 0, false⟩] 0 none,
   .function [⟨"x", 0, false⟩, ⟨"y", 1, false⟩] 0 none]

/-- Witness arena for the overload claim: an intersection of a
string-accepting and a number-accepting overload, and a numeric literal
argument. -/
def c6Arena : Arena :=
  [.literal (.number "1"), .constructor "number" [], .constructor "string" [],
   .function [⟨"a", 2, false⟩] 2 none, .function [⟨"a", 1, false⟩] 1 none,
   .constructor "@@intersection" [3, 4]]

/-- Witness arena for the call-arity claim: a two-parameter numeric
function. -/
def c7Arena : Arena :=
  [.literal (.number "1"), .constructor "number" [],
   .function [⟨"x", 1, false⟩, ⟨"y", 1, false⟩] 1 none]

/-- Arena for the C9 witness: two `number` nodes, a two-element tuple of
them, and a one-element tuple of the first. -/
def c9Arena : Arena :=
  [.constructor "number" [], .constructor "number" [],
   .constructor "@@tuple" [0, 1], .constructor "@@tuple" [0]]

/-- Arena for the C4 witness: a single unbound variable. -/
def c4Arena : Arena := [.variable 0 none none]

/-- Arena for the C10 witness: `number`, an object with a single property
`a : number`, and `string`. -/
def c10Arena : Arena :=
  [.constructor "number" [],
   .object [.prop ⟨.stringKey "a", false, false, 0⟩],
   .constructor "string" []]

end Escalier

namespace OldInfer

/-!
Embedding of src/src/infer.rs, the older constraint-solver checker.  The
`types` module of that crate is not among the provided sources; the shape of
`Type`, `Scheme` and `Env` is reconstructed from the `Substitutable`
implementations in infer.rs itself (`Type { id: i32, frozen, kind }` with
kinds `Var`, `Lam(TLam)`, `Prim`, `Lit`, `Union`; `Scheme { qualifiers:
Vec<i32>, ty }`; `Env` a map from names to schemes).  Ids are `i32`,
modelled as `Int`.
-/

/-- Primitive types of the old model (only their identity matters here). -/
inductive Primitive where
  | num
  | bool
  | str
  | null
  | undefinedPrim
deriving DecidableEq, Repr

/-- Old-model types; `id` and `frozen` fields of the Rust `Type` struct are
carried on every constructor (the name `Ty` is used because `Type` is a Lean
keyword).  The literal payload is irrelevant to free variables and is
modelled by its text. -/
inductive Ty where
  | var (id : Int) (frozen : Bool)
  | lam (id : Int) (frozen : Bool) (args : List Ty) (ret : Ty)
  | prim (id : Int) (frozen : Bool) (p : Primitive)
  | lit (id : Int) (frozen : Bool) (text : String)
  | union (id : Int) (frozen : Bool) (types : List Ty)

mutual

/-- Free type variables (infer.rs `Substitutable::ftv` for `Type`): the id of
a variable; nothing for primitives and literals; the union over the pieces
for lambdas and unions. -/
def ftv : Ty → Finset Int
  | .var id _ => {id}
  | .lam _ _ args ret => ftvList args ∪ ftv ret
  | .prim _ _ _ => ∅
  | .lit _ _ _ => ∅
  | .union _ _ types => ftvList types

/-- Free variables of a list of types (infer.rs `Substitutable for Vec`). -/
def ftvList : List Ty → Finset Int
  | [] => ∅
  | t :: rest => ftv t ∪ ftvList rest

end

/-- Scheme of the old model. -/
structure Scheme where
  qualifiers : List Int
  ty : Ty

/-- Free variables of a scheme (infer.rs): the type's free variables minus
the qualifiers. -/
def Scheme.ftv (sc : Scheme) : Finset Int :=
  OldInfer.ftv sc.ty \ sc.qualifiers.toFinset

/-- Environment: names bound to schemes. -/
abbrev Env := List (String × Scheme)

/-- Free variables of an environment (infer.rs `Substitutable for Env`): the
union over its bindings. -/
def Env.ftv (env : Env) : Finset Int :=
  env.foldr (fun b acc => b.2.ftv ∪ acc) ∅

/-- Generalization, from infer.rs `generalize`: the qualifiers are the free
variables of the type minus the free variables of the environment, collected
and sorted (the `qualifiers.sort()` making the arbitrary `HashSet` iteration
order canonical), and the type is kept unchanged. -/
def generalize (env : Env) (ty : Ty) : Scheme :=
  { qualifiers := (ftv ty \ Env.ftv env).sort (· ≤ ·)
    ty := ty }

end OldInfer

namespace ThrowsModel

/-!
Modelled from the spec: the expression/statement inference module of the
checker crate (the one exercised by tests/exceptions_test.rs) is not among
the provided sources, so the try-catch rule of spec §4.8 is modelled over a
micro-language.  An expression's inferred type is a union of atomic type
indices (the empty union standing for `never`), and each function scope's
`throws` accumulator is a deduplicated list of atomic type indices.
-/

/-- Expressions of the throws model: an expression of a known atomic type, a
`throw`, sequencing (a block), and `try`/`catch`. -/
inductive SExpr where
  | konst (t : Nat)
  | throwE (t : Nat)
  | seqE (e1 e2 : SExpr)
  | tryCatch (tryBlock catchBlock : SExpr)
deriving DecidableEq, Repr

/-- Deduplicating union of two accumulators (spec §9: the throws set is
associative, commutative, idempotent; deduplicate by structural equality). -/
def joinThrows (a b : List Nat) : List Nat :=
  a ++ b.filter (fun t => ¬ a.contains t)

/-- Modelled from the spec (§4.8): inference returns the expression's type (a
union of atoms) and its `throws` accumulator.

* a known-type expression has its type and no throws;
* `throw` unifies the thrown type into the enclosing `throws` and has type
  `never` (spec: "Throw — unify the thrown expression's type into the
  enclosing `throws`; expression type is `never`");
* a block types as its last expression, accumulating throws of both parts;
* `try`/`catch` infers the try block, collects its throws into a local
  accumulator (consumed by the catch parameter, see `catchParamTy`), unions
  the try and catch types for the overall type, and its remaining throws
  are the catch block's own throws together with any uncaught effects — in
  this fragment the catch parameter absorbs the whole accumulator, so no
  effect is left uncaught. -/
def infer : SExpr → List Nat × List Nat
  | .konst t => ([t], [])
  | .throwE t => ([], [t])
  | .seqE e1 e2 => ((infer e2).1, joinThrows (infer e1).2 (infer e2).2)
  | .tryCatch b c => (joinThrows (infer b).1 (infer c).1, (infer c).2)

/-- Modelled from the spec (§4.8): the catch parameter is unified against the
accumulated throws of the try block, i.e. its type is their union. -/
def catchParamTy (b : SExpr) : List Nat :=
  (infer b).2

end ThrowsModel

namespace Escalier

section ViewLemmas

/-! Evaluation rules for the view helpers, used to drive the dispatch
cascades in proofs. -/

@[simp] theorem isVar_variable (id : Nat) (i c : Option Nat) :
    (Ty.variable id i c).isVar = true := rfl

@[simp] theorem isVar_constructor (n : String) (ts : List Nat) :
    (Ty.constructor n ts).isVar = false := rfl

@[simp] theorem isVar_literal (l : Lit) : (Ty.literal l).isVar = false := rfl

@[simp] theorem isVar_function (ps : List FuncParam) (r : Nat)
    (tp : Option (List TypeParam)) : (Ty.function ps r tp).isVar = false := rfl

@[simp] theorem isVar_object (props : List TObjElem) :
    (Ty.object props).isVar = false := rfl

@[simp] theorem isVar_rest (r : Nat) : (Ty.rest r).isVar = false := rfl

@[simp] theorem isConNamed_variable (id : Nat) (i c : Option Nat) (nm : String) :
    (Ty.variable id i c).isConNamed nm = false := rfl

@[simp] theorem isConNamed_constructor (n : String) (ts : List Nat) (nm : String) :
    (Ty.constructor n ts).isConNamed nm = (n == nm) := rfl

@[simp] theorem isConNamed_literal (l : Lit) (nm : String) :
    (Ty.literal l).isConNamed nm = false := rfl

@[simp] theorem isConNamed_function (ps : List FuncParam) (r : Nat)
    (tp : Option (List TypeParam)) (nm : String) :
    (Ty.function ps r tp).isConNamed nm = false := rfl

@[simp] theorem isConNamed_object (props : List TObjElem) (nm : String) :
    (Ty.object props).isConNamed nm = false := rfl

@[simp] theorem isConNamed_rest (r : Nat) (nm : String) :
    (Ty.rest r).isConNamed nm = false := rfl

@[simp] theorem conArgs_variable (id : Nat) (i c : Option Nat) (nm : String) :
    conArgs? (Ty.variable id i c) nm = none := rfl

@[simp] theorem conArgs_constructor (n : String) (ts : List Nat) (nm : String) :
    conArgs? (Ty.constructor n ts) nm = if n = nm then some ts else none := rfl

@[simp] theorem conArgs_literal (l : Lit) (nm : String) :
    conArgs? (Ty.literal l) nm = none := rfl

@[simp] theorem conArgs_function (ps : List FuncParam) (r : Nat)
    (tp : Option (List TypeParam)) (nm : String) :
    conArgs? (Ty.function ps r tp) nm = none := rfl

@[simp] theorem conArgs_object (props : List TObjElem) (nm : String) :
    conArgs? (Ty.object props) nm = none := rfl

@[simp] theorem conArgs_rest (r : Nat) (nm : String) :
    conArgs? (Ty.rest r) nm = none := rfl

@[simp] theorem conParts_variable (id : Nat) (i c : Option Nat) :
    conParts? (Ty.variable id i c) = none := rfl

@[simp] theorem conParts_constructor (n : String) (ts : List Nat) :
    conParts? (Ty.constructor n ts) = some (n, ts) := rfl

@[simp] theorem conParts_literal (l : Lit) : conParts? (Ty.literal l) = none := rfl

@[simp] theorem conParts_function (ps : List FuncParam) (r : Nat)
    (tp : Option (List TypeParam)) : conParts? (Ty.function ps r tp) = none := rfl

@[simp] theorem conParts_object (props : List TObjElem) :
    conParts? (Ty.object props) = none := rfl

@[simp] theorem conParts_rest (r : Nat) : conParts? (Ty.rest r) = none := rfl

@[simp] theorem funcParts_variable (id : Nat) (i c : Option Nat) :
    funcParts? (Ty.variable id i c) = none := rfl

@[simp] theorem funcParts_constructor (n : String) (ts : List Nat) :
    funcParts? (Ty.constructor n ts) = none := rfl

@[simp] theorem funcParts_literal (l : Lit) : funcParts? (Ty.literal l) = none := rfl

@[simp] theorem funcParts_function (ps : List FuncParam) (r : Nat)
    (tp : Option (List TypeParam)) :
    funcParts? (Ty.function ps r tp) = some (ps, r, tp) := rfl

@[simp] theorem funcParts_object (props : List TObjElem) :
    funcParts? (Ty.object props) = none := rfl

@[simp] theorem funcParts_rest (r : Nat) : funcParts? (Ty.rest r) = none := rfl

@[simp] theorem litOf_variable (id : Nat) (i c : Option Nat) :
    litOf? (Ty.variable id i c) = none := rfl

@[simp] theorem litOf_constructor (n : String) (ts : List Nat) :
    litOf? (Ty.constructor n ts) = none := rfl

@[simp] theorem litOf_literal (l : Lit) : litOf? (Ty.literal l) = some l := rfl

@[simp] theorem litOf_function (ps : List FuncParam) (r : Nat)
    (tp : Option (List TypeParam)) : litOf? (Ty.function ps r tp) = none := rfl

@[simp] theorem litOf_object (props : List TObjElem) :
    litOf? (Ty.object props) = none := rfl

@[simp] theorem litOf_rest (r : Nat) : litOf? (Ty.rest r) = none := rfl

@[simp] theorem objProps_variable (id : Nat) (i c : Option Nat) :
    objProps? (Ty.variable id i c) = none := rfl

@[simp] theorem objProps_constructor (n : String) (ts : List Nat) :
    objProps? (Ty.constructor n ts) = none := rfl

@[simp] theorem objProps_literal (l : Lit) : objProps? (Ty.literal l) = none := rfl

@[simp] theorem objProps_function (ps : List FuncParam) (r : Nat)
    (tp : Option (List TypeParam)) : objProps? (Ty.function ps r tp) = none := rfl

@[simp] theorem objProps_object (props : List TObjElem) :
    objProps? (Ty.object props) = some props := rfl

@[simp] theorem objProps_rest (r : Nat) : objProps? (Ty.rest r) = none := rfl

@[simp] theorem restArg_variable (id : Nat) (i c : Option Nat) :
    restArg? (Ty.variable id i c) = none := rfl

@[simp] theorem restArg_constructor (n : String) (ts : List Nat) :
    restArg? (Ty.constructor n ts) = none := rfl

@[simp] theorem restArg_literal (l : Lit) : restArg? (Ty.literal l) = none := rfl

@[simp] theorem restArg_function (ps : List FuncParam) (r : Nat)
    (tp : Option (List TypeParam)) : restArg? (Ty.function ps r tp) = none := rfl

@[simp] theorem restArg_object (props : List TObjElem) :
    restArg? (Ty.object props) = none := rfl

@[simp] theorem restArg_rest (r : Nat) : restArg? (Ty.rest r) = some r := rfl

end ViewLemmas

theorem expandSide_skip (fuel : Nat) (ctx : Context) (ar : Arena) (i : Nat)
    (h : skipsExpansionAt ar i) : expandSide fuel ctx ar i = (ar, .ok i) := by
  unfold expandSide
  rcases hty : getT ar i with _ | ⟨nm, tys⟩ | _ | _ | _ | _ <;> simp
  rw [h nm tys hty]
  simp

theorem prune_of_nonvar {ar : Arena} {t : Nat} (fuel : Nat)
    (h : (getT ar t).isVar = false) : prune fuel ar t = t := by
  cases fuel with
  | zero => rfl
  | succ n =>
    unfold prune
    rcases hty : getT ar t with ⟨id, inst, c⟩ | _ | _ | _ | _ | _ <;>
      simp_all [Ty.isVar]


theorem zip_take_len {α β : Type} :
    ∀ (l1 : List α) (l2 : List β),
      List.zip (l1.take l2.length) l2 = List.zip l1 l2 := by
  intro l1
  induction l1 with
  | nil => intro l2; simp
  | cons x xs ih =>
    intro l2
    cases l2 with
    | nil => simp
    | cons y ys => simp [ih ys]

theorem skipsExpansionAt_of {ar : Arena} {i : Nat} {nm : String} {ts : List Nat}
    (h : getT ar i = Ty.constructor nm ts) (hnm : needsExpansion nm = false) :
    skipsExpansionAt ar i := by
  intro n tys hh
  rw [h] at hh
  cases hh
  exact hnm

theorem skipsExpansionAt_nonCon {ar : Arena} {i : Nat}
    (h : conParts? (getT ar i) = none) : skipsExpansionAt ar i := by
  intro n tys hh
  rw [hh] at h
  simp at h

theorem ump_nil (fuel : Nat) (ctx : Context) (ar : Arena) :
    unify_many_pairs (fuel + 1) ctx ar [] = (ar, none) := by
  simp [unify_many_pairs]

theorem ump_cons (fuel : Nat) (ctx : Context) (ar : Arena) (p : Nat × Nat)
    (rest : List (Nat × Nat)) :
    unify_many_pairs (fuel + 1) ctx ar (p :: rest) =
      match unify fuel ctx ar p.1 p.2 with
      | (ar₁, none) => unify_many_pairs (fuel + 1) ctx ar₁ rest
      | (ar₁, some e) => (ar₁, some e) := by
  cases p
  simp [unify_many_pairs]

theorem pairsArena_zero (fuel : Nat) (ctx : Context) (ar : Arena)
    (pairs : List (Nat × Nat)) : pairsArena (fuel + 1) ctx ar pairs 0 = ar := by
  simp [pairsArena, ump_nil]

theorem pairsArena_succ (fuel : Nat) (ctx : Context) (ar ar₁ : Arena)
    (p : Nat × Nat) (rest : List (Nat × Nat)) (k : Nat)
    (hstep : unify fuel ctx ar p.1 p.2 = (ar₁, none)) :
    pairsArena (fuel + 1) ctx ar (p :: rest) (k + 1) =
      pairsArena (fuel + 1) ctx ar₁ rest k := by
  simp only [pairsArena, List.take_succ_cons, ump_cons, hstep]

/-- Sequential unification of a pair list succeeds exactly when every single
pair unifies, each from the arena produced by its predecessors. -/
theorem ump_ok_iff (fuel : Nat) (ctx : Context) (pairs : List (Nat × Nat)) :
    ∀ ar, (unify_many_pairs (fuel + 1) ctx ar pairs).2 = none ↔
      ∀ k, (hk : k < pairs.length) →
        (unify fuel ctx (pairsArena (fuel + 1) ctx ar pairs k)
          pairs[k].1 pairs[k].2).2 = none := by
  induction pairs with
  | nil => intro ar; simp [ump_nil]
  | cons p rest ih =>
    intro ar
    rw [ump_cons]
    rcases hstep : unify fuel ctx ar p.1 p.2 with ⟨ar₁, e⟩
    cases e with
    | none =>
      show (unify_many_pairs (fuel + 1) ctx ar₁ rest).2 = none ↔ _
      rw [ih ar₁]
      constructor
      · intro h k hk
        cases k with
        | zero =>
          rw [pairsArena_zero]
          simpa using congrArg Prod.snd hstep
        | succ j =>
          have hj : j < rest.length := by simpa using hk
          rw [pairsArena_succ fuel ctx ar ar₁ p rest j hstep]
          simpa using h j hj
      · intro h j hj
        have := h (j + 1) (by simpa using hj)
        rw [pairsArena_succ fuel ctx ar ar₁ p rest j hstep] at this
        simpa using this
    | some e =>
      show (ar₁, some e).2 = none ↔ _
      constructor
      · intro h; exact absurd h (by simp)
      · intro h
        have := h 0 (by simp)
        rw [pairsArena_zero] at this
        simp only [List.getElem_cons_zero] at this
        rw [hstep] at this
        simp at this

theorem any_nil (fuel : Nat) (ctx : Context) (ar : Arena) (a : Nat) :
    unify_union_any (fuel + 1) ctx ar a [] = (ar, false) := by
  simp [unify_union_any]

theorem any_cons (fuel : Nat) (ctx : Context) (ar : Arena) (a t : Nat)
    (rest : List Nat) :
    unify_union_any (fuel + 1) ctx ar a (t :: rest) =
      match unify fuel ctx ar a t with
      | (ar₁, none) => (ar₁, true)
      | (ar₁, some _) => unify_union_any (fuel + 1) ctx ar₁ a rest := by
  simp [unify_union_any]

theorem anyArena_zero (fuel : Nat) (ctx : Context) (ar : Arena) (a : Nat)
    (ts : List Nat) : anyArena (fuel + 1) ctx ar a ts 0 = ar := by
  simp [anyArena, any_nil]

theorem anyArena_succ (fuel : Nat) (ctx : Context) (ar ar₁ : Arena) (a t : Nat)
    (rest : List Nat) (k : Nat) (e : Err)
    (hstep : unify fuel ctx ar a t = (ar₁, some e)) :
    anyArena (fuel + 1) ctx ar a (t :: rest) (k + 1) =
      anyArena (fuel + 1) ctx ar₁ a rest k := by
  simp only [anyArena, List.take_succ_cons, any_cons, hstep]

/-- Trying the members of a union in declared order reports success exactly
when some member unifies after all earlier members failed — the first
success wins. -/
theorem any_true_iff (fuel : Nat) (ctx : Context) (a : Nat) (ts : List Nat) :
    ∀ ar, (unify_union_any (fuel + 1) ctx ar a ts).2 = true ↔
      ∃ k, ∃ hk : k < ts.length,
        (∀ j, (hj : j < ts.length) → j < k →
          (unify fuel ctx (anyArena (fuel + 1) ctx ar a ts j) a ts[j]).2 ≠ none)
        ∧ (unify fuel ctx (anyArena (fuel + 1) ctx ar a ts k) a ts[k]).2 = none := by
  induction ts with
  | nil => intro ar; simp [any_nil]
  | cons t rest ih =>
    intro ar
    rw [any_cons]
    rcases hstep : unify fuel ctx ar a t with ⟨ar₁, e⟩
    cases e with
    | none =>
      show (ar₁, true).2 = true ↔ _
      constructor
      · intro _
        refine ⟨0, by simp, fun j hj hj0 => by omega, ?_⟩
        rw [anyArena_zero]
        simp only [List.getElem_cons_zero]
        simpa using congrArg Prod.snd hstep
      · intro _; rfl
    | some e =>
      show (unify_union_any (fuel + 1) ctx ar₁ a rest).2 = true ↔ _
      rw [ih ar₁]
      constructor
      · rintro ⟨k, hk, hfail, hok⟩
        refine ⟨k + 1, by simpa using hk, ?_, ?_⟩
        · intro j hj hjk
          cases j with
          | zero =>
            rw [anyArena_zero]
            simp only [List.getElem_cons_zero]
            rw [hstep]
            simp
          | succ i =>
            rw [anyArena_succ fuel ctx ar ar₁ a t rest i e hstep]
            have hi : i < rest.length := by simpa using hj
            have := hfail i hi (by omega)
            simpa using this
        · rw [anyArena_succ fuel ctx ar ar₁ a t rest k e hstep]
          simpa using hok
      · rintro ⟨k, hk, hfail, hok⟩
        cases k with
        | zero =>
          rw [anyArena_zero] at hok
          simp only [List.getElem_cons_zero] at hok
          rw [hstep] at hok
          simp at hok
        | succ i =>
          have hi : i < rest.length := by simpa using hk
          refine ⟨i, hi, ?_, ?_⟩
          · intro j hj hji
            have := hfail (j + 1) (by simpa using hj) (by omega)
            rw [anyArena_succ fuel ctx ar ar₁ a t rest j e hstep] at this
            simpa using this
          · rw [anyArena_succ fuel ctx ar ar₁ a t rest i e hstep] at hok
            simpa using hok

/-- When every member fails, the try loop reports failure with the fully
accumulated arena. -/
theorem any_all_fail (fuel : Nat) (ctx : Context) (a : Nat) (ts : List Nat) :
    ∀ ar,
      (∀ k, (hk : k < ts.length) →
        (unify fuel ctx (anyArena (fuel + 1) ctx ar a ts k) a ts[k]).2 ≠ none) →
      unify_union_any (fuel + 1) ctx ar a ts =
        (anyArena (fuel + 1) ctx ar a ts ts.length, false) := by
  induction ts with
  | nil => intro ar _; simp [any_nil, anyArena]
  | cons t rest ih =>
    intro ar hfail
    rw [any_cons]
    rcases hstep : unify fuel ctx ar a t with ⟨ar₁, e⟩
    cases e with
    | none =>
      have := hfail 0 (by simp)
      rw [anyArena_zero] at this
      simp only [List.getElem_cons_zero] at this
      rw [hstep] at this
      simp at this
    | some e =>
      show unify_union_any (fuel + 1) ctx ar₁ a rest = _
      rw [ih ar₁]
      · rw [show (t :: rest).length = rest.length + 1 from rfl,
          anyArena_succ fuel ctx ar ar₁ a t rest rest.length e hstep]
      · intro k hk
        have := hfail (k + 1) (by simpa using hk)
        rw [anyArena_succ fuel ctx ar ar₁ a t rest k e hstep] at this
        simpa using this

theorem inter_nil (fuel : Nat) (ctx : Context) (ar : Arena) (args : List Nat)
    (targs : Option (List Nat)) :
    unify_call_intersection (fuel + 1) ctx ar args targs [] =
      (ar, .error .noValidOverload) := by
  simp [unify_call_intersection]

theorem inter_cons (fuel : Nat) (ctx : Context) (ar : Arena) (args : List Nat)
    (targs : Option (List Nat)) (t : Nat) (rest : List Nat) :
    unify_call_intersection (fuel + 1) ctx ar args targs (t :: rest) =
      match unify_call fuel ctx ar args targs t with
      | (ar₁, .ok r) => (ar₁, .ok r)
      | (ar₁, .error _) =>
        unify_call_intersection (fuel + 1) ctx ar₁ args targs rest := by
  simp [unify_call_intersection]

theorem interArena_zero (fuel : Nat) (ctx : Context) (ar : Arena)
    (args : List Nat) (targs : Option (List Nat)) (ts : List Nat) :
    interArena (fuel + 1) ctx ar args targs ts 0 = ar := by
  simp [interArena, inter_nil]

theorem interArena_succ (fuel : Nat) (ctx : Context) (ar ar₁ : Arena)
    (args : List Nat) (targs : Option (List Nat)) (t : Nat) (rest : List Nat)
    (k : Nat) (e : Err)
    (hstep : unify_call fuel ctx ar args targs t = (ar₁, .error e)) :
    interArena (fuel + 1) ctx ar args targs (t :: rest) (k + 1) =
      interArena (fuel + 1) ctx ar₁ args targs rest k := by
  simp only [interArena, List.take_succ_cons, inter_cons, hstep]

/-- Overload resolution: when all members up to `k` fail and member `k`
succeeds, the whole intersection call returns exactly member `k`'s result —
a later overload is never chosen. -/
theorem inter_first_success (fuel : Nat) (ctx : Context) (args : List Nat)
    (targs : Option (List Nat)) (ts : List Nat) :
    ∀ ar k, (hk : k < ts.length) →
      (∀ j, (hj : j < ts.length) → j < k →
        ∀ ar' r, unify_call fuel ctx (interArena (fuel + 1) ctx ar args targs ts j)
          args targs ts[j] ≠ (ar', .ok r)) →
      (∀ ar' e, unify_call fuel ctx (interArena (fuel + 1) ctx ar args targs ts k)
          args targs ts[k] ≠ (ar', .error e)) →
      unify_call_intersection (fuel + 1) ctx ar args targs ts =
        unify_call fuel ctx (interArena (fuel + 1) ctx ar args targs ts k)
          args targs ts[k] := by
  induction ts with
  | nil => intro ar k hk; simp at hk
  | cons t rest ih =>
    intro ar k hk hfail hok
    rw [inter_cons]
    rcases hstep : unify_call fuel ctx ar args targs t with ⟨ar₁, res⟩
    cases res with
    | ok r =>
      cases k with
      | zero =>
        rw [interArena_zero]
        simp only [List.getElem_cons_zero]
        rw [hstep]
      | succ i =>
        have := hfail 0 (by simp) (by omega) ar₁ r
        rw [interArena_zero] at this
        simp only [List.getElem_cons_zero] at this
        exact absurd hstep this
    | error e =>
      cases k with
      | zero =>
        rw [interArena_zero] at hok
        simp only [List.getElem_cons_zero] at hok
        exact absurd hstep (hok ar₁ e)
      | succ i =>
        have hi : i < rest.length := by simpa using hk
        show unify_call_intersection (fuel + 1) ctx ar₁ args targs rest = _
        rw [interArena_succ fuel ctx ar ar₁ args targs t rest i e hstep]
        rw [ih ar₁ i hi]
        · simp
        · intro j hj hji ar' r
          have := hfail (j + 1) (by simpa using hj) (by omega) ar' r
          rw [interArena_succ fuel ctx ar ar₁ args targs t rest j e hstep] at this
          simpa using this
        · intro ar' e2
          have := hok ar' e2
          rw [interArena_succ fuel ctx ar ar₁ args targs t rest i e hstep] at this
          simpa using this

/-- Overload resolution: when every member fails, the result is the
no-valid-overload error with the fully accumulated arena. -/
theorem inter_all_fail (fuel : Nat) (ctx : Context) (args : List Nat)
    (targs : Option (List Nat)) (ts : List Nat) :
    ∀ ar,
      (∀ k, (hk : k < ts.length) →
        ∀ ar' r, unify_call fuel ctx (interArena (fuel + 1) ctx ar args targs ts k)
          args targs ts[k] ≠ (ar', .ok r)) →
      unify_call_intersection (fuel + 1) ctx ar args targs ts =
        (interArena (fuel + 1) ctx ar args targs ts ts.length,
          .error .noValidOverload) := by
  induction ts with
  | nil => intro ar _; simp [inter_nil, interArena]
  | cons t rest ih =>
    intro ar hfail
    rw [inter_cons]
    rcases hstep : unify_call fuel ctx ar args targs t with ⟨ar₁, res⟩
    cases res with
    | ok r =>
      have := hfail 0 (by simp) ar₁ r
      rw [interArena_zero] at this
      simp only [List.getElem_cons_zero] at this
      exact absurd hstep this
    | error e =>
      show unify_call_intersection (fuel + 1) ctx ar₁ args targs rest = _
      rw [ih ar₁]
      · rw [show (t :: rest).length = rest.length + 1 from rfl,
          interArena_succ fuel ctx ar ar₁ args targs t rest rest.length e hstep]
      · intro k hk ar' r
        have := hfail (k + 1) (by simpa using hk) ar' r
        rw [interArena_succ fuel ctx ar ar₁ args targs t rest k e hstep] at this
        simpa using this

/-- One step of `unify` when neither pruned side triggers alias expansion:
prune both sides and dispatch on the kinds. -/
theorem unify_to_kinds (fuel : Nat) (ctx : Context) (ar : Arena) (t1 t2 : Nat)
    (haSkip : skipsExpansionAt ar (prune (fuel + 1) ar t1))
    (hbSkip : skipsExpansionAt ar (prune (fuel + 1) ar t2)) :
    unify (fuel + 1) ctx ar t1 t2 =
      unifyKinds (fuel + 1) ctx ar t1 t2 (prune (fuel + 1) ar t1)
        (prune (fuel + 1) ar t2) := by
  rw [unify]
  simp only [expandSide_skip _ _ _ _ haSkip, expandSide_skip _ _ _ _ hbSkip]

theorem unifyKinds_union_left (fuel : Nat) (ctx : Context) (ar : Arena)
    (t1 t2 a b : Nat) (ts : List Nat)
    (ha : getT ar a = .constructor "@@union" ts)
    (hb1 : (getT ar b).isVar = false)
    (hb2 : (getT ar b).isConNamed "unknown" = false) :
    unifyKinds (fuel + 1) ctx ar t1 t2 a b =
      unify_many_pairs (fuel + 1) ctx ar (ts.map fun t => (t, b)) := by
  simp [unifyKinds, ha, hb1, hb2]

theorem unifyKinds_union_right (fuel : Nat) (ctx : Context) (ar : Arena)
    (t1 t2 a b : Nat) (ts : List Nat)
    (hb : getT ar b = .constructor "@@union" ts)
    (ha1 : (getT ar a).isVar = false)
    (haU : conArgs? (getT ar a) "@@union" = none) :
    unifyKinds (fuel + 1) ctx ar t1 t2 a b =
      (match unify_union_any (fuel + 1) ctx ar a ts with
       | (ar₁, true) => (ar₁, none)
       | (ar₁, false) => (ar₁, some (.typeMismatch a b))) := by
  simp [unifyKinds, hb, ha1, haU]

theorem unifyKinds_func (fuel : Nat) (ctx : Context) (ar : Arena)
    (t1 t2 a b : Nat) (pa : List FuncParam) (ra : Nat) (pb : List FuncParam)
    (rb : Nat)
    (ha : getT ar a = .function pa ra none)
    (hb : getT ar b = .function pb rb none) :
    unifyKinds (fuel + 1) ctx ar t1 t2 a b =
      (if pa.length > pb.length then (ar, some (.moreParams a b))
       else unify_many_pairs (fuel + 1) ctx ar
         (List.zip (pb.map FuncParam.t) (pa.map FuncParam.t) ++ [(ra, rb)])) := by
  simp [unifyKinds, ha, hb, instantiate_func]

theorem unify_call_inter_eq (fuel : Nat) (ctx : Context) (ar : Arena)
    (args : List Nat) (targs : Option (List Nat)) (t2 : Nat) (ts : List Nat)
    (hb : getT (callArena0 ar) (prune (fuel + 1) (callArena0 ar) t2) =
      .constructor "@@intersection" ts) :
    unify_call (fuel + 1) ctx ar args targs t2 =
      unify_call_intersection (fuel + 1) ctx (callArena0 ar) args targs ts := by
  have hb' := hb
  simp only [callArena0] at hb'
  rw [unify_call]
  simp [new_var_type, hb', callArena0]

theorem unify_call_func_eq (fuel : Nat) (ctx : Context) (ar : Arena)
    (args : List Nat) (targs : Option (List Nat)) (t2 : Nat)
    (fparams : List FuncParam) (fret : Nat)
    (hb : getT (callArena0 ar) (prune (fuel + 1) (callArena0 ar) t2) =
      .function fparams fret none) :
    unify_call (fuel + 1) ctx ar args targs t2 =
      (if args.length < fparams.length then
        (callArena0 ar, .error (.tooFewArgs fparams.length args.length))
      else
        match unify_many_pairs (fuel + 1) ctx (callArena0 ar)
            (List.zip args (fparams.map FuncParam.t) ++ [(ar.length, fret)]) with
        | (ar₂, some e) => (ar₂, .error e)
        | (ar₂, none) => (ar₂, .ok (prune (fuel + 1) ar₂ ar.length))) := by
  have hb' := hb
  simp only [callArena0] at hb'
  rw [unify_call]
  simp [new_var_type, hb', callArena0]

/-- C2: union unification is universally quantified on the left and
existentially on the right.  A union on the left of `unify` reduces to
unifying every member against the (pruned) right side in declared order, and
succeeds exactly when every member unifies; a union on the right with a
non-variable, non-union left side succeeds exactly when some member — the
first, in declared order, all earlier attempts having failed — unifies with
the left side, and when every member fails the result is the type-mismatch
error. -/
theorem c2_union_unification (fuel : Nat) (ctx : Context) (ar : Arena) (t1 t2 : Nat) :
    (∀ ts, getT ar (prune (fuel + 1) ar t1) = .constructor "@@union" ts →
      (getT ar (prune (fuel + 1) ar t2)).isVar = false →
      (getT ar (prune (fuel + 1) ar t2)).isConNamed "unknown" = false →
      skipsExpansionAt ar (prune (fuel + 1) ar t2) →
      (unify (fuel + 1) ctx ar t1 t2 =
        unify_many_pairs (fuel + 1) ctx ar
          (ts.map fun t => (t, prune (fuel + 1) ar t2)))
      ∧ ((unify (fuel + 1) ctx ar t1 t2).2 = none ↔
          ∀ k, (hk : k < ts.length) →
            (unify fuel ctx
              (pairsArena (fuel + 1) ctx ar
                (ts.map fun t => (t, prune (fuel + 1) ar t2)) k)
              ts[k] (prune (fuel + 1) ar t2)).2 = none))
    ∧ (∀ ts, getT ar (prune (fuel + 1) ar t2) = .constructor "@@union" ts →
      (getT ar (prune (fuel + 1) ar t1)).isVar = false →
      conArgs? (getT ar (prune (fuel + 1) ar t1)) "@@union" = none →
      skipsExpansionAt ar (prune (fuel + 1) ar t1) →
      ((unify (fuel + 1) ctx ar t1 t2).2 = none ↔
        ∃ k, ∃ hk : k < ts.length,
          (∀ j, (hj : j < ts.length) → j < k →
            (unify fuel ctx
              (anyArena (fuel + 1) ctx ar (prune (fuel + 1) ar t1) ts j)
              (prune (fuel + 1) ar t1) ts[j]).2 ≠ none)
          ∧ (unify fuel ctx
              (anyArena (fuel + 1) ctx ar (prune (fuel + 1) ar t1) ts k)
              (prune (fuel + 1) ar t1) ts[k]).2 = none)
      ∧ ((∀ k, (hk : k < ts.length) →
            (unify fuel ctx
              (anyArena (fuel + 1) ctx ar (prune (fuel + 1) ar t1) ts k)
              (prune (fuel + 1) ar t1) ts[k]).2 ≠ none) →
          unify (fuel + 1) ctx ar t1 t2 =
            (anyArena (fuel + 1) ctx ar (prune (fuel + 1) ar t1) ts ts.length,
              some (.typeMismatch (prune (fuel + 1) ar t1)
                (prune (fuel + 1) ar t2))))) := by
  constructor
  · intro ts ha hb1 hb2 hbSkip
    have haSkip : skipsExpansionAt ar (prune (fuel + 1) ar t1) :=
      skipsExpansionAt_of ha rfl
    have heq : unify (fuel + 1) ctx ar t1 t2 =
        unify_many_pairs (fuel + 1) ctx ar
          (ts.map fun t => (t, prune (fuel + 1) ar t2)) := by
      rw [unify_to_kinds fuel ctx ar t1 t2 haSkip hbSkip]
      exact unifyKinds_union_left fuel ctx ar t1 t2 _ _ ts ha hb1 hb2
    refine ⟨heq, ?_⟩
    rw [heq, ump_ok_iff]
    constructor
    · intro h k hk
      have := h k (by simpa using hk)
      simpa using this
    · intro h k hk
      have hk' : k < ts.length := by simpa using hk
      have := h k hk'
      simpa using this
  · intro ts hb ha1 haU haSkip
    have hbSkip : skipsExpansionAt ar (prune (fuel + 1) ar t2) :=
      skipsExpansionAt_of hb rfl
    have heq := unify_to_kinds fuel ctx ar t1 t2 haSkip hbSkip
    rw [unifyKinds_union_right fuel ctx ar t1 t2 _ _ ts hb ha1 haU] at heq
    constructor
    · rw [heq]
      rcases hany : unify_union_any (fuel + 1) ctx ar
          (prune (fuel + 1) ar t1) ts with ⟨ar₁, ok⟩
      have := any_true_iff fuel ctx (prune (fuel + 1) ar t1) ts ar
      rw [hany] at this
      cases ok with
      | true => simpa using this
      | false =>
        simp only [] at this ⊢
        constructor
        · intro hcontra; simp at hcontra
        · intro hex
          exact absurd (this.mpr hex) (by simp)
    · intro hall
      rw [heq]
      rw [any_all_fail fuel ctx (prune (fuel + 1) ar t1) ts ar hall]

theorem c2_union_unification_witness :
    (getT c2Arena (prune 9 c2Arena 2) = Ty.constructor "@@union" [1, 0])
    ∧ ((getT c2Arena (prune 9 c2Arena 0)).isVar = false)
    ∧ ((getT c2Arena (prune 9 c2Arena 0)).isConNamed "unknown" = false)
    ∧ unify 9 ctx0 c2Arena 2 0 =
        unify_many_pairs 9 ctx0 c2Arena
          ([1, 0].map fun t => (t, prune 9 c2Arena 0)) :=
  ⟨rfl, rfl, rfl,
    ((c2_union_unification 8 ctx0 c2Arena 2 0).1 [1, 0] rfl rfl rfl
      (skipsExpansionAt_of rfl rfl)).1⟩

/-- C3: function-vs-function unification implements subtyping with parameter
contravariance and return covariance.  For (non-generic) function types `f`
on the left and `g` on the right, unification fails with the
requires-more-params error when `f` has more parameters than `g`; otherwise
it unifies, in order, `g`'s parameter against `f`'s parameter at each shared
position (the reversed direction) and then `f`'s return type against `g`'s,
succeeding exactly when every one of those unifications succeeds. -/
theorem c3_function_subtyping (fuel : Nat) (ctx : Context) (ar : Arena) (t1 t2 : Nat)
    (pa : List FuncParam) (ra : Nat) (pb : List FuncParam) (rb : Nat)
    (ha : getT ar (prune (fuel + 1) ar t1) = .function pa ra none)
    (hb : getT ar (prune (fuel + 1) ar t2) = .function pb rb none) :
    (pa.length > pb.length →
      unify (fuel + 1) ctx ar t1 t2 =
        (ar, some (.moreParams (prune (fuel + 1) ar t1)
          (prune (fuel + 1) ar t2))))
    ∧ (pa.length ≤ pb.length →
        (unify (fuel + 1) ctx ar t1 t2 =
          unify_many_pairs (fuel + 1) ctx ar
            (List.zip (pb.map FuncParam.t) (pa.map FuncParam.t) ++ [(ra, rb)]))
        ∧ ((unify (fuel + 1) ctx ar t1 t2).2 = none ↔
            ∀ k, (hk : k < (List.zip (pb.map FuncParam.t)
                (pa.map FuncParam.t) ++ [(ra, rb)]).length) →
              (unify fuel ctx
                (pairsArena (fuel + 1) ctx ar
                  (List.zip (pb.map FuncParam.t) (pa.map FuncParam.t)
                    ++ [(ra, rb)]) k)
                (List.zip (pb.map FuncParam.t) (pa.map FuncParam.t)
                  ++ [(ra, rb)])[k].1
                (List.zip (pb.map FuncParam.t) (pa.map FuncParam.t)
                  ++ [(ra, rb)])[k].2).2 = none)) := by
  have haSkip : skipsExpansionAt ar (prune (fuel + 1) ar t1) :=
    skipsExpansionAt_nonCon (by rw [ha]; rfl)
  have hbSkip : skipsExpansionAt ar (prune (fuel + 1) ar t2) :=
    skipsExpansionAt_nonCon (by rw [hb]; rfl)
  have heq := unify_to_kinds fuel ctx ar t1 t2 haSkip hbSkip
  rw [unifyKinds_func fuel ctx ar t1 t2 _ _ pa ra pb rb ha hb] at heq
  constructor
  · intro hgt
    rw [heq, if_pos hgt]
  · intro hle
    have hngt : ¬ pa.length > pb.length := by omega
    rw [heq, if_neg hngt]
    exact ⟨rfl, ump_ok_iff fuel ctx _ ar⟩

theorem c3_function_subtyping_witness :
    (getT c3Arena (prune 9 c3Arena 2) = Ty.function [⟨"x", 0, false⟩] 0 none)
    ∧ (getT c3Arena (prune 9 c3Arena 3) =
        Ty.function [⟨"x", 0, false⟩, ⟨"y", 1, false⟩] 0 none)
    ∧ unify 9 ctx0 c3Arena 2 3 =
        unify_many_pairs 9 ctx0 c3Arena
          (List.zip ([⟨"x", 0, false⟩, ⟨"y", 1, false⟩].map FuncParam.t)
            ([(⟨"x", 0, false⟩ : FuncParam)].map FuncParam.t) ++ [(0, 0)]) :=
  ⟨rfl, rfl,
    ((c3_function_subtyping 8 ctx0 c3Arena 2 3 [⟨"x", 0, false⟩] 0
      [⟨"x", 0, false⟩, ⟨"y", 1, false⟩] 0 rfl rfl).2 (by decide)).1⟩

/-- C6: calling an intersection-typed callee (an overload set) tries the
members left to right; when every member before `k` fails and member `k`
succeeds, the call returns exactly member `k`'s result (so a later matching
overload is never chosen), and when no member succeeds the call fails with
the no-valid-overload error. -/
theorem c6_overload_first_success (fuel : Nat) (ctx : Context) (ar : Arena)
    (args : List Nat) (targs : Option (List Nat)) (t2 : Nat) (ts : List Nat)
    (hb : getT (callArena0 ar) (prune (fuel + 1) (callArena0 ar) t2) =
      .constructor "@@intersection" ts) :
    (unify_call (fuel + 1) ctx ar args targs t2 =
        unify_call_intersection (fuel + 1) ctx (callArena0 ar) args targs ts)
    ∧ (∀ k, (hk : k < ts.length) →
        (∀ j, (hj : j < ts.length) → j < k → ∀ ar' r,
          unify_call fuel ctx
            (interArena (fuel + 1) ctx (callArena0 ar) args targs ts j)
            args targs ts[j] ≠ (ar', .ok r)) →
        (∀ ar' e, unify_call fuel ctx
            (interArena (fuel + 1) ctx (callArena0 ar) args targs ts k)
            args targs ts[k] ≠ (ar', .error e)) →
        unify_call (fuel + 1) ctx ar args targs t2 =
          unify_call fuel ctx
            (interArena (fuel + 1) ctx (callArena0 ar) args targs ts k)
            args targs ts[k])
    ∧ ((∀ k, (hk : k < ts.length) → ∀ ar' r,
          unify_call fuel ctx
            (interArena (fuel + 1) ctx (callArena0 ar) args targs ts k)
            args targs ts[k] ≠ (ar', .ok r)) →
        unify_call (fuel + 1) ctx ar args targs t2 =
          (interArena (fuel + 1) ctx (callArena0 ar) args targs ts ts.length,
            .error .noValidOverload)) := by
  have h1 := unify_call_inter_eq fuel ctx ar args targs t2 ts hb
  refine ⟨h1, ?_, ?_⟩
  · intro k hk hfail hok
    rw [h1]
    exact inter_first_success fuel ctx args targs ts (callArena0 ar) k hk hfail hok
  · intro hall
    rw [h1]
    exact inter_all_fail fuel ctx args targs ts (callArena0 ar) hall

theorem c6_overload_first_success_witness :
    (getT (callArena0 c6Arena) (prune 9 (callArena0 c6Arena) 5) =
      Ty.constructor "@@intersection" [3, 4])
    ∧ unify_call 9 ctx0 c6Arena [0] none 5 =
        unify_call_intersection 9 ctx0 (callArena0 c6Arena) [0] none [3, 4] :=
  ⟨rfl, (c6_overload_first_success 8 ctx0 c6Arena [0] none 5 [3, 4] rfl).1⟩

/-- C7: calling a (non-generic) function-typed callee with fewer arguments
than parameters fails with the too-few-arguments error carrying the expected
and actual counts, and the arena then holds only the fresh return variable —
no argument was unified against any parameter.  With at least as many
arguments as parameters, each argument is unified in order against the
corresponding parameter (then the fresh return against the callee's return),
and extra arguments are ignored: the call equals the call on the truncated
argument list. -/
theorem c7_call_too_few_args (fuel : Nat) (ctx : Context) (ar : Arena)
    (args : List Nat) (targs : Option (List Nat)) (t2 : Nat)
    (fparams : List FuncParam) (fret : Nat)
    (hb : getT (callArena0 ar) (prune (fuel + 1) (callArena0 ar) t2) =
      .function fparams fret none) :
    (args.length < fparams.length →
      unify_call (fuel + 1) ctx ar args targs t2 =
        (callArena0 ar, .error (.tooFewArgs fparams.length args.length)))
    ∧ (fparams.length ≤ args.length →
        (unify_call (fuel + 1) ctx ar args targs t2 =
          match unify_many_pairs (fuel + 1) ctx (callArena0 ar)
              (List.zip args (fparams.map FuncParam.t) ++ [(ar.length, fret)]) with
          | (ar₂, some e) => (ar₂, .error e)
          | (ar₂, none) => (ar₂, .ok (prune (fuel + 1) ar₂ ar.length)))
        ∧ unify_call (fuel + 1) ctx ar args targs t2 =
            unify_call (fuel + 1) ctx ar (args.take fparams.length) targs t2) := by
  have h := unify_call_func_eq fuel ctx ar args targs t2 fparams fret hb
  constructor
  · intro hlt
    rw [h, if_pos hlt]
  · intro hge
    have hnlt : ¬ args.length < fparams.length := by omega
    constructor
    · rw [h, if_neg hnlt]
    · have htake := unify_call_func_eq fuel ctx ar (args.take fparams.length)
        targs t2 fparams fret hb
      have htl : (args.take fparams.length).length = fparams.length := by
        simp [List.length_take]
        omega
      have hnlt2 : ¬ (args.take fparams.length).length < fparams.length := by
        omega
      rw [h, if_neg hnlt, htake, if_neg hnlt2]
      have hz : List.zip (args.take fparams.length) (fparams.map FuncParam.t) =
          List.zip args (fparams.map FuncParam.t) := by
        have := zip_take_len args (fparams.map FuncParam.t)
        simpa [List.length_map] using this
      rw [hz]

theorem c7_call_too_few_args_witness :
    (getT (callArena0 c7Arena) (prune 9 (callArena0 c7Arena) 2) =
      Ty.function [⟨"x", 1, false⟩, ⟨"y", 1, false⟩] 1 none)
    ∧ unify_call 9 ctx0 c7Arena [] none 2 =
        (callArena0 c7Arena, .error (.tooFewArgs 2 0)) :=
  ⟨rfl, (c7_call_too_few_args 8 ctx0 c7Arena [] none 2 [⟨"x", 1, false⟩, ⟨"y", 1, false⟩] 1
    rfl).1 (by decide)⟩

theorem getT_set_ne (ar : Arena) (v : Nat) (w : Ty) (t : Nat) (h : t ≠ v) :
    getT (ar.set v w) t = getT ar t := by
  simp only [getT, List.getD]
  rw [List.get?_set_ne _ _ (fun hh => h hh.symm)]

theorem prune_set_ne {ar : Arena} {v : Nat} {id : Nat} {c : Option Nat}
    (hv : getT ar v = .variable id none c) (w : Ty) :
    ∀ n t, prune n ar t ≠ v → prune n (ar.set v w) t = prune n ar t := by
  intro n
  induction n with
  | zero => intro t _; rfl
  | succ n ih =>
    intro t h
    have ht : t ≠ v := by
      intro he
      subst he
      apply h
      simp [prune, hv]
    rcases hgt : getT ar t with ⟨id', inst', c'⟩ | ⟨nm, ts⟩ | l | ⟨ps, r, tp⟩ | pr | rg
    · cases inst' with
      | none => simp [prune, getT_set_ne ar v w t ht, hgt]
      | some i =>
        have h' : prune n ar i ≠ v := by
          simpa [prune, hgt] using h
        simp [prune, getT_set_ne ar v w t ht, hgt, ih i h']
    · simp [prune, getT_set_ne ar v w t ht, hgt]
    · simp [prune, getT_set_ne ar v w t ht, hgt]
    · simp [prune, getT_set_ne ar v w t ht, hgt]
    · simp [prune, getT_set_ne ar v w t ht, hgt]
    · simp [prune, getT_set_ne ar v w t ht, hgt]

theorem occurs_set_preserved {ar : Arena} {v : Nat} {id : Nat} {c : Option Nat}
    (hv : getT ar v = .variable id none c) (w : Ty) :
    ∀ n t, occurs_in_type n ar v t = false →
      occurs_in_type n (ar.set v w) v t = false := by
  intro n
  induction n with
  | zero => intro t _; rfl
  | succ n ih =>
    intro t h
    simp only [occurs_in_type] at h
    by_cases hp : prune (n + 1) ar t = v
    · rw [if_pos hp] at h; cases h
    · rw [if_neg hp] at h
      simp only [occurs_in_type]
      rw [prune_set_ne hv w (n + 1) t hp, if_neg hp,
        getT_set_ne ar v w _ hp]
      rw [List.any_eq_false] at h ⊢
      intro x hx
      have := h x hx
      simp only [Bool.not_eq_true] at this ⊢
      exact ih x this


/-- C1 (corrected): binding a type variable enforces the occurs-check and
applies the variable's constraint.  For a call of `bind` on a variable `a`
with `a ≠ b`: if `a` occurs transitively in `b` the result is the
recursive-unification error and the arena is untouched (no instance is set);
otherwise, with no constraint the instance is set directly, and with a
constraint `b` is first unified against it and the instance is set only on
success (a failure propagates with the constraint-unification's arena, the
instance unset).  Consequently, after a successful constraint-free bind the
bound variable does not occur transitively inside its own instance.  The
claim's stronger closing sentence — the invariant after *every* successful
bind — is false: the occurs check runs before the constraint unification,
which can bind other variables to types containing `a`, so a successful
constrained bind can leave `a` inside its own instance (see the concrete
refutation on `c1CexArena` below). -/
theorem c1_bind_occurs_and_constraint (fuel : Nat) (ctx : Context) (ar : Arena) (a b : Nat)
    (id : Nat) (inst c : Option Nat)
    (hk : getT ar a = .variable id inst c) (hne : a ≠ b) :
    (occurs_in_type (fuel + 1) ar a b = true →
      bind (fuel + 1) ctx ar a b = (ar, some .recursiveUnification))
    ∧ (occurs_in_type (fuel + 1) ar a b = false → c = none →
        bind (fuel + 1) ctx ar a b = (set_inst ar a b, none))
    ∧ (∀ cst, occurs_in_type (fuel + 1) ar a b = false → c = some cst →
        bind (fuel + 1) ctx ar a b =
          (match unify fuel ctx ar b cst with
           | (ar₂, none) => (set_inst ar₂ a b, none)
           | (ar₂, some e) => (ar₂, some e)))
    ∧ (inst = none → c = none → occurs_in_type (fuel + 1) ar a b = false →
        occurs_in_type (fuel + 1) (set_inst ar a b) a b = false) := by
  refine ⟨?_, ?_, ?_, ?_⟩
  · intro hocc
    simp [bind, hne, hocc]
  · intro hocc hc
    subst hc
    simp [bind, hne, hocc, hk]
  · intro cst hocc hc
    subst hc
    simp [bind, hne, hocc, hk]
  · intro hinst hc hocc
    subst hinst
    subst hc
    have hset : set_inst ar a b = ar.set a (.variable id (some b) none) := by
      simp [set_inst, hk]
    rw [hset]
    exact occurs_set_preserved hk (.variable id (some b) none) (fuel + 1) b hocc

theorem c1_bind_occurs_and_constraint_witness :
    (getT c1Arena 0 = Ty.variable 0 none none)
    ∧ (0 : Nat) ≠ 1
    ∧ occurs_in_type 9 c1Arena 0 1 = false
    ∧ bind 9 ctx0 c1Arena 0 1 = (set_inst c1Arena 0 1, none) :=
  ⟨rfl, by decide, rfl,
    ((c1_bind_occurs_and_constraint 8 ctx0 c1Arena 0 1 0 none none rfl (by decide)).2.1 rfl rfl)⟩

/-- Refutation of the claim's closing invariant for binds with a constraint:
on `c1CexArena`, `bind 0 1` passes its occurs check (variable `0` does not
occur in the unbound variable `1`), then the constraint unification binds
variable `1` to the tuple `[0]`, and the bind succeeds — yet in the resulting
arena variable `0`'s instance is `1`, `1` prunes to the tuple node `2`, and
that tuple's children contain `0`: the bound variable now appears
transitively inside its own instance (on this cyclic arena the source's own
`occurs_in_type`/`prune` would no longer terminate). -/
theorem c1_bind_constraint_cycle_counterexample :
    getT c1CexArena 0 = Ty.variable 0 none (some 2)
    ∧ occurs_in_type 3 c1CexArena 0 1 = false
    ∧ bind 3 ctx0 c1CexArena 0 1 = (c1CexArenaEnd, none)
    ∧ getT c1CexArenaEnd 0 = Ty.variable 0 (some 1) (some 2)
    ∧ prune 9 c1CexArenaEnd 1 = 2
    ∧ 0 ∈ tyChildren (getT c1CexArenaEnd 2) := by
  refine ⟨rfl, rfl, ?_, rfl, rfl, by decide⟩
  have hb2 : bind 2 ctx0 c1CexArena 1 2 = (c1CexArenaMid, none) := by
    rw [bind]
    rfl
  have hk2 : unifyKinds 2 ctx0 c1CexArena 1 2 1 2 = (c1CexArenaMid, none) := by
    rw [unifyKinds]
    exact hb2
  have hu2 : unify 2 ctx0 c1CexArena 1 2 = (c1CexArenaMid, none) := by
    rw [unify]
    exact hk2
  rw [bind]
  show (match unify 2 ctx0 c1CexArena 1 2 with
    | (ar₁, none) => (set_inst ar₁ 0 1, none)
    | (ar₁, some e) => (ar₁, some e)) = (c1CexArenaEnd, none)
  rw [hu2]
  rfl
end Escalier

namespace OldInfer

/-- C5: `generalize` closes a type over exactly the variables free in the
type but not free in the environment — and therefore, since the non-generic
variables of an enclosing scope are free in the environment that binds them,
also minus any non-generic set contained in the environment's free variables
— with one qualifier per remaining variable (no duplicates), in ascending
(hence deterministic) order: the qualifier list is a function of the free
variable set alone, so repeated runs on the same input yield identical
schemes.  The type itself is kept unchanged. -/
theorem c5_generalize_closes_over_free_vars (env : Env) (ty : Ty)
    (ng : Finset Int) (hng : ng ⊆ Env.ftv env) :
    (generalize env ty).qualifiers.toFinset = (ftv ty \ Env.ftv env) \ ng
      ∧ (generalize env ty).qualifiers.Sorted (· ≤ ·)
      ∧ (generalize env ty).qualifiers.Nodup
      ∧ (generalize env ty).ty = ty
      ∧ (∀ env₂ ty₂, ftv ty₂ \ Env.ftv env₂ = ftv ty \ Env.ftv env →
          ty₂ = ty → generalize env₂ ty₂ = generalize env ty) := by
  refine ⟨?_, ?_, ?_, rfl, ?_⟩
  · rw [generalize]
    simp only [Finset.sort_toFinset]
    ext x
    simp only [Finset.mem_sdiff]
    constructor
    · rintro ⟨hx, hnotenv⟩
      exact ⟨⟨hx, hnotenv⟩, fun hxng => hnotenv (hng hxng)⟩
    · rintro ⟨⟨hx, hnotenv⟩, _⟩
      exact ⟨hx, hnotenv⟩
  · exact Finset.sort_sorted _ _
  · exact Finset.sort_nodup _ _
  · intro env₂ ty₂ hset hty
    subst hty
    rw [generalize, generalize, hset]

/-- Witness for C5 at a concrete input: a variable type over the empty
environment generalizes to the scheme qualified by exactly that variable. -/
theorem c5_generalize_witness :
    (∅ : Finset Int) ⊆ Env.ftv []
      ∧ ((generalize [] (Ty.var 3 false)).qualifiers.toFinset =
          (ftv (Ty.var 3 false) \ Env.ftv []) \ ∅
        ∧ (generalize [] (Ty.var 3 false)).qualifiers.Sorted (· ≤ ·)
        ∧ (generalize [] (Ty.var 3 false)).qualifiers.Nodup
        ∧ (generalize [] (Ty.var 3 false)).ty = Ty.var 3 false
        ∧ (∀ env₂ ty₂,
            ftv ty₂ \ Env.ftv env₂ = ftv (Ty.var 3 false) \ Env.ftv [] →
            ty₂ = Ty.var 3 false →
            generalize env₂ ty₂ = generalize [] (Ty.var 3 false))) :=
  ⟨Finset.empty_subset _,
    c5_generalize_closes_over_free_vars [] (Ty.var 3 false) ∅
      (Finset.empty_subset _)⟩

end OldInfer

namespace ThrowsModel

/-- C8: a try-catch expression consumes the throws of its try block: the
catch parameter is unified against the try block's accumulated throws, the
overall type is the union of the try and catch types, and the remaining
throws are exactly the catch block's own throws (no effect is left uncaught
in this fragment): a body whose catch block throws nothing has no remaining
throws, and a rethrow in the catch block reappears — exactly — in the
result's throws. -/
theorem c8_try_catch_consumes_throws (b c : SExpr) :
    infer (.tryCatch b c) = (joinThrows (infer b).1 (infer c).1, (infer c).2)
      ∧ catchParamTy b = (infer b).2
      ∧ ((infer c).2 = [] → (infer (.tryCatch b c)).2 = [])
      ∧ (∀ t, t ∈ (infer (.tryCatch b c)).2 ↔ t ∈ (infer c).2)
      ∧ (∀ t d k, t ∈ (infer (.tryCatch b (.seqE d (.throwE t)))).2
          ∧ (infer (.tryCatch (.seqE (.throwE k) b) c)).2 = (infer c).2) := by
  refine ⟨rfl, rfl, fun h => by simp [infer, h], fun t => by simp [infer], ?_⟩
  intro t d k
  constructor
  · simp only [infer, joinThrows]
    by_cases hd : t ∈ (infer d).2 <;> simp [hd]
  · simp [infer]

/-- Witness for C8 at a concrete try-catch: a try block that throws `7` and
evaluates to type `1`, with a catch block of type `0` that throws nothing. -/
theorem c8_try_catch_witness :
    infer (.tryCatch (.seqE (.throwE 7) (.konst 1)) (.konst 0)) =
      (joinThrows (infer (.seqE (.throwE 7) (.konst 1))).1
        (infer (.konst 0)).1, (infer (.konst 0)).2) :=
  (c8_try_catch_consumes_throws (.seqE (.throwE 7) (.konst 1)) (.konst 0)).1

end ThrowsModel

namespace Escalier

theorem shapeOk_refl (t : Ty) : shapeOk t t := Or.inl rfl

theorem shapeOk_trans {t u v : Ty} (h1 : shapeOk t u) (h2 : shapeOk u v) :
    shapeOk t v := by
  rcases h1 with rfl | ⟨id, i, i', c, rfl, rfl⟩
  · exact h2
  · rcases h2 with rfl | ⟨id2, j, j', c2, he, rfl⟩
    · exact Or.inr ⟨id, i, i', c, rfl, rfl⟩
    · injection he with h1 h2 h3
      subst h1
      subst h3
      exact Or.inr ⟨id, i, j', c, rfl, rfl⟩

theorem evolves_refl (ar : Arena) : Evolves ar ar :=
  ⟨le_refl _, fun _ _ => shapeOk_refl _⟩

theorem evolves_trans {a b c : Arena} (h1 : Evolves a b) (h2 : Evolves b c) :
    Evolves a c :=
  ⟨le_trans h1.1 h2.1,
    fun i hi => shapeOk_trans (h1.2 i hi) (h2.2 i (lt_of_lt_of_le hi h1.1))⟩

theorem getT_append (ar : Arena) (l : List Ty) (i : Nat) (hi : i < ar.length) :
    getT (ar ++ l) i = getT ar i := by
  simp only [getT, List.getD]
  rw [List.get?_append hi]

theorem evolves_append (ar : Arena) (l : List Ty) : Evolves ar (ar ++ l) := by
  refine ⟨by simp, fun i hi => ?_⟩
  rw [getT_append ar l i hi]
  exact shapeOk_refl _

theorem getT_set_self (ar : Arena) (a : Nat) (w : Ty) (h : a < ar.length) :
    getT (ar.set a w) a = w := by
  simp only [getT, List.getD, List.get?_eq_getElem?]
  rw [List.getElem?_set_eq_of_lt _ h]
  rfl

theorem evolves_set_inst (ar : Arena) (a b : Nat) :
    Evolves ar (set_inst ar a b) := by
  unfold set_inst
  rcases hk : getT ar a with ⟨id, i, c⟩ | _ | _ | _ | _ | _
  · refine ⟨by simp, fun j hj => ?_⟩
    by_cases hja : j = a
    · subst hja
      rw [getT_set_self ar j (.variable id (some b) c) hj, hk]
      exact Or.inr ⟨id, i, some b, c, rfl, rfl⟩
    · rw [getT_set_ne ar a (.variable id (some b) c) j hja]
      exact shapeOk_refl _
  all_goals exact evolves_refl ar


theorem evolves_instantiate_scheme :
    ∀ fuel,
      (∀ ar t mapping, Evolves ar (instantiate_scheme fuel ar t mapping).2)
      ∧ (∀ ar ts mapping, Evolves ar (instantiate_scheme_many fuel ar ts mapping).2)
      ∧ (∀ ar ps mapping, Evolves ar (instantiate_scheme_params fuel ar ps mapping).2)
      ∧ (∀ ar props mapping,
          Evolves ar (instantiate_scheme_props fuel ar props mapping).2) := by
  intro fuel
  induction fuel using Nat.strong_induction_on with
  | _ fuel ih =>
    have hscheme : ∀ ar t mapping,
        Evolves ar (instantiate_scheme fuel ar t mapping).2 := by
      intro ar t mapping
      cases fuel with
      | zero =>
        rw [instantiate_scheme]
        exact evolves_refl ar
      | succ g =>
        have ihg := ih g (by omega)
        rw [instantiate_scheme]
        rcases hgt : getT ar (prune (g + 1) ar t) with ⟨id, inst, c⟩ |
          ⟨nm, ts⟩ | l | ⟨ps, r, tp⟩ | pr | rg
        · rcases inst with _ | i
          · rcases c with _ | cc
            · exact evolves_append ar _
            · rcases h2 : instantiate_scheme g ar cc mapping with ⟨c', ar₂⟩
              have e2 : Evolves ar ar₂ := by
                have := ihg.1 ar cc mapping
                rw [h2] at this
                exact this
              simp only [h2]
              exact evolves_trans e2 (evolves_append ar₂ _)
          · rcases h1 : instantiate_scheme g ar i mapping with ⟨i', ar₁⟩
            have e1 : Evolves ar ar₁ := by
              have := ihg.1 ar i mapping
              rw [h1] at this
              exact this
            rcases c with _ | cc
            · simp only [h1]
              exact evolves_trans e1 (evolves_append ar₁ _)
            · rcases h2 : instantiate_scheme g ar₁ cc mapping with ⟨c', ar₂⟩
              have e2 : Evolves ar₁ ar₂ := by
                have := ihg.1 ar₁ cc mapping
                rw [h2] at this
                exact this
              simp only [h1, h2]
              exact evolves_trans e1 (evolves_trans e2 (evolves_append ar₂ _))
        · rcases h1 : instantiate_scheme_many g ar ts mapping with ⟨ts', ar₁⟩
          have e1 : Evolves ar ar₁ := by
            have := (ihg.2).1 ar ts mapping
            rw [h1] at this
            exact this
          simp only [h1]
          rcases hfind : (mapping.find? (fun q => q.1 == nm)).map Prod.snd
            with _ | idx <;> simp only [hfind]
          · exact evolves_trans e1 (evolves_append ar₁ _)
          · exact e1
        · exact evolves_append ar _
        · rcases h1 : instantiate_scheme_params g ar ps mapping with ⟨ps', ar₁⟩
          have e1 : Evolves ar ar₁ := by
            have := (ihg.2).2.1 ar ps mapping
            rw [h1] at this
            exact this
          rcases h2 : instantiate_scheme g ar₁ r mapping with ⟨r', ar₂⟩
          have e2 : Evolves ar₁ ar₂ := by
            have := ihg.1 ar₁ r mapping
            rw [h2] at this
            exact this
          simp only [h1, h2]
          exact evolves_trans e1 (evolves_trans e2 (evolves_append ar₂ _))
        · rcases h1 : instantiate_scheme_props g ar pr mapping with ⟨pr', ar₁⟩
          have e1 : Evolves ar ar₁ := by
            have := (ihg.2).2.2 ar pr mapping
            rw [h1] at this
            exact this
          simp only [h1]
          exact evolves_trans e1 (evolves_append ar₁ _)
        · rcases h1 : instantiate_scheme g ar rg mapping with ⟨rg', ar₁⟩
          have e1 : Evolves ar ar₁ := by
            have := ihg.1 ar rg mapping
            rw [h1] at this
            exact this
          simp only [h1]
          exact evolves_trans e1 (evolves_append ar₁ _)
    have hmany : ∀ ar ts mapping,
        Evolves ar (instantiate_scheme_many fuel ar ts mapping).2 := by
      intro ar ts
      induction ts generalizing ar with
      | nil => intro mapping; rw [instantiate_scheme_many]; exact evolves_refl ar
      | cons t rest ihl =>
        intro mapping
        rw [instantiate_scheme_many]
        rcases h1 : instantiate_scheme fuel ar t mapping with ⟨t', ar₁⟩
        have e1 : Evolves ar ar₁ := by
          have := hscheme ar t mapping
          rw [h1] at this
          exact this
        rcases h2 : instantiate_scheme_many fuel ar₁ rest mapping with ⟨r', ar₂⟩
        have e2 : Evolves ar₁ ar₂ := by
          have := ihl ar₁ mapping
          rw [h2] at this
          exact this
        simp only [h1, h2]
        exact evolves_trans e1 e2
    have hparams : ∀ ar ps mapping,
        Evolves ar (instantiate_scheme_params fuel ar ps mapping).2 := by
      intro ar ps
      induction ps generalizing ar with
      | nil => intro mapping; rw [instantiate_scheme_params]; exact evolves_refl ar
      | cons p rest ihl =>
        intro mapping
        rw [instantiate_scheme_params]
        rcases h1 : instantiate_scheme fuel ar p.t mapping with ⟨t', ar₁⟩
        have e1 : Evolves ar ar₁ := by
          have := hscheme ar p.t mapping
          rw [h1] at this
          exact this
        rcases h2 : instantiate_scheme_params fuel ar₁ rest mapping with ⟨r', ar₂⟩
        have e2 : Evolves ar₁ ar₂ := by
          have := ihl ar₁ mapping
          rw [h2] at this
          exact this
        simp only [h1, h2]
        exact evolves_trans e1 e2
    have helem : ∀ ar e mapping,
        Evolves ar (instantiate_scheme_elem fuel ar e mapping).2 := by
      intro ar e mapping
      rcases e with p | m | ix <;> rw [instantiate_scheme_elem]
      · rcases h1 : instantiate_scheme fuel ar p.t mapping with ⟨t', a₁⟩
        have e1 : Evolves ar a₁ := by
          have := hscheme ar p.t mapping
          rw [h1] at this
          exact this
        simp only [h1]
        exact e1
      · rcases h1 : instantiate_scheme_params fuel ar m.params mapping with ⟨ps', a₁⟩
        have e1 : Evolves ar a₁ := by
          have := hparams ar m.params mapping
          rw [h1] at this
          exact this
        rcases h2 : instantiate_scheme fuel a₁ m.ret mapping with ⟨r', a₂⟩
        have e2 : Evolves a₁ a₂ := by
          have := hscheme a₁ m.ret mapping
          rw [h2] at this
          exact this
        simp only [h1, h2]
        exact evolves_trans e1 e2
      · rcases h1 : instantiate_scheme fuel ar ix.t mapping with ⟨t', a₁⟩
        have e1 : Evolves ar a₁ := by
          have := hscheme ar ix.t mapping
          rw [h1] at this
          exact this
        simp only [h1]
        exact e1
    have hprops : ∀ ar props mapping,
        Evolves ar (instantiate_scheme_props fuel ar props mapping).2 := by
      intro ar props
      induction props generalizing ar with
      | nil =>
        intro mapping
        rw [instantiate_scheme_props]
        exact evolves_refl ar
      | cons e rest ihl =>
        intro mapping
        rw [instantiate_scheme_props]
        rcases h1 : instantiate_scheme_elem fuel ar e mapping with ⟨e', a₁⟩
        have e1 : Evolves ar a₁ := by
          have := helem ar e mapping
          rw [h1] at this
          exact this
        rcases h2 : instantiate_scheme_props fuel a₁ rest mapping with ⟨r', ar₂⟩
        have e2 : Evolves a₁ ar₂ := by
          have := ihl a₁ mapping
          rw [h2] at this
          exact this
        simp only [h1, h2]
        exact evolves_trans e1 e2
    exact ⟨hscheme, hmany, hparams, hprops⟩


theorem evolves_inst_eq (fuel : Nat) (ar : Arena) (t : Nat)
    (mp : List (String × Nat)) (idx : Nat) (ar₁ : Arena)
    (h : instantiate_scheme fuel ar t mp = (idx, ar₁)) : Evolves ar ar₁ := by
  have h2 := (evolves_instantiate_scheme fuel).1 ar t mp
  rw [h] at h2
  exact h2

theorem evolves_inst_params_eq (fuel : Nat) (ar : Arena) (ps : List FuncParam)
    (mp : List (String × Nat)) (ps' : List FuncParam) (ar₁ : Arena)
    (h : instantiate_scheme_params fuel ar ps mp = (ps', ar₁)) :
    Evolves ar ar₁ := by
  have h2 := (evolves_instantiate_scheme fuel).2.2.1 ar ps mp
  rw [h] at h2
  exact h2

theorem evolves_expand_alias (fuel : Nat) (ar : Arena) (name : String)
    (scheme : Scheme) (typeArgs : List Nat) :
    Evolves ar (expand_alias fuel ar name scheme typeArgs).1 := by
  rw [expand_alias]
  split
  · split <;> exact evolves_refl ar
  · split
    · exact evolves_refl ar
    · dsimp only
      split
      · exact (evolves_instantiate_scheme fuel).1 ar scheme.t _
      · exact evolves_refl ar

theorem evolves_freshVarsForParams (tps : List TypeParam) :
    ∀ ar, Evolves ar (freshVarsForParams ar tps).2 := by
  induction tps with
  | nil => intro ar; exact evolves_refl ar
  | cons tp rest ih =>
    intro ar
    rw [freshVarsForParams]
    simp only [new_var_type]
    exact evolves_trans (evolves_append ar _) (ih _)

theorem evolves_instantiate_func (fuel : Nat) (ar : Arena)
    (params : List FuncParam) (ret : Nat) (typeParams : Option (List TypeParam))
    (typeArgs : Option (List Nat)) :
    Evolves ar (instantiate_func fuel ar params ret typeParams typeArgs).1 := by
  rw [instantiate_func.eq_def]
  rcases typeParams with _ | tps
  · exact evolves_refl ar
  · simp only []
    rcases typeArgs with _ | args
    · simp only []
      exact evolves_trans (evolves_freshVarsForParams tps ar)
        (evolves_trans ((evolves_instantiate_scheme fuel).2.2.1 _ params _)
          ((evolves_instantiate_scheme fuel).1 _ ret _))
    · simp only []
      split
      · exact evolves_trans ((evolves_instantiate_scheme fuel).2.2.1 ar params _)
          ((evolves_instantiate_scheme fuel).1 _ ret _)
      · exact evolves_refl ar

theorem evolves_expandSide (fuel : Nat) (ctx : Context) (ar : Arena)
    (idx : Nat) : Evolves ar (expandSide fuel ctx ar idx).1 := by
  rw [expandSide]
  split
  · split
    · split
      · exact evolves_expand_alias _ _ _ _ _
      · exact evolves_refl ar
    · exact evolves_refl ar
  · exact evolves_refl ar

theorem evolves_elemsOfBuckets (buckets : List (String × List Nat)) :
    ∀ ar, Evolves ar (elemsOfBuckets ar buckets).2 := by
  induction buckets with
  | nil => intro ar; exact evolves_refl ar
  | cons b rest ih =>
    intro ar
    rcases b with ⟨name, ts⟩
    rcases ts with _ | ⟨t0, ts'⟩
    · rw [elemsOfBuckets]
      simp only [new_intersection_type, new_constructor]
      exact evolves_trans (evolves_append ar _) (ih _)
    · rcases ts' with _ | ⟨t1, more⟩
      · rw [elemsOfBuckets]
        simp only []
        exact ih ar
      · rw [elemsOfBuckets]
        simp only [new_intersection_type, new_constructor]
        exact evolves_trans (evolves_append ar _) (ih _)

theorem evolves_simplify_intersection (ar : Arena) (inTypes : List Nat) :
    Evolves ar (simplify_intersection ar inTypes).1 := by
  rw [simplify_intersection]
  split
  · exact evolves_refl ar
  · simp only []
    split
    · split
      · exact evolves_elemsOfBuckets _ ar
      · simp only [new_object_type]
        exact evolves_trans (evolves_elemsOfBuckets _ ar) (evolves_append _ _)
    · simp only [new_intersection_type, new_constructor, new_object_type]
      split
      · exact evolves_trans (evolves_elemsOfBuckets _ ar) (evolves_append _ _)
      · exact evolves_trans (evolves_elemsOfBuckets _ ar)
          (evolves_trans (evolves_append _ _) (evolves_append _ _))
    · simp only [new_intersection_type, new_constructor, new_object_type]
      split
      · exact evolves_trans (evolves_elemsOfBuckets _ ar) (evolves_append _ _)
      · exact evolves_trans (evolves_elemsOfBuckets _ ar)
          (evolves_trans (evolves_append _ _) (evolves_append _ _))

theorem evolves_fst_eq {β : Type} {ar ar₁ : Arena} {res : Arena × β} {z : β}
    (he : res = (ar₁, z)) (h : Evolves ar res.1) : Evolves ar ar₁ := by
  rw [he] at h
  exact h

theorem evolves_ite_pair {ar : Arena} (c : Prop) [Decidable c] (p q : Nat × Arena)
    (hp : Evolves ar p.2) (hq : Evolves ar q.2) :
    Evolves ar (if c then p else q).2 := by
  split
  · exact hp
  · exact hq

set_option maxHeartbeats 4000000 in
theorem evolves_unify_block :
    ∀ fuel,
      (∀ ctx ar t1 t2, Evolves ar (unify fuel ctx ar t1 t2).1)
      ∧ (∀ ctx ar t1 t2 a b, Evolves ar (unifyKinds fuel ctx ar t1 t2 a b).1)
      ∧ (∀ ctx ar pairs, Evolves ar (unify_many_pairs fuel ctx ar pairs).1)
      ∧ (∀ ctx ar a types, Evolves ar (unify_union_any fuel ctx ar a types).1)
      ∧ (∀ ctx ar ps qs, Evolves ar (unify_tuple_elems fuel ctx ar ps qs).1)
      ∧ (∀ ctx ar ps q b, Evolves ar (unify_tuple_array fuel ctx ar ps q b).1)
      ∧ (∀ ctx ar p qs a, Evolves ar (unify_array_tuple fuel ctx ar p qs a).1)
      ∧ (∀ ctx ar props1 props2 aIdx,
          Evolves ar (unify_obj_props fuel ctx ar props1 props2 aIdx).1)
      ∧ (∀ ctx ar a b, Evolves ar (bind fuel ctx ar a b).1)
      ∧ (∀ ctx ar argTypes typeArgs t2,
          Evolves ar (unify_call fuel ctx ar argTypes typeArgs t2).1)
      ∧ (∀ ctx ar argTypes typeArgs types,
          Evolves ar (unify_call_union fuel ctx ar argTypes typeArgs types).1)
      ∧ (∀ ctx ar argTypes typeArgs types,
          Evolves ar (unify_call_intersection fuel ctx ar argTypes typeArgs types).1) := by
  intro fuel
  induction fuel using Nat.strong_induction_on with
  | _ fuel ih =>
    rcases fuel with _ | fuel
    · exact ⟨fun ctx ar t1 t2 => by rw [unify]; exact evolves_refl ar,
        fun ctx ar t1 t2 a b => by rw [unifyKinds]; exact evolves_refl ar,
        fun ctx ar pairs => by rw [unify_many_pairs]; exact evolves_refl ar,
        fun ctx ar a types => by rw [unify_union_any]; exact evolves_refl ar,
        fun ctx ar ps qs => by rw [unify_tuple_elems]; exact evolves_refl ar,
        fun ctx ar ps q b => by rw [unify_tuple_array]; exact evolves_refl ar,
        fun ctx ar p qs a => by rw [unify_array_tuple]; exact evolves_refl ar,
        fun ctx ar p1 p2 aIdx => by rw [unify_obj_props]; exact evolves_refl ar,
        fun ctx ar a b => by rw [bind]; exact evolves_refl ar,
        fun ctx ar ats tas t2 => by rw [unify_call]; exact evolves_refl ar,
        fun ctx ar ats tas ts => by rw [unify_call_union]; exact evolves_refl ar,
        fun ctx ar ats tas ts => by
          rw [unify_call_intersection]; exact evolves_refl ar⟩
    · have ihu : ∀ ctx ar t1 t2, Evolves ar (unify fuel ctx ar t1 t2).1 :=
        (ih fuel (Nat.lt_succ_self fuel)).1
      have ihc : ∀ ctx ar ats tas t2,
          Evolves ar (unify_call fuel ctx ar ats tas t2).1 :=
        (ih fuel (Nat.lt_succ_self fuel)).2.2.2.2.2.2.2.2.2.1
      have hbind : ∀ ctx ar a b, Evolves ar (bind (fuel + 1) ctx ar a b).1 := by
        intro ctx ar a b
        rw [bind]
        try simp only []
        split
        · exact evolves_refl ar
        · split
          · exact evolves_refl ar
          · split
            · split
              · split
                · rename_i ar₁ heq
                  exact evolves_trans (evolves_fst_eq heq (ihu ctx ar b _))
                    (evolves_set_inst ar₁ a b)
                · rename_i ar₁ e heq
                  exact evolves_fst_eq heq (ihu ctx ar b _)
              · exact evolves_set_inst ar a b
            · exact evolves_refl ar
      have hmp : ∀ pairs ctx ar,
          Evolves ar (unify_many_pairs (fuel + 1) ctx ar pairs).1 := by
        intro pairs
        induction pairs with
        | nil => intro ctx ar; rw [unify_many_pairs]; exact evolves_refl ar
        | cons pq rest ihl =>
          intro ctx ar
          rcases pq with ⟨p, q⟩
          rw [unify_many_pairs]
          try simp only []
          split
          · rename_i ar₁ heq
            exact evolves_trans (evolves_fst_eq heq (ihu ctx ar p q)) (ihl ctx ar₁)
          · rename_i ar₁ e heq
            exact evolves_fst_eq heq (ihu ctx ar p q)
      have huua : ∀ types ctx ar a,
          Evolves ar (unify_union_any (fuel + 1) ctx ar a types).1 := by
        intro types
        induction types with
        | nil => intro ctx ar a; rw [unify_union_any]; exact evolves_refl ar
        | cons t2 rest ihl =>
          intro ctx ar a
          rw [unify_union_any]
          try simp only []
          split
          · rename_i ar₁ heq
            exact evolves_fst_eq heq (ihu ctx ar a t2)
          · rename_i ar₁ e heq
            exact evolves_trans (evolves_fst_eq heq (ihu ctx ar a t2)) (ihl ctx ar₁ a)
      have hte : ∀ ps qs ctx ar,
          Evolves ar (unify_tuple_elems (fuel + 1) ctx ar ps qs).1 := by
        intro ps
        induction ps with
        | nil => intro qs ctx ar; rw [unify_tuple_elems]; exact evolves_refl ar
        | cons p ps' ihl =>
          intro qs ctx ar
          rcases qs with _ | ⟨q, qs'⟩
          · rw [unify_tuple_elems]; exact evolves_refl ar
          · rw [unify_tuple_elems]
            simp only [new_tuple_type, new_constructor]
            rcases h1 : isRestAt ar p with _ | _ <;>
              rcases h2 : isRestAt ar q with _ | _ <;> simp only [h1, h2]
            · split
              · rename_i ar₁ heq
                exact evolves_trans (evolves_fst_eq heq (ihu ctx ar p q))
                  (ihl qs' ctx ar₁)
              · rename_i ar₁ e heq
                exact evolves_fst_eq heq (ihu ctx ar p q)
            · split
              · rename_i ar₁ heq
                exact evolves_trans (evolves_trans (evolves_append ar _)
                  (evolves_fst_eq heq (ihu ctx _ _ _))) (ihl qs' ctx ar₁)
              · rename_i ar₁ e heq
                exact evolves_trans (evolves_append ar _)
                  (evolves_fst_eq heq (ihu ctx _ _ _))
            · split
              · rename_i ar₁ heq
                exact evolves_trans (evolves_trans (evolves_append ar _)
                  (evolves_fst_eq heq (ihu ctx _ _ _))) (ihl qs' ctx ar₁)
              · rename_i ar₁ e heq
                exact evolves_trans (evolves_append ar _)
                  (evolves_fst_eq heq (ihu ctx _ _ _))
            · exact evolves_refl ar
      have hta : ∀ ps ctx ar q b,
          Evolves ar (unify_tuple_array (fuel + 1) ctx ar ps q b).1 := by
        intro ps
        induction ps with
        | nil => intro ctx ar q b; rw [unify_tuple_array]; exact evolves_refl ar
        | cons p rest ihl =>
          intro ctx ar q b
          rw [unify_tuple_array]
          try simp only []
          split
          · rename_i ar₁ heq
            split at heq
            · split at heq
              · split at heq
                · exact evolves_trans (evolves_fst_eq heq (ihu ctx ar _ q))
                    (ihl ctx ar₁ q b)
                · simp at heq
              · exact evolves_trans (evolves_fst_eq heq (ihu ctx ar p q))
                  (ihl ctx ar₁ q b)
            · exact evolves_trans (evolves_fst_eq heq (ihu ctx ar p b))
                (ihl ctx ar₁ q b)
            · exact evolves_trans (evolves_fst_eq heq (ihu ctx ar p q))
                (ihl ctx ar₁ q b)
          · rename_i ar₁ e heq
            split at heq
            · split at heq
              · split at heq
                · exact evolves_fst_eq heq (ihu ctx ar _ q)
                · cases heq
                  exact evolves_refl ar
              · exact evolves_fst_eq heq (ihu ctx ar p q)
            · exact evolves_fst_eq heq (ihu ctx ar p b)
            · exact evolves_fst_eq heq (ihu ctx ar p q)
      have hat : ∀ qs ctx ar p a,
          Evolves ar (unify_array_tuple (fuel + 1) ctx ar p qs a).1 := by
        intro qs
        induction qs with
        | nil => intro ctx ar p a; rw [unify_array_tuple]; exact evolves_refl ar
        | cons q rest ihl =>
          intro ctx ar p a
          rw [unify_array_tuple]
          simp only [new_constructor, new_union_type]
          split
          · rename_i ar₃ heq
            split at heq <;>
              exact evolves_trans (evolves_trans (evolves_append ar _)
                (evolves_trans (evolves_append _ _)
                  (evolves_fst_eq heq (ihu ctx _ _ _)))) (ihl ctx ar₃ p a)
          · rename_i ar₃ e heq
            split at heq <;>
              exact evolves_trans (evolves_append ar _)
                (evolves_trans (evolves_append _ _)
                  (evolves_fst_eq heq (ihu ctx _ _ _)))
      have hop : ∀ props2 ctx ar props1 aIdx,
          Evolves ar (unify_obj_props (fuel + 1) ctx ar props1 props2 aIdx).1 := by
        intro props2
        induction props2 with
        | nil =>
          intro ctx ar props1 aIdx
          rw [unify_obj_props.eq_def]; exact evolves_refl ar
        | cons e2 rest2 ihl =>
          intro ctx ar props1 aIdx
          rw [unify_obj_props.eq_def]
          simp only [new_constructor, new_union_type]
          split
          · rename_i p2
            split
            · rename_i p1 hfind
              rcases hb1 : p1.optional with _ | _ <;>
                rcases hb2 : p2.optional with _ | _ <;>
                simp only [hb1, hb2, Bool.false_eq_true, eq_self_iff_true,
                  if_true, if_false]
              · split
                · rename_i ar₃ heq
                  exact evolves_trans (evolves_fst_eq heq (ihu ctx ar _ _))
                    (ihl ctx ar₃ props1 aIdx)
                · rename_i ar₃ e heq
                  exact evolves_fst_eq heq (ihu ctx ar _ _)
              · split
                · rename_i ar₃ heq
                  exact evolves_trans (evolves_trans
                    (evolves_trans (evolves_append ar _) (evolves_append _ _))
                    (evolves_fst_eq heq (ihu ctx _ _ _)))
                    (ihl ctx ar₃ props1 aIdx)
                · rename_i ar₃ e heq
                  exact evolves_trans
                    (evolves_trans (evolves_append ar _) (evolves_append _ _))
                    (evolves_fst_eq heq (ihu ctx _ _ _))
              · split
                · rename_i ar₃ heq
                  exact evolves_trans (evolves_trans
                    (evolves_trans (evolves_append ar _) (evolves_append _ _))
                    (evolves_fst_eq heq (ihu ctx _ _ _)))
                    (ihl ctx ar₃ props1 aIdx)
                · rename_i ar₃ e heq
                  exact evolves_trans
                    (evolves_trans (evolves_append ar _) (evolves_append _ _))
                    (evolves_fst_eq heq (ihu ctx _ _ _))
              · split
                · rename_i ar₃ heq
                  exact evolves_trans (evolves_trans (evolves_trans
                    (evolves_trans (evolves_append ar _) (evolves_append _ _))
                    (evolves_trans (evolves_append _ _) (evolves_append _ _)))
                    (evolves_fst_eq heq (ihu ctx _ _ _)))
                    (ihl ctx ar₃ props1 aIdx)
                · rename_i ar₃ e heq
                  exact evolves_trans (evolves_trans
                    (evolves_trans (evolves_append ar _) (evolves_append _ _))
                    (evolves_trans (evolves_append _ _) (evolves_append _ _)))
                    (evolves_fst_eq heq (ihu ctx _ _ _))
            · exact evolves_refl ar
          · exact evolves_refl ar
          · exact evolves_refl ar
      have hcu : ∀ types ctx ar ats tas,
          Evolves ar (unify_call_union (fuel + 1) ctx ar ats tas types).1 := by
        intro types
        induction types with
        | nil => intro ctx ar ats tas; rw [unify_call_union]; exact evolves_refl ar
        | cons t rest ihl =>
          intro ctx ar ats tas
          rw [unify_call_union]
          try simp only []
          split
          · rename_i ar₁ e heq
            exact evolves_fst_eq heq (ihc ctx ar ats tas t)
          · rename_i ar₁ r heq
            split
            · rename_i ar₂ e heq2
              exact evolves_trans (evolves_fst_eq heq (ihc ctx ar ats tas t))
                (evolves_fst_eq heq2 (ihl ctx ar₁ ats tas))
            · rename_i ar₂ rs heq2
              exact evolves_trans (evolves_fst_eq heq (ihc ctx ar ats tas t))
                (evolves_fst_eq heq2 (ihl ctx ar₁ ats tas))
      have hci : ∀ types ctx ar ats tas,
          Evolves ar (unify_call_intersection (fuel + 1) ctx ar ats tas types).1 := by
        intro types
        induction types with
        | nil =>
          intro ctx ar ats tas
          rw [unify_call_intersection]; exact evolves_refl ar
        | cons t rest ihl =>
          intro ctx ar ats tas
          rw [unify_call_intersection]
          try simp only []
          split
          · rename_i ar₁ r heq
            exact evolves_fst_eq heq (ihc ctx ar ats tas t)
          · rename_i ar₁ e heq
            exact evolves_trans (evolves_fst_eq heq (ihc ctx ar ats tas t))
              (ihl ctx ar₁ ats tas)
      have hcall : ∀ ctx ar ats tas t2,
          Evolves ar (unify_call (fuel + 1) ctx ar ats tas t2).1 := by
        intro ctx ar ats tas t2
        rw [unify_call]
        simp only [new_var_type, new_func_type, new_union_type, new_constructor]
        split
        · split
          · rename_i ar₂ e heq
            exact evolves_trans (evolves_append ar _)
              (evolves_trans (evolves_append _ _)
                (evolves_fst_eq heq (hbind ctx _ _ _)))
          · rename_i ar₂ heq
            exact evolves_trans (evolves_append ar _)
              (evolves_trans (evolves_append _ _)
                (evolves_fst_eq heq (hbind ctx _ _ _)))
        · split
          · split
            · exact evolves_append ar _
            · split
              · split
                · rename_i ar₁ e heq
                  exact evolves_trans (evolves_append ar _)
                    (evolves_fst_eq heq (hcu _ ctx _ ats tas))
                · rename_i ar₁ rts heq
                  exact evolves_trans (evolves_append ar _)
                    (evolves_trans (evolves_fst_eq heq (hcu _ ctx _ ats tas))
                      (evolves_append ar₁ _))
              · split
                · exact evolves_trans (evolves_append ar _) (hci _ ctx _ ats tas)
                · exact evolves_append ar _
          · split
            · exact evolves_append ar _
            · split
              · exact evolves_append ar _
              · split
                · exact evolves_append ar _
                · split
                  · split
                    · rename_i ar₁ e heq
                      split at heq
                      · exact evolves_trans (evolves_append ar _)
                          (evolves_fst_eq heq (evolves_instantiate_func _ _ _ _ _ _))
                      · simp at heq
                    · rename_i ar₁ ps' ret' heq
                      split
                      · split at heq
                        · exact evolves_trans (evolves_append ar _)
                            (evolves_fst_eq heq (evolves_instantiate_func _ _ _ _ _ _))
                        · cases heq
                          exact evolves_append ar _
                      · split
                        · rename_i ar₂ e heq2
                          split at heq
                          · exact evolves_trans (evolves_trans (evolves_append ar _)
                              (evolves_fst_eq heq
                                (evolves_instantiate_func _ _ _ _ _ _)))
                              (evolves_fst_eq heq2 (hmp _ ctx ar₁))
                          · cases heq
                            exact evolves_trans (evolves_append ar _)
                              (evolves_fst_eq heq2 (hmp _ ctx _))
                        · rename_i ar₂ heq2
                          split at heq
                          · exact evolves_trans (evolves_trans (evolves_append ar _)
                              (evolves_fst_eq heq
                                (evolves_instantiate_func _ _ _ _ _ _)))
                              (evolves_fst_eq heq2 (hmp _ ctx ar₁))
                          · cases heq
                            exact evolves_trans (evolves_append ar _)
                              (evolves_fst_eq heq2 (hmp _ ctx _))
                  · exact evolves_append ar _
      have hks : ∀ ctx ar t1 t2 a b,
          Evolves ar (unifyKinds (fuel + 1) ctx ar t1 t2 a b).1 := by
        intro ctx ar t1 t2 a b
        rw [unifyKinds]
        simp only [new_object_type]
        split
        · exact hbind ctx ar a b
        · split
          · exact hbind ctx ar b a
          · split
            · exact evolves_refl ar
            · split
              · exact hmp _ ctx ar
              · split
                · split
                  · rename_i ar₁ heq
                    exact evolves_fst_eq heq (huua _ ctx ar a)
                  · rename_i ar₁ heq
                    exact evolves_fst_eq heq (huua _ ctx ar a)
                · split
                  · split
                    · exact evolves_refl ar
                    · exact hte _ _ ctx ar
                  · split
                    · split
                      · exact hta _ ctx ar _ b
                      · exact evolves_refl ar
                    · split
                      · split
                        · exact hat _ ctx ar _ a
                        · exact evolves_refl ar
                      · split
                        · split
                          · exact ihu ctx ar _ b
                          · exact evolves_refl ar
                        · split
                          · split
                            · exact ihu ctx ar a _
                            · exact evolves_refl ar
                          · split
                            · split
                              · exact evolves_refl ar
                              · exact hmp _ ctx ar
                            · split
                              · split
                                · rename_i ar₁ e heq
                                  exact
                                    evolves_fst_eq heq
                                      (evolves_instantiate_func _ _ _ _ _ _)
                                · rename_i ar₁ psA retA heq
                                  split
                                  · rename_i ar₂ e heq2
                                    exact evolves_trans
                                      (evolves_fst_eq heq
                                        (evolves_instantiate_func _ _ _ _ _ _))
                                      (evolves_fst_eq heq2
                                        (evolves_instantiate_func _ _ _ _ _ _))
                                  · rename_i ar₂ psB retB heq2
                                    split
                                    · exact evolves_trans
                                        (evolves_fst_eq heq
                                          (evolves_instantiate_func _ _ _ _ _ _))
                                        (evolves_fst_eq heq2
                                          (evolves_instantiate_func _ _ _ _ _ _))
                                    · exact evolves_trans
                                        (evolves_fst_eq heq
                                          (evolves_instantiate_func _ _ _ _ _ _))
                                        (evolves_trans
                                          (evolves_fst_eq heq2
                                            (evolves_instantiate_func _ _ _ _ _ _))
                                          (hmp _ ctx ar₂))
                              · split
                                · split
                                  · exact evolves_refl ar
                                  · exact evolves_refl ar
                                · split
                                  · split
                                    · exact evolves_refl ar
                                    · exact evolves_refl ar
                                  · split
                                    · exact hop _ ctx ar _ _
                                    · split
                                      · split
                                        · rename_i ar₁ e heq
                                          exact evolves_fst_eq heq
                                            (evolves_simplify_intersection ar _)
                                        · rename_i ar₁ objT heq
                                          split
                                          · exact evolves_trans
                                              (evolves_fst_eq heq
                                                (evolves_simplify_intersection ar _))
                                              (ihu ctx ar₁ t1 _)
                                          · split
                                            · rename_i ar₃ e heq2
                                              exact evolves_trans
                                                (evolves_fst_eq heq
                                                  (evolves_simplify_intersection ar _))
                                                (evolves_trans (evolves_append ar₁ _)
                                                  (evolves_fst_eq heq2
                                                    (ihu ctx _ _ _)))
                                            · rename_i ar₃ heq2
                                              exact evolves_trans
                                                (evolves_fst_eq heq
                                                  (evolves_simplify_intersection ar _))
                                                (evolves_trans (evolves_append ar₁ _)
                                                  (evolves_trans
                                                    (evolves_fst_eq heq2
                                                      (ihu ctx _ _ _))
                                                    (evolves_trans
                                                      (evolves_append ar₃ _)
                                                      (ihu ctx _ _ _))))
                                          · exact evolves_fst_eq heq
                                              (evolves_simplify_intersection ar _)
                                      · split
                                        · split
                                          · rename_i ar₁ e heq
                                            exact evolves_fst_eq heq
                                              (evolves_simplify_intersection ar _)
                                          · rename_i ar₁ objT heq
                                            split
                                            · exact evolves_trans
                                                (evolves_fst_eq heq
                                                  (evolves_simplify_intersection ar _))
                                                (ihu ctx ar₁ t1 _)
                                            · split
                                              · rename_i ar₃ e heq2
                                                exact evolves_trans
                                                  (evolves_fst_eq heq
                                                    (evolves_simplify_intersection
                                                      ar _))
                                                  (evolves_trans (evolves_append ar₁ _)
                                                    (evolves_fst_eq heq2
                                                      (ihu ctx _ _ _)))
                                              · rename_i ar₃ heq2
                                                exact evolves_trans
                                                  (evolves_fst_eq heq
                                                    (evolves_simplify_intersection
                                                      ar _))
                                                  (evolves_trans (evolves_append ar₁ _)
                                                    (evolves_trans
                                                      (evolves_fst_eq heq2
                                                        (ihu ctx _ _ _))
                                                      (evolves_trans
                                                        (evolves_append ar₃ _)
                                                        (ihu ctx _ _ _))))
                                            · exact evolves_fst_eq heq
                                                (evolves_simplify_intersection ar _)
                                        · exact evolves_refl ar
      have hu : ∀ ctx ar t1 t2,
          Evolves ar (unify (fuel + 1) ctx ar t1 t2).1 := by
        intro ctx ar t1 t2
        rw [unify]
        try simp only []
        split
        · rename_i ar₁ e heq
          exact evolves_fst_eq heq (evolves_expandSide _ ctx ar _)
        · rename_i ar₁ a2 heq
          split
          · rename_i ar₂ e heq2
            exact evolves_trans (evolves_fst_eq heq (evolves_expandSide _ ctx ar _))
              (evolves_fst_eq heq2 (evolves_expandSide _ ctx ar₁ _))
          · rename_i ar₂ b2 heq2
            exact evolves_trans (evolves_fst_eq heq (evolves_expandSide _ ctx ar _))
              (evolves_trans
                (evolves_fst_eq heq2 (evolves_expandSide _ ctx ar₁ _))
                (hks ctx ar₂ t1 t2 a2 b2))
      exact ⟨hu, hks, fun ctx ar pairs => hmp pairs ctx ar,
        fun ctx ar a types => huua types ctx ar a,
        fun ctx ar ps qs => hte ps qs ctx ar,
        fun ctx ar ps q b => hta ps ctx ar q b,
        fun ctx ar p qs a => hat qs ctx ar p a,
        fun ctx ar p1 p2 aIdx => hop p2 ctx ar p1 aIdx,
        hbind, hcall,
        fun ctx ar ats tas ts => hcu ts ctx ar ats tas,
        fun ctx ar ats tas ts => hci ts ctx ar ats tas⟩

theorem evolves_length_le {ar ar' : Arena} (h : Evolves ar ar') :
    ar.length ≤ ar'.length := h.1

theorem isRestAt_stable {ar ar' : Arena} (h : Evolves ar ar') {i : Nat}
    (hi : i < ar.length) (hr : isRestAt ar i = false) :
    isRestAt ar' i = false := by
  rcases h.2 i hi with heq | ⟨id, j, j', c, h1, h2⟩
  · rw [isRestAt, heq]
    rw [isRestAt] at hr
    exact hr
  · rw [isRestAt, h2]

theorem unifyKinds_tuple (fuel : Nat) (ctx : Context) (ar : Arena)
    (t1 t2 a b : Nat) (ts1 ts2 : List Nat)
    (ha : getT ar a = .constructor "@@tuple" ts1)
    (hb : getT ar b = .constructor "@@tuple" ts2) :
    unifyKinds (fuel + 1) ctx ar t1 t2 a b =
      (if ts1.length < ts2.length &&
          !(match ts1.getLast? with
            | some last => isRestAt ar last
            | none => false) then
        (ar, some (.expectedTupleLength ts2.length ts1.length))
      else unify_tuple_elems (fuel + 1) ctx ar ts1 ts2) := by
  simp [unifyKinds, ha, hb]

theorem ute_eq_ump (ctx : Context) :
    ∀ (ts2 ts1 : List Nat) (fuel : Nat) (ar : Arena),
      ts2.length ≤ ts1.length →
      (∀ i ∈ ts1, i < ar.length) →
      (∀ i ∈ ts2, i < ar.length) →
      (∀ i ∈ ts1, isRestAt ar i = false) →
      (∀ i ∈ ts2, isRestAt ar i = false) →
      unify_tuple_elems fuel ctx ar ts1 ts2 =
        unify_many_pairs fuel ctx ar (List.zip ts1 ts2) := by
  intro ts2
  induction ts2 with
  | nil =>
    intro ts1 fuel ar _ _ _ _ _
    rcases fuel with _ | fuel
    · rw [unify_tuple_elems.eq_def, unify_many_pairs.eq_def]
    · rcases ts1 with _ | ⟨p, ps⟩
      · rw [unify_tuple_elems.eq_def, unify_many_pairs.eq_def]
        rfl
      · rw [unify_tuple_elems.eq_def, unify_many_pairs.eq_def]
        rfl
  | cons q qs ih =>
    intro ts1 fuel ar hlen hin1 hin2 hnr1 hnr2
    rcases ts1 with _ | ⟨p, ps⟩
    · simp at hlen
    · rcases fuel with _ | fuel
      · rw [unify_tuple_elems.eq_def, unify_many_pairs.eq_def]
      · rw [unify_tuple_elems.eq_def, unify_many_pairs.eq_def]
        have hp : isRestAt ar p = false := hnr1 p (by simp)
        have hq : isRestAt ar q = false := hnr2 q (by simp)
        simp only [List.zip_cons_cons, hp, hq]
        rcases hstep : unify fuel ctx ar p q with ⟨ar₁, e⟩
        have hev : Evolves ar ar₁ := by
          have h := (evolves_unify_block fuel).1 ctx ar p q
          rw [hstep] at h
          exact h
        cases e with
        | none =>
          simp only []
          exact ih ps (fuel + 1) ar₁ (by simpa using hlen)
            (fun i hi => lt_of_lt_of_le (hin1 i (by simp [hi])) hev.1)
            (fun i hi => lt_of_lt_of_le (hin2 i (by simp [hi])) hev.1)
            (fun i hi => isRestAt_stable hev (hin1 i (by simp [hi]))
              (hnr1 i (by simp [hi])))
            (fun i hi => isRestAt_stable hev (hin2 i (by simp [hi]))
              (hnr2 i (by simp [hi])))
        | some e => rfl

/-- C9: tuple width subtyping.  For tuples with no rest elements whose
element indices are all in range, a left tuple at least as long as the right
unifies by the sequential pairwise loop over the zipped element lists — the
left tuple's extra trailing elements are dropped by the truncating zip and
never unified — and succeeds exactly when every such pair unifies; when the
left tuple is strictly shorter (and, having no rest elements, lacks a
trailing rest), the result is the expected-tuple-length error with the arena
unchanged. -/
theorem c9_tuple_width_subtyping (fuel : Nat) (ctx : Context) (ar : Arena)
    (t1 t2 : Nat) (ts1 ts2 : List Nat)
    (h1 : getT ar t1 = .constructor "@@tuple" ts1)
    (h2 : getT ar t2 = .constructor "@@tuple" ts2)
    (hin1 : ∀ i ∈ ts1, i < ar.length) (hin2 : ∀ i ∈ ts2, i < ar.length)
    (hnr1 : ∀ i ∈ ts1, isRestAt ar i = false)
    (hnr2 : ∀ i ∈ ts2, isRestAt ar i = false) :
    (ts2.length ≤ ts1.length →
      unify (fuel + 1) ctx ar t1 t2 =
        unify_many_pairs (fuel + 1) ctx ar (List.zip ts1 ts2)
      ∧ ((unify (fuel + 1) ctx ar t1 t2).2 = none ↔
          ∀ k, (hk : k < (List.zip ts1 ts2).length) →
            (unify fuel ctx (pairsArena (fuel + 1) ctx ar (List.zip ts1 ts2) k)
              (List.zip ts1 ts2)[k].1 (List.zip ts1 ts2)[k].2).2 = none))
    ∧ (ts1.length < ts2.length →
      unify (fuel + 1) ctx ar t1 t2 =
        (ar, some (.expectedTupleLength ts2.length ts1.length))) := by
  have hv1 : (getT ar t1).isVar = false := by rw [h1]; rfl
  have hv2 : (getT ar t2).isVar = false := by rw [h2]; rfl
  have hp1 : prune (fuel + 1) ar t1 = t1 := prune_of_nonvar _ hv1
  have hp2 : prune (fuel + 1) ar t2 = t2 := prune_of_nonvar _ hv2
  have hs1 : skipsExpansionAt ar (prune (fuel + 1) ar t1) := by
    rw [hp1]
    exact skipsExpansionAt_of h1 (by rfl)
  have hs2 : skipsExpansionAt ar (prune (fuel + 1) ar t2) := by
    rw [hp2]
    exact skipsExpansionAt_of h2 (by rfl)
  have hdisp : unify (fuel + 1) ctx ar t1 t2 =
      unifyKinds (fuel + 1) ctx ar t1 t2 t1 t2 := by
    rw [unify_to_kinds fuel ctx ar t1 t2 hs1 hs2, hp1, hp2]
  have hlast : (match ts1.getLast? with
      | some last => isRestAt ar last
      | none => false) = false := by
    rcases hgl : ts1.getLast? with _ | last
    · rfl
    · obtain ⟨hne, hx⟩ := List.mem_getLast?_eq_getLast
        (show last ∈ ts1.getLast? from hgl)
      rw [hx]
      exact hnr1 _ (List.getLast_mem hne)
  have htt := unifyKinds_tuple fuel ctx ar t1 t2 t1 t2 ts1 ts2 h1 h2
  constructor
  · intro hle
    have hcond : (decide (ts1.length < ts2.length) &&
        !(match ts1.getLast? with
          | some last => isRestAt ar last
          | none => false)) = false := by
      simp [Nat.not_lt.mpr hle]
    rw [hdisp, htt, if_neg (by simp [hcond])]
    refine ⟨ute_eq_ump ctx ts2 ts1 (fuel + 1) ar hle hin1 hin2 hnr1 hnr2, ?_⟩
    rw [ute_eq_ump ctx ts2 ts1 (fuel + 1) ar hle hin1 hin2 hnr1 hnr2]
    exact ump_ok_iff fuel ctx (List.zip ts1 ts2) ar
  · intro hlt
    rw [hdisp, htt, if_pos (by simp [hlt, hlast])]

/-- Witness for C9 at a concrete pair of tuples: `[number, number]` against
`[number]` reduces to the pairwise loop over the zipped elements. -/
theorem c9_tuple_width_witness :
    getT c9Arena 2 = .constructor "@@tuple" [0, 1] ∧
    unify 4 ctx0 c9Arena 2 3 =
      unify_many_pairs 4 ctx0 c9Arena (List.zip [0, 1] [0]) :=
  ⟨rfl,
    ((c9_tuple_width_subtyping 3 ctx0 c9Arena 2 3 [0, 1] [0] rfl rfl
      (by decide) (by decide) (by decide) (by decide)).1 (by decide)).1⟩

theorem freshEvolves_refl (st : FreshState) : FreshEvolves st st :=
  ⟨le_refl _, [], by simp, by simp⟩

theorem freshEvolves_trans {s t u : FreshState} (h1 : FreshEvolves s t)
    (h2 : FreshEvolves t u) : FreshEvolves s u := by
  obtain ⟨hl1, e1, hm1, hb1⟩ := h1
  obtain ⟨hl2, e2, hm2, hb2⟩ := h2
  refine ⟨le_trans hl1 hl2, e1 ++ e2, by rw [hm2, hm1, List.append_assoc], ?_⟩
  intro pr hpr
  rcases List.mem_append.mp hpr with h | h
  · exact ⟨(hb1 pr h).1, lt_of_lt_of_le (hb1 pr h).2 hl2⟩
  · exact ⟨le_trans hl1 (hb2 pr h).1, (hb2 pr h).2⟩

theorem freshEvolves_grow (st : FreshState) (l : List Ty) :
    FreshEvolves st ⟨st.ar ++ l, st.mappings⟩ :=
  ⟨by simp, [], by simp, by simp⟩

theorem freshEvolves_newvar (st : FreshState) (p : Nat) (v : Ty) :
    FreshEvolves st ⟨st.ar ++ [v], st.mappings ++ [(p, st.ar.length)]⟩ := by
  refine ⟨by simp, [(p, st.ar.length)], rfl, ?_⟩
  intro pr hpr
  rw [List.mem_singleton] at hpr
  subst hpr
  exact ⟨le_refl _, by simp⟩

theorem freshRec_range :
    ∀ fuel,
      (∀ ctx st t, FreshEvolves st (freshRec fuel ctx st t).2)
      ∧ (∀ ctx st ts, FreshEvolves st (freshRecMany fuel ctx st ts).2)
      ∧ (∀ ctx st ps, FreshEvolves st (freshRecParams fuel ctx st ps).2)
      ∧ (∀ ctx st props, FreshEvolves st (freshRecProps fuel ctx st props).2) := by
  intro fuel
  induction fuel using Nat.strong_induction_on with
  | _ fuel ih =>
    have hrec : ∀ ctx st t, FreshEvolves st (freshRec fuel ctx st t).2 := by
      intro ctx st t
      rcases fuel with _ | fuel
      · rw [freshRec]
        exact freshEvolves_refl st
      · rw [freshRec]
        simp only [new_var_type, new_constructor, new_lit_type, new_func_type,
          new_object_type, new_rest_type]
        split
        · split
          · split
            · exact freshEvolves_refl st
            · exact freshEvolves_newvar st _ _
          · exact freshEvolves_refl st
        · exact freshEvolves_trans ((ih fuel (Nat.lt_succ_self fuel)).2.1 ctx st _)
            (freshEvolves_grow _ _)
        · exact freshEvolves_trans (freshEvolves_refl st) (freshEvolves_grow _ _)
        · exact freshEvolves_trans
            ((ih fuel (Nat.lt_succ_self fuel)).2.2.1 ctx st _)
            (freshEvolves_trans
              ((ih fuel (Nat.lt_succ_self fuel)).1 ctx _ _)
              (freshEvolves_grow _ _))
        · exact freshEvolves_trans
            ((ih fuel (Nat.lt_succ_self fuel)).2.2.2 ctx st _)
            (freshEvolves_grow _ _)
        · exact freshEvolves_trans ((ih fuel (Nat.lt_succ_self fuel)).1 ctx st _)
            (freshEvolves_grow _ _)
    have hmany : ∀ ctx st ts, FreshEvolves st (freshRecMany fuel ctx st ts).2 := by
      intro ctx st ts
      induction ts generalizing st with
      | nil => rw [freshRecMany]; exact freshEvolves_refl st
      | cons x rest ihl =>
        rw [freshRecMany]
        simp only []
        exact freshEvolves_trans (hrec ctx st x) (ihl _)
    have hparams : ∀ ctx st ps,
        FreshEvolves st (freshRecParams fuel ctx st ps).2 := by
      intro ctx st ps
      induction ps generalizing st with
      | nil => rw [freshRecParams]; exact freshEvolves_refl st
      | cons x rest ihl =>
        rw [freshRecParams]
        simp only []
        exact freshEvolves_trans (hrec ctx st x.t) (ihl _)
    have helem : ∀ ctx st e, FreshEvolves st (freshRecElem fuel ctx st e).2 := by
      intro ctx st e
      rcases e with p | m | ix <;> rw [freshRecElem]
      · exact hrec ctx st p.t
      · simp only []
        exact freshEvolves_trans (hparams ctx st m.params) (hrec ctx _ m.ret)
      · exact hrec ctx st ix.t
    have hprops : ∀ ctx st props,
        FreshEvolves st (freshRecProps fuel ctx st props).2 := by
      intro ctx st props
      induction props generalizing st with
      | nil => rw [freshRecProps]; exact freshEvolves_refl st
      | cons e rest ihl =>
        rw [freshRecProps]
        simp only []
        exact freshEvolves_trans (helem ctx st e) (ihl _)
    exact ⟨hrec, hmany, hparams, hprops⟩

/-- C4: freshening.  The visitor hook at a variable: a non-generic variable
is returned unchanged (shared, not copied — lambda parameters are in the
non-generic set), a generic variable already in the traversal's mapping is
replaced by its recorded copy, and a generic variable met for the first time
is replaced by a brand-new variable (the next arena slot) which is recorded
in the mapping.  Moreover the fresh variables recorded by two successive
instantiations of the same type are disjoint: every copy made by the first
call lies below the arena length at which the second call starts, and every
copy made by the second lies at or above it. -/
theorem c4_freshening (fuel : Nat) (ctx : Context) (st : FreshState)
    (t : Nat) (ar : Arena) (u : Nat) :
    (∀ id c, getT st.ar t = .variable id none c →
      (is_generic (fuel + 1) st.ar t ctx = false →
        freshRec (fuel + 1) ctx st t = (t, st))
      ∧ (∀ w, is_generic (fuel + 1) st.ar t ctx = true →
          freshLookup st.mappings t = some w →
          freshRec (fuel + 1) ctx st t = (w, st))
      ∧ (is_generic (fuel + 1) st.ar t ctx = true →
          freshLookup st.mappings t = none →
          freshRec (fuel + 1) ctx st t =
            (st.ar.length,
             ⟨st.ar ++ [.variable st.ar.length none none],
              st.mappings ++ [(t, st.ar.length)]⟩)))
    ∧ (∀ v,
        v ∈ ((freshRec fuel ctx ⟨ar, []⟩ u).2.mappings.map Prod.snd) →
        v ∈ ((freshRec fuel ctx
            ⟨(freshRec fuel ctx ⟨ar, []⟩ u).2.ar, []⟩ u).2.mappings.map
          Prod.snd) →
        False) := by
  constructor
  · intro id c hv
    have hp : prune (fuel + 1) st.ar t = t := by
      unfold prune
      rw [hv]
    refine ⟨?_, ?_, ?_⟩
    · intro hng
      rw [freshRec]
      simp [hp, hv, hng]
    · intro w hg hfound
      rw [freshRec]
      simp [hp, hv, hg, hfound]
    · intro hg hnone
      rw [freshRec]
      simp [hp, hv, hg, hnone, new_var_type]
  · intro v h1 h2
    obtain ⟨hl1, e1, hm1, hb1⟩ := (freshRec_range fuel).1 ctx ⟨ar, []⟩ u
    obtain ⟨hl2, e2, hm2, hb2⟩ :=
      (freshRec_range fuel).1 ctx ⟨(freshRec fuel ctx ⟨ar, []⟩ u).2.ar, []⟩ u
    rw [hm1] at h1
    rw [hm2] at h2
    simp only [List.nil_append, List.mem_map] at h1 h2
    obtain ⟨a1, ha1, hv1⟩ := h1
    obtain ⟨a2, ha2, hv2⟩ := h2
    have b1 := (hb1 a1 ha1).2
    have b2 := (hb2 a2 ha2).1
    rw [hv1] at b1
    rw [hv2] at b2
    simp only [] at b2
    omega

/-- Witness for C4 at a concrete generic variable with an empty mapping: the
variable is generic for the empty non-generic set, and freshening it
allocates the fresh variable `1` and records the pair `(0, 1)`. -/
theorem c4_freshening_witness :
    is_generic 4 c4Arena 0 ctx0 = true ∧
    freshRec 4 ctx0 ⟨c4Arena, []⟩ 0 =
      (1, ⟨c4Arena ++ [.variable 1 none none], [(0, 1)]⟩) :=
  ⟨by decide,
    by
      have h := ((c4_freshening 3 ctx0 ⟨c4Arena, []⟩ 0 c4Arena 0).1 0 none
        rfl).2.2 (by decide) rfl
      simpa using h⟩

theorem insertSorted_mem (x : Nat) :
    ∀ (l : List Nat) (y : Nat), y ∈ insertSorted x l ↔ y = x ∨ y ∈ l := by
  intro l
  induction l with
  | nil => intro y; simp [insertSorted]
  | cons z zs ih =>
    intro y
    rw [insertSorted]
    split
    · simp [or_comm, or_assoc, or_left_comm]
    · split
      · rename_i hlt heqz
        subst heqz
        simp only [List.mem_cons]
        constructor
        · intro h; exact Or.inr h
        · rintro (rfl | h)
          · exact Or.inl rfl
          · exact h
      · simp only [List.mem_cons, ih y]
        constructor
        · rintro (rfl | h)
          · exact Or.inr (Or.inl rfl)
          · rcases h with h | h
            · exact Or.inl h
            · exact Or.inr (Or.inr h)
        · rintro (h | h)
          · exact Or.inr (Or.inl h)
          · rcases h with rfl | h
            · exact Or.inl rfl
            · exact Or.inr (Or.inr h)

theorem insertSorted_sorted (x : Nat) :
    ∀ (l : List Nat), List.Sorted (· < ·) l →
      List.Sorted (· < ·) (insertSorted x l) := by
  intro l
  induction l with
  | nil => intro _; simp [insertSorted]
  | cons z zs ih =>
    intro hs
    rw [List.sorted_cons] at hs
    rw [insertSorted]
    split
    · rename_i hlt
      rw [List.sorted_cons]
      refine ⟨?_, List.sorted_cons.mpr hs⟩
      intro b hb
      rcases List.mem_cons.mp hb with rfl | hb
      · exact hlt
      · exact lt_trans hlt (hs.1 b hb)
    · split
      · exact List.sorted_cons.mpr hs
      · rename_i hnlt hne
        rw [List.sorted_cons]
        refine ⟨?_, ih hs.2⟩
        intro b hb
        rcases (insertSorted_mem x zs b).mp hb with rfl | hb
        · omega
        · exact hs.1 b hb

theorem bucketStep_keys (acc : List (String × List Nat)) (kt : String × Nat) :
    (bucketStep acc kt).map Prod.fst =
      (if acc.any (fun b => b.1 == kt.1) then acc.map Prod.fst
       else acc.map Prod.fst ++ [kt.1]) := by
  rw [bucketStep]
  split
  · simp only [List.map_map]
    refine List.map_congr_left ?_
    intro b hb
    simp only [Function.comp]
    split <;> rfl
  · simp

theorem bucketStep_sorted (acc : List (String × List Nat)) (kt : String × Nat)
    (hs : ∀ b ∈ acc, List.Sorted (· < ·) b.2) :
    ∀ b ∈ bucketStep acc kt, List.Sorted (· < ·) b.2 := by
  intro b hb
  rw [bucketStep] at hb
  split at hb
  · rcases List.mem_map.mp hb with ⟨a, ha, hab⟩
    by_cases hk : a.1 == kt.1
    · rw [if_pos hk] at hab
      subst hab
      exact insertSorted_sorted kt.2 a.2 (hs a ha)
    · rw [if_neg hk] at hab
      subst hab
      exact hs a ha
  · rcases List.mem_append.mp hb with h | h
    · exact hs b h
    · rw [List.mem_singleton] at h
      subst h
      simp

theorem bucketStep_mem_of_ne (acc : List (String × List Nat))
    (kt : String × Nat) (s : String) (ts : List Nat) (hne : s ≠ kt.1) :
    ((s, ts) ∈ bucketStep acc kt ↔ (s, ts) ∈ acc) := by
  rw [bucketStep]
  split
  · constructor
    · intro h
      rcases List.mem_map.mp h with ⟨a, ha, hab⟩
      by_cases hk : a.1 == kt.1
      · rw [if_pos hk] at hab
        exfalso
        apply hne
        have : a.1 = s := by
          have := congrArg Prod.fst hab
          simpa using this
        rw [← this]
        exact beq_iff_eq.mp hk
      · rw [if_neg hk] at hab
        subst hab
        exact ha
    · intro h
      refine List.mem_map.mpr ⟨(s, ts), h, ?_⟩
      rw [if_neg]
      simp [hne]
  · constructor
    · intro h
      rcases List.mem_append.mp h with h | h
      · exact h
      · rw [List.mem_singleton] at h
        exact absurd (congrArg Prod.fst h) (by simpa using hne)
    · intro h
      exact List.mem_append.mpr (Or.inl h)

theorem bucketStep_mem_eq (acc : List (String × List Nat)) (kt : String × Nat)
    (ts : List Nat) :
    ((kt.1, ts) ∈ bucketStep acc kt ↔
      (if acc.any (fun b => b.1 == kt.1) then
        ∃ ts0, (kt.1, ts0) ∈ acc ∧ ts = insertSorted kt.2 ts0
       else (kt.1, ts) ∈ acc ∨ ts = [kt.2])) := by
  rw [bucketStep]
  split
  · constructor
    · intro h
      rcases List.mem_map.mp h with ⟨a, ha, hab⟩
      by_cases hk : a.1 == kt.1
      · rw [if_pos hk] at hab
        refine ⟨a.2, ?_, ?_⟩
        · have h1 : a.1 = kt.1 := beq_iff_eq.mp hk
          rw [← h1]
          exact ha
        · have := congrArg Prod.snd hab
          simpa using this.symm
      · rw [if_neg hk] at hab
        have h1 := congrArg Prod.fst hab
        simp at h1
        rw [h1] at hk
        simp at hk
    · rintro ⟨ts0, h0, rfl⟩
      refine List.mem_map.mpr ⟨(kt.1, ts0), h0, ?_⟩
      rw [if_pos (by simp)]
  · constructor
    · intro h
      rcases List.mem_append.mp h with h | h
      · exact Or.inl h
      · rw [List.mem_singleton] at h
        right
        have := congrArg Prod.snd h
        simpa using this
    · rintro (h | rfl)
      · exact List.mem_append.mpr (Or.inl h)
      · exact List.mem_append.mpr (Or.inr (by simp))

theorem keys_nodup_unique :
    ∀ (acc : List (String × List Nat)), (acc.map Prod.fst).Nodup →
      ∀ s ts ts', (s, ts) ∈ acc → (s, ts') ∈ acc → ts = ts' := by
  intro acc
  induction acc with
  | nil => intro _ s ts ts' h; simp at h
  | cons a rest ih =>
    intro hnd s ts ts' h1 h2
    simp only [List.map_cons, List.nodup_cons] at hnd
    rcases List.mem_cons.mp h1 with h1 | h1 <;>
      rcases List.mem_cons.mp h2 with h2 | h2
    · rw [← h1] at h2
      injection h2 with heq hts
      exact hts.symm
    · exfalso
      apply hnd.1
      rw [← h1]
      exact List.mem_map.mpr ⟨(s, ts'), h2, rfl⟩
    · exfalso
      apply hnd.1
      rw [← h2]
      exact List.mem_map.mpr ⟨(s, ts), h1, rfl⟩
    · exact ih hnd.2 s ts ts' h1 h2

theorem exists_bucket_of_any {acc : List (String × List Nat)} {s0 : String}
    (h : acc.any (fun b => b.1 == s0) = true) : ∃ ts, (s0, ts) ∈ acc := by
  simp only [List.any_eq_true] at h
  obtain ⟨b, hb, hbeq⟩ := h
  refine ⟨b.2, ?_⟩
  have h1 : b.1 = s0 := eq_of_beq hbeq
  rw [← h1]
  simpa using hb

theorem not_bucket_of_any_false {acc : List (String × List Nat)} {s0 : String}
    (h : acc.any (fun b => b.1 == s0) = false) : ∀ ts, (s0, ts) ∉ acc := by
  intro ts hmem
  have h2 : acc.any (fun b => b.1 == s0) = true :=
    List.any_eq_true.mpr ⟨(s0, ts), hmem, by simp⟩
  rw [h2] at h
  cases h

theorem bucketize_fold_spec :
    ∀ (pairs : List (String × Nat)) (acc : List (String × List Nat)),
      ((acc.map Prod.fst).Nodup) →
      (∀ b ∈ acc, List.Sorted (· < ·) b.2) →
      (((pairs.foldl bucketStep acc).map Prod.fst).Nodup
      ∧ (∀ b ∈ pairs.foldl bucketStep acc, List.Sorted (· < ·) b.2)
      ∧ (∀ s, s ∈ (pairs.foldl bucketStep acc).map Prod.fst ↔
          s ∈ acc.map Prod.fst ∨ ∃ t, (s, t) ∈ pairs)
      ∧ (∀ s ts t, (s, ts) ∈ pairs.foldl bucketStep acc →
          (t ∈ ts ↔ (∃ ts0, (s, ts0) ∈ acc ∧ t ∈ ts0) ∨ (s, t) ∈ pairs))) := by
  intro pairs
  induction pairs with
  | nil =>
    intro acc hnd hs
    refine ⟨hnd, hs, by simp, ?_⟩
    intro s ts t hmem
    simp only [List.not_mem_nil, or_false]
    constructor
    · intro ht
      exact ⟨ts, hmem, ht⟩
    · rintro ⟨ts0, h0, ht0⟩
      rw [keys_nodup_unique acc hnd s ts ts0 hmem h0]
      exact ht0
  | cons kt rest ih =>
    intro acc hnd hs
    rw [List.foldl_cons]
    have hnd' : ((bucketStep acc kt).map Prod.fst).Nodup := by
      rw [bucketStep_keys]
      split
      · exact hnd
      · rename_i hany
        rw [List.nodup_append]
        refine ⟨hnd, List.nodup_singleton _, ?_⟩
        intro a ha hb
        rw [List.mem_singleton] at hb
        subst hb
        rcases List.mem_map.mp ha with ⟨b, hb, hfst⟩
        exact hany (List.any_eq_true.mpr ⟨b, hb, by simp [hfst]⟩)
    have hs' := bucketStep_sorted acc kt hs
    obtain ⟨c1, c2, c3, c4⟩ := ih (bucketStep acc kt) hnd' hs'
    refine ⟨c1, c2, ?_, ?_⟩
    · intro s
      rw [c3 s]
      rw [bucketStep_keys]
      constructor
      · rintro (h | ⟨t, ht⟩)
        · split at h
          · exact Or.inl h
          · rcases List.mem_append.mp h with h | h
            · exact Or.inl h
            · rw [List.mem_singleton] at h
              subst h
              exact Or.inr ⟨kt.2, by simp⟩
        · exact Or.inr ⟨t, by simp [ht]⟩
      · rintro (h | ⟨t, ht⟩)
        · left
          split
          · exact h
          · exact List.mem_append.mpr (Or.inl h)
        · rcases List.mem_cons.mp ht with h | h
          · have hs0 : s = kt.1 := congrArg Prod.fst h
            subst hs0
            split
            · rename_i hany
              obtain ⟨ts0, hts0⟩ := exists_bucket_of_any hany
              exact Or.inl (List.mem_map.mpr ⟨(kt.1, ts0), hts0, rfl⟩)
            · exact Or.inl (List.mem_append.mpr (Or.inr (by simp)))
          · exact Or.inr ⟨t, h⟩
    · intro s ts t hmem
      rw [c4 s ts t hmem]
      by_cases hss : s = kt.1
      · subst hss
        constructor
        · rintro (⟨ts0, h0, ht0⟩ | h)
          · rw [bucketStep_mem_eq] at h0
            split at h0
            · obtain ⟨ts1, h1, rfl⟩ := h0
              rcases (insertSorted_mem kt.2 ts1 t).mp ht0 with rfl | ht1
              · exact Or.inr (List.mem_cons.mpr (Or.inl (by simp)))
              · exact Or.inl ⟨ts1, h1, ht1⟩
            · rcases h0 with h0 | rfl
              · exact Or.inl ⟨ts0, h0, ht0⟩
              · rw [List.mem_singleton] at ht0
                subst ht0
                exact Or.inr (List.mem_cons.mpr (Or.inl (by simp)))
          · exact Or.inr (List.mem_cons.mpr (Or.inr h))
        · rintro (⟨ts0, h0, ht0⟩ | h)
          · left
            rcases hany : acc.any (fun b => b.1 == kt.1) with _ | _
            · exact absurd h0 (not_bucket_of_any_false hany ts0)
            · refine ⟨insertSorted kt.2 ts0, ?_, ?_⟩
              · rw [bucketStep_mem_eq, if_pos hany]
                exact ⟨ts0, h0, rfl⟩
              · rw [insertSorted_mem]
                exact Or.inr ht0
          · rcases List.mem_cons.mp h with h | h
            · have ht : t = kt.2 := congrArg Prod.snd h
              subst ht
              left
              rcases hany : acc.any (fun b => b.1 == kt.1) with _ | _
              · refine ⟨[kt.2], ?_, by simp⟩
                rw [bucketStep_mem_eq, if_neg (by simp [hany])]
                exact Or.inr rfl
              · obtain ⟨ts1, h1⟩ := exists_bucket_of_any hany
                refine ⟨insertSorted kt.2 ts1, ?_, ?_⟩
                · rw [bucketStep_mem_eq, if_pos hany]
                  exact ⟨ts1, h1, rfl⟩
                · rw [insertSorted_mem]
                  exact Or.inl rfl
            · exact Or.inr h
      · constructor
        · rintro (⟨ts0, h0, ht0⟩ | h)
          · exact Or.inl ⟨ts0, (bucketStep_mem_of_ne acc kt s ts0 hss).mp h0, ht0⟩
          · exact Or.inr (List.mem_cons.mpr (Or.inr h))
        · rintro (⟨ts0, h0, ht0⟩ | h)
          · exact Or.inl ⟨ts0, (bucketStep_mem_of_ne acc kt s ts0 hss).mpr h0, ht0⟩
          · rcases List.mem_cons.mp h with h | h
            · exact absurd (congrArg Prod.fst h) hss
            · exact Or.inr h

theorem bucketize_spec (pairs : List (String × Nat)) :
    ((bucketize pairs).map Prod.fst).Nodup
    ∧ (∀ b ∈ bucketize pairs, List.Sorted (· < ·) b.2)
    ∧ (∀ s, s ∈ (bucketize pairs).map Prod.fst ↔ ∃ t, (s, t) ∈ pairs)
    ∧ (∀ s ts t, (s, ts) ∈ bucketize pairs → (t ∈ ts ↔ (s, t) ∈ pairs)) := by
  obtain ⟨c1, c2, c3, c4⟩ :=
    bucketize_fold_spec pairs [] (by simp) (by simp)
  refine ⟨c1, c2, ?_, ?_⟩
  · intro s
    rw [bucketize]
    rw [c3 s]
    simp
  · intro s ts t hmem
    rw [bucketize] at hmem
    rw [c4 s ts t hmem]
    simp

theorem insertProp_perm (p : TProp) :
    ∀ l, (insertProp p l).Perm (p :: l) := by
  intro l
  induction l with
  | nil => simp [insertProp]
  | cons q qs ih =>
    rw [insertProp]
    split
    · exact List.Perm.refl _
    · exact (ih.cons q).trans (List.Perm.swap p q qs)

theorem sortPropsByName_perm : ∀ ps, (sortPropsByName ps).Perm ps := by
  intro ps
  induction ps with
  | nil => simp [sortPropsByName]
  | cons p rest ih =>
    rw [sortPropsByName, List.foldr_cons]
    exact (insertProp_perm p _).trans (ih.cons p)

theorem insertProp_sorted (p : TProp) :
    ∀ l, List.Sorted (fun a b : TProp => a.name.text ≤ b.name.text) l →
      List.Sorted (fun a b : TProp => a.name.text ≤ b.name.text)
        (insertProp p l) := by
  intro l
  induction l with
  | nil => intro _; simp [insertProp]
  | cons q qs ih =>
    intro hs
    rw [List.sorted_cons] at hs
    rw [insertProp]
    split
    · rename_i hle
      rw [List.sorted_cons]
      refine ⟨?_, List.sorted_cons.mpr hs⟩
      intro b hb
      rcases List.mem_cons.mp hb with rfl | hb
      · exact hle
      · exact le_trans hle (hs.1 b hb)
    · rename_i hnle
      rw [List.sorted_cons]
      refine ⟨?_, ih hs.2⟩
      intro b hb
      rcases List.mem_cons.mp ((insertProp_perm p qs).mem_iff.mp hb) with rfl | h
      · exact le_of_not_le hnle
      · exact hs.1 b h

theorem sortPropsByName_sorted :
    ∀ ps, List.Sorted (fun a b : TProp => a.name.text ≤ b.name.text)
      (sortPropsByName ps) := by
  intro ps
  induction ps with
  | nil => simp [sortPropsByName]
  | cons p rest ih =>
    rw [sortPropsByName, List.foldr_cons]
    exact insertProp_sorted p _ ih

theorem elemsOfBuckets_append :
    ∀ (B : List (String × List Nat)) (ar : Arena),
      ∃ l, (elemsOfBuckets ar B).2 = ar ++ l := by
  intro B
  induction B with
  | nil => intro ar; exact ⟨[], by simp [elemsOfBuckets]⟩
  | cons b rest ih =>
    intro ar
    rcases b with ⟨name, ts⟩
    rcases ts with _ | ⟨t0, ts'⟩
    · rw [elemsOfBuckets]
      simp only [new_intersection_type, new_constructor]
      obtain ⟨l, hl⟩ := ih (ar ++ [Ty.constructor "@@intersection" []])
      exact ⟨Ty.constructor "@@intersection" [] :: l, by
        simp only [hl, List.append_assoc, List.singleton_append]⟩
    · rcases ts' with _ | ⟨t1, more⟩
      · rw [elemsOfBuckets]
        simp only []
        exact ih ar
      · rw [elemsOfBuckets]
        simp only [new_intersection_type, new_constructor]
        obtain ⟨l, hl⟩ :=
          ih (ar ++ [Ty.constructor "@@intersection" (t0 :: t1 :: more)])
        exact ⟨Ty.constructor "@@intersection" (t0 :: t1 :: more) :: l, by
          simp only [hl, List.append_assoc, List.singleton_append]⟩

theorem elemsOfBuckets_names :
    ∀ (B : List (String × List Nat)) (ar : Arena),
      (elemsOfBuckets ar B).1.map (fun p => p.name) =
        B.map (fun b => TPropKey.stringKey b.1) := by
  intro B
  induction B with
  | nil => intro ar; simp [elemsOfBuckets]
  | cons b rest ih =>
    intro ar
    rcases b with ⟨name, ts⟩
    rcases ts with _ | ⟨t0, ts'⟩
    · rw [elemsOfBuckets]
      simp only [List.map_cons]
      rw [ih]
    · rcases ts' with _ | ⟨t1, more⟩
      · rw [elemsOfBuckets]
        simp only [List.map_cons]
        rw [ih]
      · rw [elemsOfBuckets]
        simp only [List.map_cons]
        rw [ih]

theorem elemsOfBuckets_flags :
    ∀ (B : List (String × List Nat)) (ar : Arena),
      ∀ p ∈ (elemsOfBuckets ar B).1, p.optional = false ∧ p.mutable = false := by
  intro B
  induction B with
  | nil => intro ar p hp; simp [elemsOfBuckets] at hp
  | cons b rest ih =>
    intro ar p hp
    rcases b with ⟨name, ts⟩
    rcases ts with _ | ⟨t0, ts'⟩
    · rw [elemsOfBuckets] at hp
      simp only [List.mem_cons] at hp
      rcases hp with rfl | hp
      · exact ⟨rfl, rfl⟩
      · exact ih _ p hp
    · rcases ts' with _ | ⟨t1, more⟩
      · rw [elemsOfBuckets] at hp
        simp only [List.mem_cons] at hp
        rcases hp with rfl | hp
        · exact ⟨rfl, rfl⟩
        · exact ih _ p hp
      · rw [elemsOfBuckets] at hp
        simp only [List.mem_cons] at hp
        rcases hp with rfl | hp
        · exact ⟨rfl, rfl⟩
        · exact ih _ p hp

theorem getT_append_self (ar : Arena) (node : Ty) :
    getT (ar ++ [node]) ar.length = node := by
  simp only [getT, List.getD, List.get?_eq_getElem?]
  rw [List.getElem?_concat_length]
  rfl

theorem elemsOfBuckets_types :
    ∀ (B : List (String × List Nat)) (ar : Arena) (k : Nat)
      (bk : String × List Nat) (pk : TProp),
      B.get? k = some bk →
      (elemsOfBuckets ar B).1.get? k = some pk →
      (bk.2 = [pk.t] ∨
        (pk.t < (elemsOfBuckets ar B).2.length ∧
          getT (elemsOfBuckets ar B).2 pk.t =
            .constructor "@@intersection" bk.2)) := by
  intro B
  induction B with
  | nil => intro ar k bk pk h1; simp at h1
  | cons b rest ih =>
    intro ar k bk pk h1 h2
    rcases b with ⟨name, ts⟩
    rcases ts with _ | ⟨t0, ts'⟩
    · rw [elemsOfBuckets] at h2 ⊢
      simp only [new_intersection_type, new_constructor] at h2 ⊢
      rcases k with _ | k
      · rw [List.get?_cons_zero] at h1 h2
        injection h1 with h1
        injection h2 with h2
        subst h1
        subst h2
        right
        obtain ⟨l, hl⟩ := elemsOfBuckets_append rest
          (ar ++ [Ty.constructor "@@intersection" []])
        rw [hl]
        refine ⟨by simp, ?_⟩
        rw [getT_append _ _ _ (by simp), getT_append_self]
      · rw [List.get?_cons_succ] at h1 h2
        exact ih _ k bk pk h1 h2
    · rcases ts' with _ | ⟨t1, more⟩
      · rw [elemsOfBuckets] at h2 ⊢
        simp only [] at h2 ⊢
        rcases k with _ | k
        · rw [List.get?_cons_zero] at h1 h2
          injection h1 with h1
          injection h2 with h2
          subst h1
          subst h2
          left
          rfl
        · rw [List.get?_cons_succ] at h1 h2
          exact ih _ k bk pk h1 h2
      · rw [elemsOfBuckets] at h2 ⊢
        simp only [new_intersection_type, new_constructor] at h2 ⊢
        rcases k with _ | k
        · rw [List.get?_cons_zero] at h1 h2
          injection h1 with h1
          injection h2 with h2
          subst h1
          subst h2
          right
          obtain ⟨l, hl⟩ := elemsOfBuckets_append rest
            (ar ++ [Ty.constructor "@@intersection" (t0 :: t1 :: more)])
          rw [hl]
          refine ⟨by simp, ?_⟩
          rw [getT_append _ _ _ (by simp), getT_append_self]
        · rw [List.get?_cons_succ] at h1 h2
          exact ih _ k bk pk h1 h2

theorem simplify_arena_ext (ar : Arena) (inTypes : List Nat)
    (pairs : List (String × Nat)) (hok : objPropPairs ar inTypes = .ok pairs) :
    ∃ l, (simplify_intersection ar inTypes).1 =
      (elemsOfBuckets ar (bucketize pairs)).2 ++ l := by
  rw [simplify_intersection]
  simp only [hok]
  split
  · split
    · exact ⟨[], by simp⟩
    · simp only [new_object_type]
      exact ⟨_, rfl⟩
  · simp only [new_intersection_type, new_constructor]
    split
    · exact ⟨_, rfl⟩
    · simp only [new_object_type]
      exact ⟨_, by rw [List.append_assoc]⟩
  · simp only [new_intersection_type, new_constructor]
    split
    · exact ⟨_, rfl⟩
    · simp only [new_object_type]
      exact ⟨_, by rw [List.append_assoc]⟩

theorem sortPropsByName_ne_nil {ps : List TProp} (h : ps ≠ []) :
    sortPropsByName ps ≠ [] := by
  intro hcon
  apply h
  have hlen := (sortPropsByName_perm ps).length_eq
  rw [hcon] at hlen
  exact List.length_eq_zero.mp hlen.symm

/-- C10: intersection merging.  Given that collecting the object inputs'
properties succeeds with the pair list `pairs` (no method or index
signatures), the produced property list has every property non-optional and
non-mutable, is sorted by ascending name, has pairwise-distinct names, and
carries exactly the names occurring in `pairs`; each bucket is the sorted
duplicate-free set of the types recorded for its name, and positionally each
produced property keeps a singleton bucket's type verbatim and otherwise
points at a freshly allocated intersection of the bucket; non-object inputs
are kept verbatim in front of the merged object, and a lone remaining
component is returned unwrapped. -/
theorem c10_simplify_intersection (ar : Arena) (inTypes : List Nat)
    (pairs : List (String × Nat))
    (hok : objPropPairs ar inTypes = .ok pairs) :
    (∀ p ∈ sortPropsByName (elemsOfBuckets ar (bucketize pairs)).1,
        p.optional = false ∧ p.mutable = false)
    ∧ List.Sorted (fun a b : TProp => a.name.text ≤ b.name.text)
        (sortPropsByName (elemsOfBuckets ar (bucketize pairs)).1)
    ∧ ((sortPropsByName (elemsOfBuckets ar (bucketize pairs)).1).map
        (fun p => p.name)).Nodup
    ∧ (∀ s, (∃ p ∈ sortPropsByName (elemsOfBuckets ar (bucketize pairs)).1,
          p.name = .stringKey s) ↔ ∃ t, (s, t) ∈ pairs)
    ∧ (∀ b ∈ bucketize pairs, List.Sorted (· < ·) b.2
        ∧ ∀ t, (t ∈ b.2 ↔ (b.1, t) ∈ pairs))
    ∧ (∀ k bk pk, (bucketize pairs).get? k = some bk →
        (elemsOfBuckets ar (bucketize pairs)).1.get? k = some pk →
        pk.name = .stringKey bk.1 ∧
        (bk.2 = [pk.t] ∨
          getT (simplify_intersection ar inTypes).1 pk.t =
            .constructor "@@intersection" bk.2))
    ∧ (∀ t, (elemsOfBuckets ar (bucketize pairs)).1 = [] →
        inTypes.filter (fun t => !isObjectAt ar t) = [t] →
        simplify_intersection ar inTypes =
          ((elemsOfBuckets ar (bucketize pairs)).2, Except.ok t))
    ∧ ((elemsOfBuckets ar (bucketize pairs)).1 ≠ [] →
        inTypes.filter (fun t => !isObjectAt ar t) = [] →
        simplify_intersection ar inTypes =
          ((elemsOfBuckets ar (bucketize pairs)).2 ++
            [Ty.object ((sortPropsByName
              (elemsOfBuckets ar (bucketize pairs)).1).map TObjElem.prop)],
           Except.ok (elemsOfBuckets ar (bucketize pairs)).2.length))
    ∧ ((elemsOfBuckets ar (bucketize pairs)).1 ≠ [] →
        ∀ t0 nos, inTypes.filter (fun t => !isObjectAt ar t) = t0 :: nos →
        simplify_intersection ar inTypes =
          ((elemsOfBuckets ar (bucketize pairs)).2 ++
            [Ty.object ((sortPropsByName
              (elemsOfBuckets ar (bucketize pairs)).1).map TObjElem.prop)] ++
            [Ty.constructor "@@intersection"
              (t0 :: (nos ++ [(elemsOfBuckets ar (bucketize pairs)).2.length]))],
           Except.ok ((elemsOfBuckets ar (bucketize pairs)).2 ++
            [Ty.object ((sortPropsByName
              (elemsOfBuckets ar (bucketize pairs)).1).map
                TObjElem.prop)]).length)) := by
  obtain ⟨hnd, hsorted, hkeys, hbmem⟩ := bucketize_spec pairs
  refine ⟨?_, sortPropsByName_sorted _, ?_, ?_, ?_, ?_, ?_, ?_, ?_⟩
  · intro p hp
    exact elemsOfBuckets_flags _ ar p
      ((sortPropsByName_perm _).mem_iff.mp hp)
  · have hPnd : ((elemsOfBuckets ar (bucketize pairs)).1.map
        (fun p => p.name)).Nodup := by
      rw [elemsOfBuckets_names]
      have h2 : ((bucketize pairs).map Prod.fst).map TPropKey.stringKey =
          (bucketize pairs).map (fun b => TPropKey.stringKey b.1) := by
        rw [List.map_map]
        rfl
      rw [← h2]
      exact List.Nodup.map (fun a b hab => by injection hab) hnd
    exact (((sortPropsByName_perm _).map (fun p => p.name)).nodup_iff).mpr hPnd
  · intro s
    constructor
    · rintro ⟨p, hp, hname⟩
      have hp2 := (sortPropsByName_perm _).mem_iff.mp hp
      have hmem : p.name ∈ (bucketize pairs).map
          (fun b => TPropKey.stringKey b.1) := by
        rw [← elemsOfBuckets_names _ ar]
        exact List.mem_map.mpr ⟨p, hp2, rfl⟩
      rcases List.mem_map.mp hmem with ⟨b, hb, hbn⟩
      have hs : b.1 = s := by
        rw [hname] at hbn
        injection hbn
      refine (hkeys s).mp ?_
      rw [← hs]
      exact List.mem_map.mpr ⟨b, hb, rfl⟩
    · intro ht
      rcases List.mem_map.mp ((hkeys s).mpr ht) with ⟨b, hb, hbs⟩
      have h2 : TPropKey.stringKey s ∈
          (bucketize pairs).map (fun b => TPropKey.stringKey b.1) :=
        List.mem_map.mpr ⟨b, hb, by rw [hbs]⟩
      rw [← elemsOfBuckets_names _ ar] at h2
      rcases List.mem_map.mp h2 with ⟨p, hp, hpn⟩
      exact ⟨p, (sortPropsByName_perm _).mem_iff.mpr hp, hpn⟩
  · intro b hb
    exact ⟨hsorted b hb, fun t => hbmem b.1 b.2 t hb⟩
  · intro k bk pk h1 h2
    constructor
    · have hm : ((elemsOfBuckets ar (bucketize pairs)).1.map
          (fun p => p.name)).get? k =
          ((bucketize pairs).map (fun b => TPropKey.stringKey b.1)).get? k := by
        rw [elemsOfBuckets_names]
      rw [List.get?_map, List.get?_map, h1, h2] at hm
      simp only [Option.map_some'] at hm
      injection hm
    · rcases elemsOfBuckets_types (bucketize pairs) ar k bk pk h1 h2 with
        h | ⟨hb, hg⟩
      · exact Or.inl h
      · right
        obtain ⟨l, hl⟩ := simplify_arena_ext ar inTypes pairs hok
        rw [hl, getT_append _ _ _ hb]
        exact hg
  · intro t hP hfil
    rw [simplify_intersection]
    simp [hok, hP, hfil, sortPropsByName]
  · intro hne hfil
    have hEmp : ((sortPropsByName
        (elemsOfBuckets ar (bucketize pairs)).1).map TObjElem.prop).isEmpty =
        false := by
      rcases hsp : sortPropsByName (elemsOfBuckets ar (bucketize pairs)).1 with
        _ | ⟨a, la⟩
      · exact absurd hsp (sortPropsByName_ne_nil hne)
      · simp
    rw [simplify_intersection]
    simp [hok, hfil, hEmp, new_object_type]
  · intro hne t0 nos hfil
    have hEmp : ((sortPropsByName
        (elemsOfBuckets ar (bucketize pairs)).1).map TObjElem.prop).isEmpty =
        false := by
      rcases hsp : sortPropsByName (elemsOfBuckets ar (bucketize pairs)).1 with
        _ | ⟨a, la⟩
      · exact absurd hsp (sortPropsByName_ne_nil hne)
      · simp
    rw [simplify_intersection]
    rcases nos with _ | ⟨n1, nrest⟩ <;>
      simp [hok, hfil, hEmp, new_object_type, new_intersection_type,
        new_constructor]

/-- Witness for C10 at a concrete mixed input: merging the object input
`{a: number}` with the non-object input `string` keeps `string` verbatim in
front and wraps the two remaining components in an intersection. -/
theorem c10_simplify_witness :
    simplify_intersection c10Arena [1, 2] =
      (c10Arena ++ [.object [.prop ⟨.stringKey "a", false, false, 0⟩]] ++
        [.constructor "@@intersection" [2, 3]], .ok 4) :=
  (c10_simplify_intersection c10Arena [1, 2] [("a", 0)]
    rfl).2.2.2.2.2.2.2.2 (by decide) 2 [] rfl

end Escalier
